import Mathlib

/-!
# eventbus: a sequential model of the topic registry and delivery engine

The development embeds `internal/typedsyncmap/typedsyncmap.go` and `eventbus.go`.

* Go pointers (`*topic`, `*Subscription`) are indices into two object stores kept in
  `World`; allocation appends to the store, so a fresh pointer is the old length.
* Go's `sync.Map` is an association list with the sequential semantics documented for
  `sync.Map`.
* A Go channel is a FIFO buffer with a capacity and a closed flag.  There is no
  concurrent receiver in a sequential run, so a send on a channel whose buffer is at
  capacity parks the sender for good (`Fault.blocked`).
* A Go `map[*Subscription]*Subscription` used as a set is a list; the list order stands
  for the iteration order of `range`.
* Mutexes are omitted: every operation runs to completion before the next starts.  Where a
  claim is about other goroutines, their steps are the critical sections of the source, run
  as a whole between two steps of the call under study.
* What the Go runtime decides is a parameter: the largest size `make(chan Event, n)` accepts
  (`ChanLimit`) and which values of a type are nil interface values (`Boxed`).
* A runtime panic, a parked sender and an exhausted recursion budget end an operation
  with `Res.fail`, which still carries the memory as it was at that point.
-/

set_option autoImplicit false

/-! ## Go's `sync.Map`, sequential semantics -/

namespace sync

/-- The entries of a `sync.Map`; a key occurs at most once in maps built by the methods below. -/
abbrev Map (K V : Type) := List (K × V)

/-- Method `sync.Map.Load`: the value stored under `key`, if any. -/
def Map.Load {K V : Type} [DecidableEq K] : Map K V → K → Option V
  | [], _ => none
  | (k, v) :: rest, key => if k = key then some v else Map.Load rest key

/-- Method `sync.Map.Store`: sets the value for `key`, replacing an existing entry. -/
def Map.Store {K V : Type} [DecidableEq K] : Map K V → K → V → Map K V
  | [], key, value => [(key, value)]
  | (k, v) :: rest, key, value =>
    if k = key then (key, value) :: rest else (k, v) :: Map.Store rest key value

/-- Method `sync.Map.Delete`: removes the entry of `key`. -/
def Map.Delete {K V : Type} [DecidableEq K] : Map K V → K → Map K V
  | [], _ => []
  | (k, v) :: rest, key => if k = key then Map.Delete rest key else (k, v) :: Map.Delete rest key

/-- Method `sync.Map.LoadAndDelete`: removes the entry of `key` and returns the old value. -/
def Map.LoadAndDelete {K V : Type} [DecidableEq K] (m : Map K V) (key : K) : Map K V × Option V :=
  (Map.Delete m key, Map.Load m key)

/-- Method `sync.Map.LoadOrStore`: the existing value when present (`loaded = true`),
otherwise stores `value` and returns it (`loaded = false`). -/
def Map.LoadOrStore {K V : Type} [DecidableEq K] (m : Map K V) (key : K) (value : V) :
    Map K V × V × Bool :=
  match Map.Load m key with
  | some actual => (m, actual, true)
  | none => (Map.Store m key value, value, false)

end sync

/-! ## `internal/typedsyncmap` -/

namespace typedsyncmap

/-- What the wrapper needs to know of the Go type `V` of its values: `isNilInterface v` says
that `v` is the nil value of an interface type.  Converted to `any`, as every value put into
the `sync.Map` is, such a value is the nil `any`; the value of a non-interface type (a number,
a string, a pointer, a struct) never is. -/
class Boxed (V : Type) where
  isNilInterface : V → Bool

/-- The type `V` is not an interface type: none of its values is the nil interface. -/
class NeverNil (V : Type) [Boxed V] : Prop where
  not_nil : ∀ v : V, Boxed.isNilInterface v = false

/-- Numbers and pointers (a pointer is an index into an object store) are not interface
values. -/
instance instBoxedNat : Boxed Nat := ⟨fun _ => false⟩

instance instNeverNilNat : NeverNil Nat := ⟨fun _ => rfl⟩

/-- A Go interface type such as `error` or `any` over the values of `α`: `none` is the nil
interface value. -/
instance instBoxedOption {α : Type} : Boxed (Option α) := ⟨fun v => v.isNone⟩

/-- Go `type Map[K, V any] struct { m sync.Map }`.  `K` stands for a comparable key type.
The raw map holds its values as `any`; every value in it was converted from a `V`, and is
written as that `V`. -/
structure Map (K V : Type) where
  m : sync.Map K V
deriving DecidableEq, Repr

/-- Go type assertion `rawValue.(V)` on a raw value of the map: it panics (`none`, "interface
conversion: interface is nil") on the nil `any` and gives the value back otherwise. -/
def assertValue {V : Type} [Boxed V] (rawValue : V) : Option V :=
  if Boxed.isNilInterface rawValue then none else some rawValue

/-- Go `func (m *Map[K, V]) Store(key K, value V)`. -/
def Map.Store {K V : Type} [DecidableEq K] (m : Map K V) (key : K) (value : V) : Map K V :=
  ⟨sync.Map.Store m.m key value⟩

/-- Go `func (m *Map[K, V]) Load(key K) (value V, ok bool)`; `default` is the zero value of
`V`, and `none` is the panic of the assertion `rawValue.(V)`. -/
def Map.Load {K V : Type} [DecidableEq K] [Inhabited V] [Boxed V] (m : Map K V) (key : K) :
    Option (V × Bool) :=
  match sync.Map.Load m.m key with
  | none => some (default, false)
  | some rawValue =>
    match assertValue rawValue with
    | none => none
    | some value => some (value, true)

/-- Go `func (m *Map[K, V]) Delete(key K)`. -/
def Map.Delete {K V : Type} [DecidableEq K] (m : Map K V) (key : K) : Map K V :=
  ⟨sync.Map.Delete m.m key⟩

/-- Go `func (m *Map[K, V]) LoadAndDelete(key K) (value V, loaded bool)`: the map
afterwards and what the call returns, `none` when the assertion `rawValue.(V)` panics (the
entry is deleted by then). -/
def Map.LoadAndDelete {K V : Type} [DecidableEq K] [Inhabited V] [Boxed V] (m : Map K V)
    (key : K) : Map K V × Option (V × Bool) :=
  match sync.Map.LoadAndDelete m.m key with
  | (m1, none) => (⟨m1⟩, some (default, false))
  | (m1, some rawValue) =>
    match assertValue rawValue with
    | none => (⟨m1⟩, none)
    | some value => (⟨m1⟩, some (value, true))

/-- Go `func (m *Map[K, V]) LoadOrStore(key K, value V) (actual V, loaded bool)`: the map
afterwards and what the call returns, `none` when the assertion `rawActual.(V)` panics. -/
def Map.LoadOrStore {K V : Type} [DecidableEq K] [Boxed V] (m : Map K V) (key : K) (value : V) :
    Map K V × Option (V × Bool) :=
  match sync.Map.LoadOrStore m.m key value with
  | (m1, _, false) => (⟨m1⟩, some (value, false))
  | (m1, rawActual, true) =>
    match assertValue rawActual with
    | none => (⟨m1⟩, none)
    | some actual => (⟨m1⟩, some (actual, true))

end typedsyncmap

/-! ## Go channels -/

namespace eventbus

/-- A `*topic[Event]`: an index into `World.topicObjs`. -/
abbrev TopicRef := Nat

/-- A `*Subscription[Event]`: an index into `World.subObjs`. -/
abbrev SubRef := Nat

/-- A buffered Go channel `chan Event`. -/
structure Chan (Event : Type) where
  buf : List Event
  cap : Nat
  closed : Bool
deriving DecidableEq, Repr

/-- Outcome of `ch <- e` on its own. -/
inductive SendResult (Event : Type) where
  | sent (c : Chan Event)
  | wouldBlock
  | panics
deriving DecidableEq, Repr

/-- Outcome of `<-ch` on its own. -/
inductive RecvResult (Event : Type) where
  | value (e : Event) (c : Chan Event)
  | endOfStream
  | wouldBlock
deriving DecidableEq, Repr

/-- What the Go runtime fixes for `chan Event` on the platform the program runs on:
`maxChanSize` is the largest `n` for which `make(chan Event, n)` returns.  Beyond it `make`
panics with "makechan: size out of range", as `n` elements of the size of an `Event` do not
fit below the limit of the allocator.  An element of a channel is smaller than `2 ^ 16` bytes
and the allocator's limit is at least `2 ^ 31` bytes on every platform, so a size up to 32767
is always in range. -/
class ChanLimit (Event : Type) where
  maxChanSize : Nat
  small_fits : 32767 ≤ maxChanSize

/-- Events of Go type `int` on a 64-bit platform: elements of 8 bytes, below the allocator's
limit of `2 ^ 48` bytes less the 96 bytes of the channel header. -/
instance instChanLimitNat : ChanLimit Nat := ⟨(2 ^ 48 - 96) / 8, by decide⟩

/-- Go `make(chan Event, n)`: panics (`none`) when the size is negative or out of range. -/
def makeChan {Event : Type} [ChanLimit Event] (n : Int) : Option (Chan Event) :=
  if n < 0 ∨ (ChanLimit.maxChanSize Event : Int) < n then none
  else some { buf := [], cap := n.toNat, closed := false }

/-- Go `ch <- e`: panics on a closed channel, enqueues when the buffer has room, parks otherwise. -/
def Chan.send {Event : Type} (c : Chan Event) (e : Event) : SendResult Event :=
  if c.closed then .panics
  else if c.buf.length < c.cap then .sent { c with buf := c.buf ++ [e] }
  else .wouldBlock

/-- Go `v, ok := <-ch`: buffered values first, then end-of-stream once closed, parks otherwise. -/
def Chan.recv {Event : Type} (c : Chan Event) : RecvResult Event :=
  match c.buf with
  | e :: rest => .value e { c with buf := rest }
  | [] => if c.closed then .endOfStream else .wouldBlock

/-- Go `close(ch)`: panics (`none`) when the channel is already closed. -/
def Chan.close {Event : Type} (c : Chan Event) : Option (Chan Event) :=
  if c.closed then none else some { c with closed := true }

/-! ## `eventbus.go`: data model -/

/-- Go `const DefaultBufferSize = 10`. -/
def DefaultBufferSize : Int := 10

/-- Go `type Config struct { BufferSize int }`; `{}` is the zero value. -/
structure Config where
  BufferSize : Int := 0
deriving DecidableEq, Repr

/-- Go `type EventBus[Event any] struct`: the topic registry and the raw buffer size. -/
structure EventBus where
  topics : typedsyncmap.Map String TopicRef
  rawBufferSize : Int
deriving DecidableEq, Repr

/-- Go `type topic[Event any] struct`.  `subs` is the key set of the Go map (every key maps
to itself); `bus` is the one bus of the `World`; `mu` is omitted. -/
structure topic where
  key : String
  subs : List SubRef
  isClosed : Bool
deriving DecidableEq, Repr

/-- Go `type Subscription[Event any] struct`.  `self` is the object's own index; `mu` is omitted. -/
structure Subscription (Event : Type) where
  ch : Chan Event
  topics : List TopicRef
deriving DecidableEq, Repr

/-- The memory of a program using one bus: the bus and every topic and subscription object
allocated so far. -/
structure World (Event : Type) where
  bus : EventBus
  topicObjs : List topic
  subObjs : List (Subscription Event)
deriving DecidableEq, Repr

/-- Why an operation did not run to completion. -/
inductive Fault where
  | blocked (s : SubRef)
  | panic
  | diverged
deriving DecidableEq, Repr

/-- Result of an operation: the memory afterwards with the returned value, or the memory at
the point where the operation stopped with the reason. -/
inductive Res (σ α : Type) where
  | ok (st : σ) (a : α)
  | fail (st : σ) (f : Fault)
deriving DecidableEq, Repr

/-- The memory a result carries. -/
def Res.state {σ α : Type} : Res σ α → σ
  | .ok st _ => st
  | .fail st _ => st

/-- Whether the operation ran to completion. -/
def Res.isOk {σ α : Type} : Res σ α → Bool
  | .ok _ _ => true
  | .fail _ _ => false

/-! ## `eventbus.go`: operations -/

/-- The zero value `EventBus[Event]{}` in an empty memory. -/
def zeroValue {Event : Type} : World Event :=
  { bus := { topics := ⟨[]⟩, rawBufferSize := 0 }, topicObjs := [], subObjs := [] }

/-- Go `func NewWithConfig[Event any](config *Config) *EventBus[Event]`. -/
def NewWithConfig {Event : Type} (config : Config) : World Event :=
  { bus := { topics := ⟨[]⟩, rawBufferSize := config.BufferSize }, topicObjs := [], subObjs := [] }

/-- Go `func New[Event any]() *EventBus[Event]`. -/
def New {Event : Type} : World Event := NewWithConfig {}

/-- Go `func (b *EventBus[Event]) bufferSizeOrDefault() int`. -/
def bufferSizeOrDefault (b : EventBus) : Int :=
  if b.rawBufferSize = 0 then DefaultBufferSize
  else if b.rawBufferSize < 0 then 0
  else b.rawBufferSize

/-- Go `func (b *EventBus[Event]) findOrCreateTopic(topicKey string) *topic[Event]`.
The first argument bounds the number of calls of the retry recursion. -/
def findOrCreateTopic {Event : Type} : Nat → World Event → String → Res (World Event) TopicRef
  | 0, w, _ => .fail w .diverged
  | fuel + 1, w, topicKey =>
    let r : Res (World Event) TopicRef :=
      match w.bus.topics.Load topicKey with
      | none => .fail w .panic
      | some (t, true) => .ok w t
      | some (_, false) =>
        let fresh : TopicRef := w.topicObjs.length
        let w1 : World Event :=
          { w with topicObjs := w.topicObjs ++ [{ key := topicKey, subs := [], isClosed := false }] }
        match w1.bus.topics.LoadOrStore topicKey fresh with
        | (m, none) => .fail { w1 with bus := { w1.bus with topics := m } } .panic
        | (m, some (t, _)) => .ok { w1 with bus := { w1.bus with topics := m } } t
    match r with
    | .fail w2 f => .fail w2 f
    | .ok w2 t =>
      match w2.topicObjs[t]? with
      | none => .fail w2 .panic
      | some tobj => if tobj.isClosed then findOrCreateTopic fuel w2 topicKey else .ok w2 t

/-- Go map assignment `subs[s] = s` on the key set. -/
def insertSub (s : SubRef) (subs : List SubRef) : List SubRef :=
  if s ∈ subs then subs else subs ++ [s]

/-- Go builtin `delete(subs, s)` on the key set. -/
def deleteSub (s : SubRef) (subs : List SubRef) : List SubRef :=
  subs.filter (fun x => x ≠ s)

/-- Go `func (t *topic[Event]) addSubscription(s *Subscription[Event])`: `t.subs[s] = s`. -/
def addSubscription {Event : Type} (w : World Event) (t : TopicRef) (s : SubRef) :
    Res (World Event) Unit :=
  match w.topicObjs[t]? with
  | none => .fail w .panic
  | some tobj =>
    .ok { w with topicObjs := w.topicObjs.set t { tobj with subs := insertSub s tobj.subs } } ()

/-- Go `func (t *topic[Event]) removeSubscription(sub *Subscription[Event])`. -/
def removeSubscription {Event : Type} (w : World Event) (t : TopicRef) (sub : SubRef) :
    Res (World Event) Unit :=
  match w.topicObjs[t]? with
  | none => .fail w .panic
  | some tobj =>
    let subs := deleteSub sub tobj.subs
    if subs.length = 0 then
      .ok { w with
            topicObjs := w.topicObjs.set t { tobj with subs := subs, isClosed := true }
            bus := { w.bus with topics := w.bus.topics.Delete tobj.key } } ()
    else
      .ok { w with topicObjs := w.topicObjs.set t { tobj with subs := subs } } ()

/-- The `for _, sub := range t.subs` loop of `publishToTopic`. -/
def publishLoop {Event : Type} (event : Event) :
    List SubRef → World Event → List SubRef → Res (World Event) (List SubRef)
  | [], w, publishedSubscriptions => .ok w publishedSubscriptions
  | sub :: rest, w, publishedSubscriptions =>
    if sub ∈ publishedSubscriptions then publishLoop event rest w publishedSubscriptions
    else
      match w.subObjs[sub]? with
      | none => .fail w .panic
      | some sobj =>
        match sobj.ch.send event with
        | .panics => .fail w .panic
        | .wouldBlock => .fail w (.blocked sub)
        | .sent c =>
          publishLoop event rest { w with subObjs := w.subObjs.set sub { sobj with ch := c } }
            (sub :: publishedSubscriptions)

/-- Go `func (b *EventBus[Event]) publishToTopic(topicKey string, event Event,
publishedSubscriptions map[*Subscription[Event]]bool)`; the set is threaded through. -/
def publishToTopic {Event : Type} (w : World Event) (topicKey : String) (event : Event)
    (publishedSubscriptions : List SubRef) : Res (World Event) (List SubRef) :=
  match w.bus.topics.Load topicKey with
  | none => .fail w .panic
  | some (_, false) => .ok w publishedSubscriptions
  | some (t, true) =>
    match w.topicObjs[t]? with
    | none => .fail w .panic
    | some tobj => publishLoop event tobj.subs w publishedSubscriptions

/-- The `for _, topicKey := range topicKeys` loop of `Publish`. -/
def publishKeys {Event : Type} (event : Event) :
    List String → World Event → List SubRef → Res (World Event) (List SubRef)
  | [], w, publishedSubscriptions => .ok w publishedSubscriptions
  | topicKey :: rest, w, publishedSubscriptions =>
    match publishToTopic w topicKey event publishedSubscriptions with
    | .fail w1 f => .fail w1 f
    | .ok w1 published1 => publishKeys event rest w1 published1

/-- Go `func (b *EventBus[Event]) Publish(event Event, topicKeys ...string)`. -/
def Publish {Event : Type} (w : World Event) (event : Event) (topicKeys : List String) :
    Res (World Event) Unit :=
  match publishKeys event topicKeys w [] with
  | .fail w1 f => .fail w1 f
  | .ok w1 _ => .ok w1 ()

/-- The `for _, topicKey := range topicKeys` loop of `Subscribe`. -/
def subscribeLoop {Event : Type} (fuel : Nat) (sub : SubRef) :
    List String → World Event → Res (World Event) Unit
  | [], w => .ok w ()
  | topicKey :: rest, w =>
    match findOrCreateTopic fuel w topicKey with
    | .fail w1 f => .fail w1 f
    | .ok w1 t =>
      match addSubscription w1 t sub with
      | .fail w2 f => .fail w2 f
      | .ok w2 _ =>
        match w2.subObjs[sub]? with
        | none => .fail w2 .panic
        | some sobj =>
          subscribeLoop fuel sub rest
            { w2 with subObjs := w2.subObjs.set sub { sobj with topics := sobj.topics ++ [t] } }

/-- Go `func (b *EventBus[Event]) Subscribe(topicKeys ...string) *Subscription[Event]`. -/
def Subscribe {Event : Type} [ChanLimit Event] (fuel : Nat) (w : World Event)
    (topicKeys : List String) :
    Res (World Event) SubRef :=
  match makeChan (bufferSizeOrDefault w.bus) with
  | none => .fail w .panic
  | some ch =>
    let sub : SubRef := w.subObjs.length
    match subscribeLoop fuel sub topicKeys { w with subObjs := w.subObjs ++ [{ ch := ch, topics := [] }] } with
    | .fail w1 f => .fail w1 f
    | .ok w1 _ => .ok w1 sub

/-- The `for _, t := range s.topics` loop of `Unsubscribe`. -/
def unsubscribeLoop {Event : Type} (s : SubRef) : List TopicRef → World Event → Res (World Event) Unit
  | [], w => .ok w ()
  | t :: rest, w =>
    match removeSubscription w t s with
    | .fail w1 f => .fail w1 f
    | .ok w1 _ => unsubscribeLoop s rest w1

/-- Go `func (s *Subscription[Event]) Unsubscribe()`. -/
def Unsubscribe {Event : Type} (w : World Event) (s : SubRef) : Res (World Event) Unit :=
  match w.subObjs[s]? with
  | none => .fail w .panic
  | some sobj =>
    match unsubscribeLoop s sobj.topics w with
    | .fail w1 f => .fail w1 f
    | .ok w1 _ =>
      match w1.subObjs[s]? with
      | none => .fail w1 .panic
      | some sobj1 =>
        match sobj1.ch.close with
        | none => .fail w1 .panic
        | some c => .ok { w1 with subObjs := w1.subObjs.set s { sobj1 with ch := c } } ()

/-- Go `func (sub *Subscription[Event]) Channel() <-chan Event` followed by one receive
`v, ok := <-sub.Channel()`: `some e` is a value, `none` is end-of-stream. -/
def Receive {Event : Type} (w : World Event) (s : SubRef) : Res (World Event) (Option Event) :=
  match w.subObjs[s]? with
  | none => .fail w .panic
  | some sobj =>
    match sobj.ch.recv with
    | .wouldBlock => .fail w (.blocked s)
    | .endOfStream => .ok w none
    | .value e c => .ok { w with subObjs := w.subObjs.set s { sobj with ch := c } } (some e)

/-- A consumer loop `for e := range sub.Channel()`: receives until end-of-stream and returns
the events read; the first argument bounds the number of receives. -/
def receiveAll {Event : Type} : Nat → World Event → SubRef → Res (World Event) (List Event)
  | 0, w, _ => .fail w .diverged
  | n + 1, w, s =>
    match Receive w s with
    | .fail w1 f => .fail w1 f
    | .ok w1 none => .ok w1 []
    | .ok w1 (some e) =>
      match receiveAll n w1 s with
      | .fail w2 f => .fail w2 f
      | .ok w2 es => .ok w2 (e :: es)

/-- A sequence of `Publish` calls run one after another. -/
def publishAll {Event : Type} : List (Event × List String) → World Event → Res (World Event) Unit
  | [], w => .ok w ()
  | (event, topicKeys) :: rest, w =>
    match Publish w event topicKeys with
    | .fail w1 f => .fail w1 f
    | .ok w1 _ => publishAll rest w1

/-! ## Runs of the public operations -/

/-- A call of the public interface. -/
inductive Op (Event : Type) where
  | subscribe (topicKeys : List String)
  | publish (event : Event) (topicKeys : List String)
  | unsubscribe (s : SubRef)
  | receive (s : SubRef)
deriving DecidableEq, Repr

/-- What a call of the public interface returns. -/
inductive Ret (Event : Type) where
  | subscription (s : SubRef)
  | unit
  | received (v : Option Event)
deriving DecidableEq, Repr

/-- One call of the public interface. -/
def step {Event : Type} [ChanLimit Event] (fuel : Nat) (w : World Event) : Op Event → Res
    (World Event) (Ret Event)
  | .subscribe topicKeys =>
    match Subscribe fuel w topicKeys with
    | .fail w1 f => .fail w1 f
    | .ok w1 s => .ok w1 (.subscription s)
  | .publish event topicKeys =>
    match Publish w event topicKeys with
    | .fail w1 f => .fail w1 f
    | .ok w1 _ => .ok w1 .unit
  | .unsubscribe s =>
    match Unsubscribe w s with
    | .fail w1 f => .fail w1 f
    | .ok w1 _ => .ok w1 .unit
  | .receive s =>
    match Receive w s with
    | .fail w1 f => .fail w1 f
    | .ok w1 v => .ok w1 (.received v)

/-- A sequence of calls run one after another, stopping at the first that does not complete. -/
def run {Event : Type} [ChanLimit Event] (fuel : Nat) : List (Op Event) → World Event → Res
    (World Event) (List (Ret Event))
  | [], w => .ok w []
  | op :: rest, w =>
    match step fuel w op with
    | .fail w1 f => .fail w1 f
    | .ok w1 r =>
      match run fuel rest w1 with
      | .fail w2 f => .fail w2 f
      | .ok w2 rs => .ok w2 (r :: rs)

/-- The memories a program can be in between calls: those obtained from a newly built bus
by completed calls of the public interface. -/
inductive Reachable {Event : Type} [ChanLimit Event] : World Event → Prop where
  | init (config : Config) : Reachable (NewWithConfig config)
  | step (fuel : Nat) (op : Op Event) (w w1 : World Event) (r : Ret Event) :
      Reachable w → step fuel w op = .ok w1 r → Reachable w1

/-! ## Vocabulary of the specification -/

/-- The subscriptions held by the topic the registry has for `topicKey` (none when the key
has no topic). -/
def subscribers {Event : Type} (w : World Event) (topicKey : String) : List SubRef :=
  match w.bus.topics.Load topicKey with
  | none => []
  | some (_, false) => []
  | some (t, true) =>
    match w.topicObjs[t]? with
    | none => []
    | some tobj => tobj.subs

/-- Subscription `s` is a member of the registered topic of at least one key in `topicKeys`. -/
def isTarget {Event : Type} (w : World Event) (topicKeys : List String) (s : SubRef) : Bool :=
  topicKeys.any (fun k => decide (s ∈ subscribers w k))

/-- The buffered events of the channel of `s`. -/
def channelOf {Event : Type} (w : World Event) (s : SubRef) : Option (List Event) :=
  (w.subObjs[s]?).map (fun sobj => sobj.ch.buf)

/-- Subscription `s` exists and its channel has not been closed. -/
def isOpen {Event : Type} (w : World Event) (s : SubRef) : Bool :=
  match w.subObjs[s]? with
  | none => false
  | some sobj => !sobj.ch.closed

/-- Subscription `s` exists and its channel has room for one more event. -/
def hasRoom {Event : Type} (w : World Event) (s : SubRef) : Bool :=
  match w.subObjs[s]? with
  | none => false
  | some sobj => decide (sobj.ch.buf.length < sobj.ch.cap)

/-- The buffer size of the bus is one that `make(chan Event, n)` accepts. -/
def canAllocate {Event : Type} [ChanLimit Event] (w : World Event) : Bool :=
  decide (bufferSizeOrDefault w.bus ≤ (ChanLimit.maxChanSize Event : Int))

/-- The structural invariant of the memory between calls. -/
structure Inv {Event : Type} (w : World Event) : Prop where
  reg_open : ∀ (k : String) (t : TopicRef), sync.Map.Load w.bus.topics.m k = some t →
    ∃ tobj : topic, w.topicObjs[t]? = some tobj ∧ tobj.key = k ∧ tobj.isClosed = false
  open_reg : ∀ (t : TopicRef) (tobj : topic), w.topicObjs[t]? = some tobj → tobj.isClosed = false →
    sync.Map.Load w.bus.topics.m tobj.key = some t ∧ tobj.subs ≠ []
  closed_empty : ∀ (t : TopicRef) (tobj : topic), w.topicObjs[t]? = some tobj →
    tobj.isClosed = true → tobj.subs = []
  member_open : ∀ (t : TopicRef) (tobj : topic) (s : SubRef), w.topicObjs[t]? = some tobj →
    s ∈ tobj.subs →
    ∃ sobj : Subscription Event, w.subObjs[s]? = some sobj ∧ sobj.ch.closed = false ∧ t ∈ sobj.topics
  joined : ∀ (s : SubRef) (sobj : Subscription Event) (t : TopicRef), w.subObjs[s]? = some sobj →
    t ∈ sobj.topics →
    ∃ tobj : topic, w.topicObjs[t]? = some tobj ∧ (sobj.ch.closed = false → s ∈ tobj.subs)
  within_cap : ∀ (s : SubRef) (sobj : Subscription Event), w.subObjs[s]? = some sobj →
    sobj.ch.buf.length ≤ sobj.ch.cap

/-- Two subscription objects agree on everything but the buffered events. -/
def sameShape {Event : Type} (a b : Subscription Event) : Prop :=
  b.topics = a.topics ∧ b.ch.cap = a.ch.cap ∧ b.ch.closed = a.ch.closed

/-- Memory `w1` differs from `w` in the buffered events of channels only, and no buffer
outgrew its capacity. -/
structure BufOnly {Event : Type} (w w1 : World Event) : Prop where
  bus : w1.bus = w.bus
  topicObjs : w1.topicObjs = w.topicObjs
  len : w1.subObjs.length = w.subObjs.length
  shape : ∀ (s : SubRef) (a b : Subscription Event), w.subObjs[s]? = some a →
    w1.subObjs[s]? = some b →
    sameShape a b ∧ (a.ch.buf.length ≤ a.ch.cap → b.ch.buf.length ≤ b.ch.cap)

/-- The subscription object with `e` appended to its channel buffer. -/
def pushEvent {Event : Type} (e : Event) (sobj : Subscription Event) : Subscription Event :=
  { sobj with ch := { sobj.ch with buf := sobj.ch.buf ++ [e] } }

/-- Effect of one iteration of the loop of `Subscribe`: subscription `s`, whose object was
`sobj`, joined the topic `t` of key `k`, taking memory `w` to `w1`. -/
structure JoinStep {Event : Type} (k : String) (s : SubRef) (sobj : Subscription Event)
    (t : TopicRef) (w w1 : World Event) : Prop where
  raw : w1.bus.rawBufferSize = w.bus.rawBufferSize
  reg_k : sync.Map.Load w1.bus.topics.m k = some t
  reg_other : ∀ k1 : String, k1 ≠ k →
    sync.Map.Load w1.bus.topics.m k1 = sync.Map.Load w.bus.topics.m k1
  hit : ∀ t0 : TopicRef, sync.Map.Load w.bus.topics.m k = some t0 →
    t = t0 ∧ w1.bus = w.bus ∧ w1.topicObjs.length = w.topicObjs.length ∧
      ∃ tobj : topic, w.topicObjs[t]? = some tobj ∧
        w1.topicObjs[t]? = some { tobj with subs := insertSub s tobj.subs }
  miss : sync.Map.Load w.bus.topics.m k = none →
    t = w.topicObjs.length ∧ w1.topicObjs.length = w.topicObjs.length + 1 ∧
      w1.topicObjs[t]? = some { key := k, subs := [s], isClosed := false }
  top_other : ∀ t1 : TopicRef, t1 ≠ t → w1.topicObjs[t1]? = w.topicObjs[t1]?
  sub_s : w1.subObjs[s]? = some { sobj with topics := sobj.topics ++ [t] }
  sub_other : ∀ x : SubRef, x ≠ s → w1.subObjs[x]? = w.subObjs[x]?
  sub_len : w1.subObjs.length = w.subObjs.length

/-- Effect of the whole loop of `Subscribe` over the keys `ks` for subscription `s`, whose
object was `sobj` when the loop started, taking memory `w` to `w1`. -/
structure JoinAll {Event : Type} (ks : List String) (s : SubRef) (sobj : Subscription Event)
    (w w1 : World Event) : Prop where
  raw : w1.bus.rawBufferSize = w.bus.rawBufferSize
  sub_s : w1.subObjs[s]? =
    some { sobj with topics := sobj.topics ++ ks.map (fun k => ((w1.bus.topics.Load k).getD default).1) }
  sub_other : ∀ x : SubRef, x ≠ s → w1.subObjs[x]? = w.subObjs[x]?
  sub_len : w1.subObjs.length = w.subObjs.length
  reg_keep : ∀ (k : String) (t0 : TopicRef), sync.Map.Load w.bus.topics.m k = some t0 →
    sync.Map.Load w1.bus.topics.m k = some t0
  reg_in : ∀ k : String, k ∈ ks → ∃ (t : TopicRef) (tobj : topic),
    sync.Map.Load w1.bus.topics.m k = some t ∧ w1.topicObjs[t]? = some tobj ∧ tobj.key = k ∧
      tobj.isClosed = false ∧ s ∈ tobj.subs
  reg_new : ∀ k : String, k ∈ ks → sync.Map.Load w.bus.topics.m k = none →
    ∃ t : TopicRef, sync.Map.Load w1.bus.topics.m k = some t ∧ w.topicObjs.length ≤ t
  reg_out : ∀ k : String, k ∉ ks →
    sync.Map.Load w1.bus.topics.m k = sync.Map.Load w.bus.topics.m k
  top_len : w.topicObjs.length ≤ w1.topicObjs.length
  top_keep : ∀ (t : TopicRef) (tobj : topic), w.topicObjs[t]? = some tobj →
    ∃ tobj1 : topic, w1.topicObjs[t]? = some tobj1 ∧ tobj1.key = tobj.key ∧
      tobj1.isClosed = tobj.isClosed ∧ (∀ x, x ∈ tobj.subs → x ∈ tobj1.subs) ∧
      (∀ x, x ∈ tobj1.subs → x ∈ tobj.subs ∨ x = s)

/-- The invariant that holds while `Unsubscribe` detaches subscription `s` from its topics:
as `Inv`, except that `s` may already have left topics it joined, and a closed topic among
the topics of `s` has no registry entry under its key. -/
structure InvU {Event : Type} (s : SubRef) (w : World Event) : Prop where
  reg_open : ∀ (k : String) (t : TopicRef), sync.Map.Load w.bus.topics.m k = some t →
    ∃ tobj : topic, w.topicObjs[t]? = some tobj ∧ tobj.key = k ∧ tobj.isClosed = false
  open_reg : ∀ (t : TopicRef) (tobj : topic), w.topicObjs[t]? = some tobj → tobj.isClosed = false →
    sync.Map.Load w.bus.topics.m tobj.key = some t ∧ tobj.subs ≠ []
  closed_empty : ∀ (t : TopicRef) (tobj : topic), w.topicObjs[t]? = some tobj →
    tobj.isClosed = true → tobj.subs = []
  member_open : ∀ (t : TopicRef) (tobj : topic) (x : SubRef), w.topicObjs[t]? = some tobj →
    x ∈ tobj.subs →
    ∃ sobj : Subscription Event, w.subObjs[x]? = some sobj ∧ sobj.ch.closed = false ∧ t ∈ sobj.topics
  joined : ∀ (x : SubRef) (sobj : Subscription Event) (t : TopicRef), w.subObjs[x]? = some sobj →
    t ∈ sobj.topics →
    ∃ tobj : topic, w.topicObjs[t]? = some tobj ∧ (x ≠ s → sobj.ch.closed = false → x ∈ tobj.subs)
  within_cap : ∀ (x : SubRef) (sobj : Subscription Event), w.subObjs[x]? = some sobj →
    sobj.ch.buf.length ≤ sobj.ch.cap
  closed_unreg : ∀ (sobj : Subscription Event) (t : TopicRef) (tobj : topic),
    w.subObjs[s]? = some sobj → t ∈ sobj.topics → w.topicObjs[t]? = some tobj →
    tobj.isClosed = true → sync.Map.Load w.bus.topics.m tobj.key = none

/-- Effect of part of the loop of `Unsubscribe` for subscription `s`, taking memory `w` to `w1`. -/
structure Detach {Event : Type} (s : SubRef) (w w1 : World Event) : Prop where
  raw : w1.bus.rawBufferSize = w.bus.rawBufferSize
  subObjs : w1.subObjs = w.subObjs
  top_len : w1.topicObjs.length = w.topicObjs.length
  top : ∀ (t : TopicRef) (tobj : topic), w.topicObjs[t]? = some tobj →
    ∃ tobj1 : topic, w1.topicObjs[t]? = some tobj1 ∧ tobj1.key = tobj.key ∧
      (tobj1.subs = tobj.subs ∨ tobj1.subs = deleteSub s tobj.subs) ∧
      (tobj.isClosed = true → tobj1.isClosed = true)
  reg_sub : ∀ (k : String) (t : TopicRef), sync.Map.Load w1.bus.topics.m k = some t →
    sync.Map.Load w.bus.topics.m k = some t
  reg_keep : ∀ (k : String) (t : TopicRef) (tobj1 : topic),
    sync.Map.Load w.bus.topics.m k = some t → w1.topicObjs[t]? = some tobj1 →
    tobj1.isClosed = false → sync.Map.Load w1.bus.topics.m k = some t

/-- Effect of a completed `Unsubscribe` of subscription `s`, whose object was `sobj`, taking
memory `w` to `w1`. -/
structure Unsubscribed {Event : Type} (s : SubRef) (sobj : Subscription Event)
    (w w1 : World Event) : Prop where
  raw : w1.bus.rawBufferSize = w.bus.rawBufferSize
  subObjs : w1.subObjs = w.subObjs.set s { sobj with ch := { sobj.ch with closed := true } }
  top_len : w1.topicObjs.length = w.topicObjs.length
  top : ∀ (t : TopicRef) (tobj : topic), w.topicObjs[t]? = some tobj →
    ∃ tobj1 : topic, w1.topicObjs[t]? = some tobj1 ∧ tobj1.key = tobj.key ∧
      tobj1.subs = deleteSub s tobj.subs ∧ (tobj1.isClosed = true ↔ tobj1.subs = [])
  top_other : ∀ t : TopicRef, t ∉ sobj.topics → w1.topicObjs[t]? = w.topicObjs[t]?
  reg : ∀ (k : String) (t : TopicRef), sync.Map.Load w1.bus.topics.m k = some t ↔
    (sync.Map.Load w.bus.topics.m k = some t ∧
      ∃ tobj1 : topic, w1.topicObjs[t]? = some tobj1 ∧ tobj1.subs ≠ [])

/-- The keys subscription `s` is subscribed to: the keys of the topics it joined. -/
def subscribedKeys {Event : Type} (w : World Event) (s : SubRef) : List String :=
  match w.subObjs[s]? with
  | none => []
  | some sobj => sobj.topics.filterMap (fun t => (w.topicObjs[t]?).map (fun tobj => tobj.key))

/-- The events of the publishes whose key list contains a key of `keys`, in publish order. -/
def eventsFor {Event : Type} (keys : List String) (ps : List (Event × List String)) : List Event :=
  (ps.filter (fun p => p.2.any (fun k => decide (k ∈ keys)))).map Prod.fst

/-! ## Sample memories -/

/-- A default bus after `Subscribe("k1", "k2")`. -/
def sampleOne : World Nat := (Subscribe 1 New ["k1", "k2"]).state

/-- `sampleOne` after a second `Subscribe("k1")`. -/
def sampleTwo : World Nat := (Subscribe 1 sampleOne ["k1"]).state

/-- The subscription object with the events `es` appended to its channel buffer. -/
def pushEvents {Event : Type} (es : List Event) (sobj : Subscription Event) : Subscription Event :=
  { sobj with ch := { sobj.ch with buf := sobj.ch.buf ++ es } }

/-- `sampleTwo` after `Publish(5, "k1")`: both subscriptions hold one event. -/
def sampleThree : World Nat := (Publish sampleTwo 5 ["k1"]).state

/-- `sampleOne` after its only subscription unsubscribed. -/
def sampleClosed : World Nat := (Unsubscribe sampleOne 0).state

/-- A bus with `BufferSize: -1` after `Subscribe("k1")`, `Unsubscribe` and a new
`Subscribe("k1")`: subscription 1 has an unbuffered channel. -/
def sampleUnbuffered : World Nat :=
  (Subscribe 1 (Unsubscribe (Subscribe 1 (NewWithConfig { BufferSize := -1 }) ["k1"]).state 0).state
    ["k1"]).state

/-- A bus with `BufferSize: 1` after `Subscribe("k")` (subscription 0), `Subscribe("k", "j")`
(subscription 1) and `Publish(1, "j")`: the channel of subscription 1 is full. -/
def sampleFull : World Nat :=
  (run 1 [.subscribe ["k"], .subscribe ["k", "j"], .publish 1 ["j"]]
    (NewWithConfig { BufferSize := 1 })).state

/-- A default bus after `Subscribe("k")` (subscription 0, topic 0), `Unsubscribe` of it and a
new `Subscribe("k")` (subscription 1, topic 1): topic 0 is closed and evicted, topic 1 is the
registry's entry for "k". -/
def sampleRejoined : World Nat :=
  (run 1 [.subscribe ["k"], .unsubscribe 0, .subscribe ["k"]] New).state

/-! ## Iteration order of a topic's subscription set -/

/-- `publishToTopic` with the order of `for _, sub := range t.subs` made explicit: Go leaves
the iteration order of a map unspecified, and `order` gives the order in which this visit
takes the set. -/
def publishToTopicIn {Event : Type} (order : List SubRef → List SubRef) (w : World Event)
    (topicKey : String) (event : Event) (publishedSubscriptions : List SubRef) :
    Res (World Event) (List SubRef) :=
  match w.bus.topics.Load topicKey with
  | none => .fail w .panic
  | some (_, false) => .ok w publishedSubscriptions
  | some (t, true) =>
    match w.topicObjs[t]? with
    | none => .fail w .panic
    | some tobj => publishLoop event (order tobj.subs) w publishedSubscriptions

/-- The loop of `Publish` over the keys, where the visit with `n` keys still to come takes
its topic's set in the order `order n`. -/
def publishKeysIn {Event : Type} (event : Event) (order : Nat → List SubRef → List SubRef) :
    List String → World Event → List SubRef → Res (World Event) (List SubRef)
  | [], w, publishedSubscriptions => .ok w publishedSubscriptions
  | topicKey :: rest, w, publishedSubscriptions =>
    match publishToTopicIn (order rest.length) w topicKey event publishedSubscriptions with
    | .fail w1 f => .fail w1 f
    | .ok w1 published1 => publishKeysIn event order rest w1 published1

/-- `Publish` under the iteration orders `order`. -/
def PublishIn {Event : Type} (order : Nat → List SubRef → List SubRef) (w : World Event)
    (event : Event) (topicKeys : List String) : Res (World Event) Unit :=
  match publishKeysIn event order topicKeys w [] with
  | .fail w1 f => .fail w1 f
  | .ok w1 _ => .ok w1 ()

/-- Each order of `order` ranges over the whole set: it lists the members of the set it is
given, each as often as the set lists it. -/
def validOrder (order : Nat → List SubRef → List SubRef) : Prop :=
  ∀ (n : Nat) (subs : List SubRef), (order n subs).Perm subs

/-- The order that takes every set from its last member to its first. -/
def backwards : Nat → List SubRef → List SubRef := fun _ subs => subs.reverse

/-! ## A schedule of two calls -/

/-- `Subscribe(topicKey)` of one goroutine and `Unsubscribe` of subscription `other` by a
second goroutine, the second call running between the return of `findOrCreateTopic`, which
releases the topic's read lock, and the call of `addSubscription`, which takes the topic's
lock.  Each step is the one of the lone calls; only their order is the schedule's. -/
def subscribeAroundUnsubscribe {Event : Type} [ChanLimit Event] (fuel : Nat) (w : World Event)
    (topicKey : String)
    (other : SubRef) : Res (World Event) SubRef :=
  match makeChan (bufferSizeOrDefault w.bus) with
  | none => .fail w .panic
  | some ch =>
    let sub : SubRef := w.subObjs.length
    match findOrCreateTopic fuel { w with subObjs := w.subObjs ++ [{ ch := ch, topics := [] }] }
        topicKey with
    | .fail w1 f => .fail w1 f
    | .ok w1 t =>
      match Unsubscribe w1 other with
      | .fail w2 f => .fail w2 f
      | .ok w2 _ =>
        match addSubscription w2 t sub with
        | .fail w3 f => .fail w3 f
        | .ok w3 _ =>
          match w3.subObjs[sub]? with
          | none => .fail w3 .panic
          | some sobj =>
            .ok { w3 with subObjs := w3.subObjs.set sub { sobj with topics := sobj.topics ++ [t] } }
              sub

/-- A default bus after `Subscribe("k")`: subscription 0 is the only member of topic 0. -/
def sampleSingle : World Nat := (Subscribe 1 New ["k"]).state

/-- `sampleSingle` after `Subscribe("k")` of a second goroutine with `Unsubscribe` of
subscription 0 scheduled inside it. -/
def sampleOrphan : World Nat := (subscribeAroundUnsubscribe 1 sampleSingle "k" 0).state

/-! ## Steps of other goroutines -/

/-- The `LoadOrStore` of `findOrCreateTopic` together with the topic it allocates for it. -/
def storeFreshTopic {Event : Type} (w : World Event) (topicKey : String) :
    Res (World Event) TopicRef :=
  let fresh : TopicRef := w.topicObjs.length
  let w1 : World Event :=
    { w with topicObjs := w.topicObjs ++ [{ key := topicKey, subs := [], isClosed := false }] }
  match w1.bus.topics.LoadOrStore topicKey fresh with
  | (m, none) => .fail { w1 with bus := { w1.bus with topics := m } } .panic
  | (m, some (t, _)) => .ok { w1 with bus := { w1.bus with topics := m } } t

/-- The `Load` of `findOrCreateTopic` and, on a miss, its `LoadOrStore`, with no step of
another goroutine in between. -/
def lookupTopic {Event : Type} (w : World Event) (topicKey : String) : Res (World Event) TopicRef :=
  match w.bus.topics.Load topicKey with
  | none => .fail w .panic
  | some (t, true) => .ok w t
  | some (_, false) => storeFreshTopic w topicKey

/-- A step another goroutine takes while this one is inside a call.  Each is one critical
section of the source or one operation of the registry map, so it runs as a whole:
`lookup k` is the `Load` of a `findOrCreateTopic(k)` with the `LoadOrStore` that follows a
miss at once, `store k` is that `LoadOrStore` on its own (its `Load` missed earlier),
`add t s` is `t.addSubscription(s)`, `remove t s` is `t.removeSubscription(s)`, and `subs f`
stands for whatever touches subscription objects only (allocating one, appending to its
`topics`, sending on, receiving from or closing its channel). -/
inductive Interference (Event : Type) where
  | lookup (topicKey : String)
  | store (topicKey : String)
  | add (t : TopicRef) (s : SubRef)
  | remove (t : TopicRef) (s : SubRef)
  | subs (f : List (Subscription Event) → List (Subscription Event))

/-- The memory after one step of another goroutine (a step that panics changes nothing). -/
def Interference.apply {Event : Type} (w : World Event) : Interference Event → World Event
  | .lookup topicKey => (lookupTopic w topicKey).state
  | .store topicKey => (storeFreshTopic w topicKey).state
  | .add t s => (addSubscription w t s).state
  | .remove t s => (removeSubscription w t s).state
  | .subs f => { w with subObjs := f w.subObjs }

/-- The memory after a sequence of steps of other goroutines. -/
def interfere {Event : Type} (steps : List (Interference Event)) (w : World Event) : World Event :=
  steps.foldl Interference.apply w

/-- `findOrCreateTopic` with other goroutines running.  Each attempt of the lookup takes the
next entry `(afterLoad, beforeCheck)` of the schedule: `afterLoad` are the steps the others
take between this goroutine's `Load` and what it does next, `beforeCheck` the steps they take
before it holds the topic's read lock and reads `isClosed`.  The schedule also bounds the
number of attempts. -/
def findOrCreateTopicAmid {Event : Type} :
    List (List (Interference Event) × List (Interference Event)) → World Event → String →
      Res (World Event) TopicRef
  | [], w, _ => .fail w .diverged
  | (afterLoad, beforeCheck) :: rest, w, topicKey =>
    let loaded := w.bus.topics.Load topicKey
    let w0 := interfere afterLoad w
    let r : Res (World Event) TopicRef :=
      match loaded with
      | none => .fail w0 .panic
      | some (t, true) => .ok w0 t
      | some (_, false) => storeFreshTopic w0 topicKey
    match r with
    | .fail w2 f => .fail w2 f
    | .ok w2 t =>
      let w3 := interfere beforeCheck w2
      match w3.topicObjs[t]? with
      | none => .fail w3 .panic
      | some tobj =>
        if tobj.isClosed then findOrCreateTopicAmid rest w3 topicKey else .ok w3 t

end eventbus

/-! ## Facts about the registry map -/

namespace sync

theorem Map.Load_Delete_self {K V : Type} [DecidableEq K] (m : Map K V) (key : K) :
    Map.Load (Map.Delete m key) key = none := by
  induction m with
  | nil => rfl
  | cons p rest ih =>
    obtain ⟨k, v⟩ := p
    by_cases h : k = key
    · simp [Map.Delete, h, ih]
    · simp [Map.Delete, Map.Load, h, ih]

theorem Map.Load_Delete_ne {K V : Type} [DecidableEq K] (m : Map K V) (key other : K)
    (hne : other ≠ key) : Map.Load (Map.Delete m key) other = Map.Load m other := by
  induction m with
  | nil => rfl
  | cons p rest ih =>
    obtain ⟨k, v⟩ := p
    by_cases h : k = key
    · subst h
      have h2 : ¬ k = other := fun h3 => hne h3.symm
      simp [Map.Delete, Map.Load, h2, ih]
    · by_cases h2 : k = other
      · subst h2
        simp [Map.Delete, Map.Load, h]
      · simp [Map.Delete, Map.Load, h, h2, ih]

theorem Map.Delete_of_Load_none {K V : Type} [DecidableEq K] (m : Map K V) (key : K)
    (hnone : Map.Load m key = none) : Map.Delete m key = m := by
  induction m with
  | nil => rfl
  | cons p rest ih =>
    obtain ⟨k, v⟩ := p
    by_cases h : k = key
    · simp [Map.Load, h] at hnone
    · simp only [Map.Load, h, if_false] at hnone
      simp [Map.Delete, h, ih hnone]

theorem Map.Load_Store_self {K V : Type} [DecidableEq K] (m : Map K V) (key : K) (value : V) :
    Map.Load (Map.Store m key value) key = some value := by
  induction m with
  | nil => simp [Map.Store, Map.Load]
  | cons p rest ih =>
    obtain ⟨k, v⟩ := p
    by_cases h : k = key
    · simp [Map.Store, Map.Load, h]
    · simp [Map.Store, Map.Load, h, ih]

theorem Map.Load_Store_ne {K V : Type} [DecidableEq K] (m : Map K V) (key other : K) (value : V)
    (hne : other ≠ key) : Map.Load (Map.Store m key value) other = Map.Load m other := by
  induction m with
  | nil =>
    have h : ¬ key = other := fun h => hne h.symm
    simp [Map.Store, Map.Load, h]
  | cons p rest ih =>
    obtain ⟨k, v⟩ := p
    by_cases h : k = key
    · subst h
      have h2 : ¬ k = other := fun h3 => hne h3.symm
      simp [Map.Store, Map.Load, h2]
    · by_cases h2 : k = other
      · subst h2
        simp [Map.Store, Map.Load, h]
      · simp [Map.Store, Map.Load, h, h2, ih]

end sync

namespace typedsyncmap

theorem assertValue_of_not_nil {V : Type} [Boxed V] (v : V)
    (h : Boxed.isNilInterface v = false) : assertValue v = some v := by
  unfold assertValue
  rw [h]
  rfl

theorem assertValue_of_nil {V : Type} [Boxed V] (v : V) (h : Boxed.isNilInterface v = true) :
    assertValue v = none := by
  unfold assertValue
  rw [h]
  rfl

theorem assertValue_never_nil {V : Type} [Boxed V] [NeverNil V] (v : V) :
    assertValue v = some v :=
  assertValue_of_not_nil v (NeverNil.not_nil v)

theorem Map.Load_of_none {K V : Type} [DecidableEq K] [Inhabited V] [Boxed V] (m : Map K V)
    (key : K) (h : sync.Map.Load m.m key = none) : m.Load key = some (default, false) := by
  unfold Map.Load
  rw [h]

theorem Map.Load_of_some {K V : Type} [DecidableEq K] [Inhabited V] [Boxed V] [NeverNil V]
    (m : Map K V) (key : K) (v : V) (h : sync.Map.Load m.m key = some v) :
    m.Load key = some (v, true) := by
  unfold Map.Load
  rw [h]
  simp only [assertValue_never_nil]

theorem Map.Load_eq_true_iff {K V : Type} [DecidableEq K] [Inhabited V] [Boxed V] [NeverNil V]
    (m : Map K V) (key : K) (v : V) :
    m.Load key = some (v, true) ↔ sync.Map.Load m.m key = some v := by
  cases h : sync.Map.Load m.m key with
  | none => simp [Map.Load_of_none m key h]
  | some v0 => simp [Map.Load_of_some m key v0 h]

theorem Map.Load_snd_false_iff {K V : Type} [DecidableEq K] [Inhabited V] [Boxed V] [NeverNil V]
    (m : Map K V) (key : K) :
    m.Load key = some (default, false) ↔ sync.Map.Load m.m key = none := by
  cases h : sync.Map.Load m.m key with
  | none => simp [Map.Load_of_none m key h]
  | some v0 => simp [Map.Load_of_some m key v0 h]

end typedsyncmap

namespace eventbus

/-! ## Changes confined to channel buffers -/

theorem lookup_some_of_len {α : Type} {l l1 : List α} (hlen : l1.length = l.length) {i : Nat}
    {a : α} (h : l[i]? = some a) : ∃ b, l1[i]? = some b := by
  have hi : i < l.length := by
    rcases List.getElem?_eq_some_iff.mp h with ⟨hi, _⟩
    exact hi
  exact ⟨l1[i], List.getElem?_eq_getElem (by omega)⟩

theorem BufOnly.same {Event : Type} (w : World Event) : BufOnly w w := by
  refine ⟨rfl, rfl, rfl, ?_⟩
  intro s a b ha hb
  rw [ha] at hb
  cases hb
  exact ⟨⟨rfl, rfl, rfl⟩, fun h => h⟩

theorem BufOnly.chain {Event : Type} {w w1 w2 : World Event} (h1 : BufOnly w w1)
    (h2 : BufOnly w1 w2) : BufOnly w w2 := by
  refine ⟨h2.bus.trans h1.bus, h2.topicObjs.trans h1.topicObjs, h2.len.trans h1.len, ?_⟩
  intro s a c ha hc
  obtain ⟨b, hb⟩ := lookup_some_of_len h1.len ha
  obtain ⟨⟨e1, e2, e3⟩, e4⟩ := h1.shape s a b ha hb
  obtain ⟨⟨f1, f2, f3⟩, f4⟩ := h2.shape s b c hb hc
  exact ⟨⟨f1.trans e1, f2.trans e2, f3.trans e3⟩, fun h => f4 (e4 h)⟩

theorem BufOnly.of_set {Event : Type} (w : World Event) (s : SubRef) (sobj : Subscription Event)
    (c : Chan Event) (hs : w.subObjs[s]? = some sobj) (hcap : c.cap = sobj.ch.cap)
    (hclosed : c.closed = sobj.ch.closed)
    (hlen : sobj.ch.buf.length ≤ sobj.ch.cap → c.buf.length ≤ c.cap) :
    BufOnly w { w with subObjs := w.subObjs.set s { sobj with ch := c } } := by
  refine ⟨rfl, rfl, by simp, ?_⟩
  intro x a b ha hb
  by_cases hx : s = x
  · subst hx
    have hlt : s < w.subObjs.length := by
      rcases List.getElem?_eq_some_iff.mp hs with ⟨hi, _⟩
      exact hi
    simp only [List.getElem?_set_self hlt] at hb
    rw [hs] at ha
    cases ha
    cases hb
    exact ⟨⟨rfl, hcap, hclosed⟩, hlen⟩
  · simp only [List.getElem?_set_ne hx] at hb
    rw [ha] at hb
    cases hb
    exact ⟨⟨rfl, rfl, rfl⟩, fun h => h⟩

theorem Inv.of_bufOnly {Event : Type} {w w1 : World Event} (hinv : Inv w) (hb : BufOnly w w1) :
    Inv w1 := by
  obtain ⟨hbus, htop, hlen, hshape⟩ := hb
  refine ⟨?_, ?_, ?_, ?_, ?_, ?_⟩
  · intro k t h
    rw [hbus] at h
    rw [htop]
    exact hinv.reg_open k t h
  · intro t tobj h hopen
    rw [htop] at h
    rw [hbus]
    exact hinv.open_reg t tobj h hopen
  · intro t tobj h hcl
    rw [htop] at h
    exact hinv.closed_empty t tobj h hcl
  · intro t tobj s h hmem
    rw [htop] at h
    obtain ⟨a, ha, hopen, hjoin⟩ := hinv.member_open t tobj s h hmem
    obtain ⟨b, hb⟩ := lookup_some_of_len hlen ha
    obtain ⟨⟨e1, _, e3⟩, _⟩ := hshape s a b ha hb
    exact ⟨b, hb, by rw [e3]; exact hopen, by rw [e1]; exact hjoin⟩
  · intro s b t hb hmem
    obtain ⟨a, ha⟩ := lookup_some_of_len hlen.symm hb
    obtain ⟨⟨e1, _, e3⟩, _⟩ := hshape s a b ha hb
    rw [e1] at hmem
    obtain ⟨tobj, ht, hin⟩ := hinv.joined s a t ha hmem
    rw [htop]
    exact ⟨tobj, ht, fun hopen => hin (by rw [← e3]; exact hopen)⟩
  · intro s b hb
    obtain ⟨a, ha⟩ := lookup_some_of_len hlen.symm hb
    exact (hshape s a b ha hb).2 (hinv.within_cap s a ha)

end eventbus

namespace eventbus

/-! ## The fanout loops -/

theorem Chan.send_sent {Event : Type} {c c1 : Chan Event} {e : Event} (h : c.send e = .sent c1) :
    c.closed = false ∧ c.buf.length < c.cap ∧ c1 = { c with buf := c.buf ++ [e] } := by
  unfold Chan.send at h
  by_cases hc : c.closed = true
  · simp [hc] at h
  · by_cases hl : c.buf.length < c.cap
    · have hc2 : c.closed = false := by simpa using hc
      rw [if_neg hc, if_pos hl] at h
      exact ⟨hc2, hl, (SendResult.sent.inj h).symm⟩
    · simp [hc, hl] at h

theorem Chan.send_of_room {Event : Type} (c : Chan Event) (e : Event) (hopen : c.closed = false)
    (hroom : c.buf.length < c.cap) : c.send e = .sent { c with buf := c.buf ++ [e] } := by
  unfold Chan.send
  simp [hopen, hroom]

theorem publishLoop_bufOnly {Event : Type} (e : Event) :
    ∀ (subs : List SubRef) (w : World Event) (pub : List SubRef),
      BufOnly w (publishLoop e subs w pub).state
  | [], w, pub => BufOnly.same w
  | sub :: rest, w, pub => by
    rw [publishLoop]
    split
    · exact publishLoop_bufOnly e rest w pub
    · split
      · exact BufOnly.same w
      · rename_i sobj hs
        split
        · exact BufOnly.same w
        · exact BufOnly.same w
        · rename_i c hsend
          obtain ⟨hopen, hroom, hc⟩ := Chan.send_sent hsend
          subst hc
          refine BufOnly.chain
            (BufOnly.of_set w sub sobj { sobj.ch with buf := sobj.ch.buf ++ [e] } hs rfl rfl ?_)
            (publishLoop_bufOnly e rest _ _)
          intro _
          simp only [List.length_append, List.length_singleton]
          omega

theorem publishLoop_frame {Event : Type} (e : Event) :
    ∀ (subs : List SubRef) (w : World Event) (pub : List SubRef) (s : SubRef),
      (s ∉ subs ∨ s ∈ pub) →
      (publishLoop e subs w pub).state.subObjs[s]? = w.subObjs[s]?
  | [], w, pub, s, _ => rfl
  | sub :: rest, w, pub, s, hs => by
    rw [publishLoop]
    split
    · rename_i hmem
      refine publishLoop_frame e rest w pub s ?_
      rcases hs with h | h
      · exact Or.inl (fun h2 => h (List.mem_cons_of_mem _ h2))
      · exact Or.inr h
    · rename_i hmem
      split
      · rfl
      · rename_i sobj hsub
        split
        · rfl
        · rfl
        · rename_i c hsend
          have hne : sub ≠ s := by
            rintro rfl
            rcases hs with h | h
            · exact h (List.mem_cons_self _ _)
            · exact hmem h
          rw [publishLoop_frame e rest _ (sub :: pub) s]
          · simp only [List.getElem?_set_ne hne]
          · rcases hs with h | h
            · exact Or.inl (fun h2 => h (List.mem_cons_of_mem _ h2))
            · exact Or.inr (List.mem_cons_of_mem _ h)

theorem publishLoop_spec {Event : Type} (e : Event) :
    ∀ (subs : List SubRef) (w : World Event) (pub : List SubRef),
      (∀ s, s ∈ subs → s ∉ pub → ∃ sobj : Subscription Event,
        w.subObjs[s]? = some sobj ∧ sobj.ch.closed = false ∧ sobj.ch.buf.length < sobj.ch.cap) →
      ∃ (w1 : World Event) (pub1 : List SubRef), publishLoop e subs w pub = .ok w1 pub1 ∧
        (∀ x, x ∈ pub1 ↔ x ∈ pub ∨ x ∈ subs) ∧
        ∀ s, w1.subObjs[s]? =
          (w.subObjs[s]?).map (fun sobj => if s ∈ subs ∧ s ∉ pub then pushEvent e sobj else sobj)
  | [], w, pub, _ => by
    refine ⟨w, pub, rfl, by simp, ?_⟩
    intro s
    cases w.subObjs[s]? <;> simp
  | sub :: rest, w, pub, hroom => by
    rw [publishLoop]
    by_cases hmem : sub ∈ pub
    · simp only [hmem, if_true]
      obtain ⟨w1, pub1, hrun, hpub, hch⟩ := publishLoop_spec e rest w pub
        (fun s hs hn => hroom s (List.mem_cons_of_mem _ hs) hn)
      refine ⟨w1, pub1, hrun, ?_, ?_⟩
      · intro x
        rw [hpub x, List.mem_cons]
        constructor
        · rintro (h | h)
          · exact Or.inl h
          · exact Or.inr (Or.inr h)
        · rintro (h | h | h)
          · exact Or.inl h
          · exact Or.inl (h ▸ hmem)
          · exact Or.inr h
      · intro s
        rw [hch s]
        have hiff : (s ∈ rest ∧ s ∉ pub) ↔ (s ∈ sub :: rest ∧ s ∉ pub) := by
          rw [List.mem_cons]
          constructor
          · rintro ⟨h1, h2⟩
            exact ⟨Or.inr h1, h2⟩
          · rintro ⟨h1 | h1, h2⟩
            · exact absurd (h1 ▸ hmem) h2
            · exact ⟨h1, h2⟩
        simp only [hiff]
    · simp only [hmem, if_false]
      obtain ⟨sobj, hs, hopen, hlt⟩ := hroom sub (List.mem_cons_self _ _) hmem
      have hlen : sub < w.subObjs.length := by
        rcases List.getElem?_eq_some_iff.mp hs with ⟨hi, _⟩
        exact hi
      simp only [hs, Chan.send_of_room sobj.ch e hopen hlt]
      obtain ⟨w1, pub1, hrun, hpub, hch⟩ := publishLoop_spec e rest
        { w with subObjs := w.subObjs.set sub { sobj with ch := { sobj.ch with buf := sobj.ch.buf ++ [e] } } }
        (sub :: pub) (by
          intro s hs1 hn
          have hne : sub ≠ s := fun h => hn (h ▸ List.mem_cons_self _ _)
          simp only [List.getElem?_set_ne hne]
          exact hroom s (List.mem_cons_of_mem _ hs1) (fun h => hn (List.mem_cons_of_mem _ h)))
      refine ⟨w1, pub1, hrun, ?_, ?_⟩
      · intro x
        rw [hpub x]
        simp only [List.mem_cons]
        tauto
      · intro s
        rw [hch s]
        by_cases hne : sub = s
        · subst hne
          simp only [List.getElem?_set_self hlen, hs, Option.map_some', List.mem_cons, true_or,
            not_true_eq_false, and_false, if_false, hmem, not_false_eq_true, and_true, if_true,
            pushEvent]
        · simp only [List.getElem?_set_ne hne]
          have hiff : (s ∈ rest ∧ s ∉ sub :: pub) ↔ (s ∈ sub :: rest ∧ s ∉ pub) := by
            simp only [List.mem_cons]
            constructor
            · rintro ⟨h1, h2⟩
              exact ⟨Or.inr h1, fun h => h2 (Or.inr h)⟩
            · rintro ⟨h1 | h1, h2⟩
              · exact absurd h1.symm hne
              · exact ⟨h1, fun h => h.elim (fun h3 => hne h3.symm) h2⟩
          simp only [hiff]

end eventbus

namespace eventbus

theorem subscribers_of_none {Event : Type} (w : World Event) (k : String)
    (h : sync.Map.Load w.bus.topics.m k = none) : subscribers w k = [] := by
  unfold subscribers
  rw [typedsyncmap.Map.Load_of_none _ _ h]

theorem subscribers_of_some {Event : Type} (w : World Event) (k : String) (t : TopicRef)
    (tobj : topic) (h : sync.Map.Load w.bus.topics.m k = some t)
    (ht : w.topicObjs[t]? = some tobj) : subscribers w k = tobj.subs := by
  unfold subscribers
  rw [typedsyncmap.Map.Load_of_some _ _ _ h]
  simp only [ht]

theorem subscribers_of_dangling {Event : Type} (w : World Event) (k : String) (t : TopicRef)
    (h : sync.Map.Load w.bus.topics.m k = some t) (ht : w.topicObjs[t]? = none) :
    subscribers w k = [] := by
  unfold subscribers
  rw [typedsyncmap.Map.Load_of_some _ _ _ h]
  simp only [ht]

theorem publishToTopic_of_none {Event : Type} (w : World Event) (k : String) (e : Event)
    (pub : List SubRef) (h : sync.Map.Load w.bus.topics.m k = none) :
    publishToTopic w k e pub = .ok w pub := by
  unfold publishToTopic
  rw [typedsyncmap.Map.Load_of_none _ _ h]

theorem publishToTopic_of_some {Event : Type} (w : World Event) (k : String) (e : Event)
    (pub : List SubRef) (t : TopicRef) (h : sync.Map.Load w.bus.topics.m k = some t) :
    publishToTopic w k e pub =
      match w.topicObjs[t]? with
      | none => .fail w .panic
      | some tobj => publishLoop e tobj.subs w pub := by
  unfold publishToTopic
  rw [typedsyncmap.Map.Load_of_some _ _ _ h]

theorem publishToTopic_cases {Event : Type} (w : World Event) (k : String) (e : Event)
    (pub : List SubRef) :
    publishToTopic w k e pub = .ok w pub ∨ publishToTopic w k e pub = .fail w .panic ∨
      ∃ tobj : topic, publishToTopic w k e pub = publishLoop e tobj.subs w pub := by
  cases hload : sync.Map.Load w.bus.topics.m k with
  | none => exact Or.inl (publishToTopic_of_none w k e pub hload)
  | some t =>
    rw [publishToTopic_of_some w k e pub t hload]
    cases w.topicObjs[t]? with
    | none => exact Or.inr (Or.inl rfl)
    | some tobj => exact Or.inr (Or.inr ⟨tobj, rfl⟩)

theorem subscribers_congr {Event : Type} {w w1 : World Event} (hbus : w1.bus = w.bus)
    (htop : w1.topicObjs = w.topicObjs) (k : String) : subscribers w1 k = subscribers w k := by
  unfold subscribers
  rw [hbus, htop]

theorem isTarget_congr {Event : Type} {w w1 : World Event} (hbus : w1.bus = w.bus)
    (htop : w1.topicObjs = w.topicObjs) (ks : List String) (s : SubRef) :
    isTarget w1 ks s = isTarget w ks s := by
  unfold isTarget
  simp only [subscribers_congr hbus htop]

theorem isTarget_cons {Event : Type} (w : World Event) (k : String) (ks : List String)
    (s : SubRef) : isTarget w (k :: ks) s = true ↔ s ∈ subscribers w k ∨ isTarget w ks s = true := by
  unfold isTarget
  simp

theorem isTarget_nil {Event : Type} (w : World Event) (s : SubRef) :
    isTarget w [] s = false := rfl

theorem publishToTopic_bufOnly {Event : Type} (w : World Event) (k : String) (e : Event)
    (pub : List SubRef) : BufOnly w (publishToTopic w k e pub).state := by
  rcases publishToTopic_cases w k e pub with h | h | ⟨tobj, h⟩ <;> rw [h]
  · exact BufOnly.same w
  · exact BufOnly.same w
  · exact publishLoop_bufOnly e _ w pub

theorem publishToTopic_frame {Event : Type} (w : World Event) (k : String) (e : Event)
    (pub : List SubRef) (s : SubRef) (hs : s ∉ subscribers w k ∨ s ∈ pub) :
    (publishToTopic w k e pub).state.subObjs[s]? = w.subObjs[s]? := by
  cases hload : sync.Map.Load w.bus.topics.m k with
  | none =>
    rw [publishToTopic_of_none w k e pub hload]
    rfl
  | some t =>
    rw [publishToTopic_of_some w k e pub t hload]
    cases ht : w.topicObjs[t]? with
    | none => rfl
    | some tobj =>
      rw [subscribers_of_some w k t tobj hload ht] at hs
      exact publishLoop_frame e tobj.subs w pub s hs

theorem publishToTopic_spec {Event : Type} (w : World Event) (k : String) (e : Event)
    (pub : List SubRef)
    (hvalid : ∀ t, sync.Map.Load w.bus.topics.m k = some t → ∃ tobj : topic, w.topicObjs[t]? = some tobj)
    (hroom : ∀ s, s ∈ subscribers w k → s ∉ pub → ∃ sobj : Subscription Event,
        w.subObjs[s]? = some sobj ∧ sobj.ch.closed = false ∧ sobj.ch.buf.length < sobj.ch.cap) :
    ∃ (w1 : World Event) (pub1 : List SubRef), publishToTopic w k e pub = .ok w1 pub1 ∧
      (∀ x, x ∈ pub1 ↔ x ∈ pub ∨ x ∈ subscribers w k) ∧
      ∀ s, w1.subObjs[s]? =
        (w.subObjs[s]?).map
          (fun sobj => if s ∈ subscribers w k ∧ s ∉ pub then pushEvent e sobj else sobj) := by
  cases hload : sync.Map.Load w.bus.topics.m k with
  | none =>
    rw [subscribers_of_none w k hload] at hroom ⊢
    unfold publishToTopic
    rw [typedsyncmap.Map.Load_of_none _ _ hload]
    refine ⟨w, pub, rfl, by simp, ?_⟩
    intro s
    cases w.subObjs[s]? <;> simp
  | some t =>
    obtain ⟨tobj, ht⟩ := hvalid t hload
    rw [subscribers_of_some w k t tobj hload ht] at hroom ⊢
    unfold publishToTopic
    rw [typedsyncmap.Map.Load_of_some _ _ _ hload]
    simp only [ht]
    exact publishLoop_spec e tobj.subs w pub hroom

theorem publishKeys_bufOnly {Event : Type} (e : Event) :
    ∀ (ks : List String) (w : World Event) (pub : List SubRef),
      BufOnly w (publishKeys e ks w pub).state
  | [], w, _ => BufOnly.same w
  | k :: rest, w, pub => by
    rw [publishKeys]
    have h1 := publishToTopic_bufOnly w k e pub
    split
    · rename_i w1 f heq
      rw [heq] at h1
      exact h1
    · rename_i w1 pub1 heq
      rw [heq] at h1
      exact BufOnly.chain h1 (publishKeys_bufOnly e rest w1 pub1)

theorem publishKeys_frame {Event : Type} (e : Event) :
    ∀ (ks : List String) (w : World Event) (pub : List SubRef) (s : SubRef),
      isTarget w ks s = false →
      (publishKeys e ks w pub).state.subObjs[s]? = w.subObjs[s]?
  | [], _, _, _, _ => rfl
  | k :: rest, w, pub, s, hs => by
    have hnot : s ∉ subscribers w k ∧ isTarget w rest s = false := by
      have h := (isTarget_cons w k rest s).not.mp (by simp [hs])
      push_neg at h
      exact ⟨h.1, by simpa using h.2⟩
    rw [publishKeys]
    have h1 := publishToTopic_frame w k e pub s (Or.inl hnot.1)
    have h2 := publishToTopic_bufOnly w k e pub
    split
    · rename_i w1 f heq
      rw [heq] at h1
      exact h1
    · rename_i w1 pub1 heq
      rw [heq] at h1 h2
      simp only [Res.state] at h1 h2
      rw [publishKeys_frame e rest w1 pub1 s, h1]
      rw [isTarget_congr h2.bus h2.topicObjs]
      exact hnot.2

theorem publishKeys_spec {Event : Type} (e : Event) :
    ∀ (ks : List String) (w : World Event) (pub : List SubRef),
      (∀ k t, k ∈ ks → sync.Map.Load w.bus.topics.m k = some t →
        ∃ tobj : topic, w.topicObjs[t]? = some tobj) →
      (∀ s, isTarget w ks s = true → s ∉ pub → ∃ sobj : Subscription Event,
        w.subObjs[s]? = some sobj ∧ sobj.ch.closed = false ∧ sobj.ch.buf.length < sobj.ch.cap) →
      ∃ (w1 : World Event) (pub1 : List SubRef), publishKeys e ks w pub = .ok w1 pub1 ∧
        (∀ x, x ∈ pub1 ↔ x ∈ pub ∨ isTarget w ks x = true) ∧
        ∀ s, w1.subObjs[s]? =
          (w.subObjs[s]?).map
            (fun sobj => if isTarget w ks s = true ∧ s ∉ pub then pushEvent e sobj else sobj)
  | [], w, pub, _, _ => by
    refine ⟨w, pub, rfl, by simp [isTarget_nil], ?_⟩
    intro s
    cases w.subObjs[s]? <;> simp [isTarget_nil]
  | k :: rest, w, pub, hvalid, hroom => by
    obtain ⟨w1, pub1, hrun1, hpub1, hch1⟩ := publishToTopic_spec w k e pub
      (fun t ht => hvalid k t (List.mem_cons_self _ _) ht)
      (fun s hs hn => hroom s ((isTarget_cons w k rest s).mpr (Or.inl hs)) hn)
    have hb : BufOnly w w1 := by
      have h := publishToTopic_bufOnly w k e pub
      rw [hrun1] at h
      exact h
    have htgt : ∀ s, isTarget w1 rest s = isTarget w rest s :=
      fun s => isTarget_congr hb.bus hb.topicObjs rest s
    obtain ⟨w2, pub2, hrun2, hpub2, hch2⟩ := publishKeys_spec e rest w1 pub1
      (by
        intro k2 t hk ht
        rw [hb.bus] at ht
        rw [hb.topicObjs]
        exact hvalid k2 t (List.mem_cons_of_mem _ hk) ht)
      (by
        intro s hs hn
        rw [htgt s] at hs
        have hn1 : s ∉ pub ∧ s ∉ subscribers w k := by
          constructor
          · exact fun h => hn ((hpub1 s).mpr (Or.inl h))
          · exact fun h => hn ((hpub1 s).mpr (Or.inr h))
        rw [hch1 s]
        obtain ⟨sobj, h1, h2, h3⟩ := hroom s ((isTarget_cons w k rest s).mpr (Or.inr hs)) hn1.1
        refine ⟨sobj, ?_, h2, h3⟩
        simp [h1, hn1.2])
    refine ⟨w2, pub2, ?_, ?_, ?_⟩
    · rw [publishKeys, hrun1]
      exact hrun2
    · intro x
      rw [hpub2 x, hpub1 x, htgt x, isTarget_cons]
      tauto
    · intro s
      rw [hch2 s, hch1 s, htgt s]
      cases hs : w.subObjs[s]? with
      | none => rfl
      | some sobj =>
        simp only [Option.map_some', Option.some.injEq]
        by_cases hp : s ∈ pub
        · have hp1 : s ∈ pub1 := (hpub1 s).mpr (Or.inl hp)
          simp [hp, hp1]
        · by_cases hk : s ∈ subscribers w k
          · have hp1 : s ∈ pub1 := (hpub1 s).mpr (Or.inr hk)
            have ht : isTarget w (k :: rest) s = true := (isTarget_cons w k rest s).mpr (Or.inl hk)
            simp [hp, hp1, hk, ht]
          · have hp1 : s ∉ pub1 := fun h => ((hpub1 s).mp h).elim hp hk
            by_cases hr : isTarget w rest s = true
            · have ht : isTarget w (k :: rest) s = true := (isTarget_cons w k rest s).mpr (Or.inr hr)
              simp [hp, hp1, hk, ht, hr]
            · have ht : ¬ isTarget w (k :: rest) s = true :=
                fun h => ((isTarget_cons w k rest s).mp h).elim hk hr
              simp [hp, hp1, hk, ht, hr]

end eventbus

namespace eventbus

theorem publishLoop_ok {Event : Type} (e : Event) :
    ∀ (subs : List SubRef) (w : World Event) (pub : List SubRef) (w1 : World Event)
      (pub1 : List SubRef), publishLoop e subs w pub = .ok w1 pub1 →
      (∀ x, x ∈ pub1 ↔ x ∈ pub ∨ x ∈ subs) ∧
      ∀ s, w1.subObjs[s]? =
        (w.subObjs[s]?).map (fun sobj => if s ∈ subs ∧ s ∉ pub then pushEvent e sobj else sobj)
  | [], w, pub, w1, pub1, h => by
    rw [publishLoop] at h
    cases h
    refine ⟨by simp, ?_⟩
    intro s
    cases w.subObjs[s]? <;> simp
  | sub :: rest, w, pub, w1, pub1, h => by
    rw [publishLoop] at h
    by_cases hmem : sub ∈ pub
    · simp only [hmem, if_true] at h
      obtain ⟨hpub, hch⟩ := publishLoop_ok e rest w pub w1 pub1 h
      refine ⟨?_, ?_⟩
      · intro x
        rw [hpub x, List.mem_cons]
        constructor
        · rintro (h | h)
          · exact Or.inl h
          · exact Or.inr (Or.inr h)
        · rintro (h | h | h)
          · exact Or.inl h
          · exact Or.inl (h ▸ hmem)
          · exact Or.inr h
      · intro s
        rw [hch s]
        have hiff : (s ∈ rest ∧ s ∉ pub) ↔ (s ∈ sub :: rest ∧ s ∉ pub) := by
          rw [List.mem_cons]
          constructor
          · rintro ⟨h1, h2⟩
            exact ⟨Or.inr h1, h2⟩
          · rintro ⟨h1 | h1, h2⟩
            · exact absurd (h1 ▸ hmem) h2
            · exact ⟨h1, h2⟩
        simp only [hiff]
    · simp only [hmem, if_false] at h
      cases hs : w.subObjs[sub]? with
      | none => simp [hs] at h
      | some sobj =>
        simp only [hs] at h
        cases hsend : sobj.ch.send e with
        | panics => simp [hsend] at h
        | wouldBlock => simp [hsend] at h
        | sent c =>
          simp only [hsend] at h
          obtain ⟨_, _, hc⟩ := Chan.send_sent hsend
          subst hc
          have hlen : sub < w.subObjs.length := by
            rcases List.getElem?_eq_some_iff.mp hs with ⟨hi, _⟩
            exact hi
          obtain ⟨hpub, hch⟩ := publishLoop_ok e rest _ (sub :: pub) w1 pub1 h
          refine ⟨?_, ?_⟩
          · intro x
            rw [hpub x]
            simp only [List.mem_cons]
            tauto
          · intro s
            rw [hch s]
            by_cases hne : sub = s
            · subst hne
              simp only [List.getElem?_set_self hlen, hs, Option.map_some', List.mem_cons, true_or,
                not_true_eq_false, and_false, if_false, hmem, not_false_eq_true, and_true, if_true,
                pushEvent]
            · simp only [List.getElem?_set_ne hne]
              have hiff : (s ∈ rest ∧ s ∉ sub :: pub) ↔ (s ∈ sub :: rest ∧ s ∉ pub) := by
                simp only [List.mem_cons]
                constructor
                · rintro ⟨h1, h2⟩
                  exact ⟨Or.inr h1, fun h => h2 (Or.inr h)⟩
                · rintro ⟨h1 | h1, h2⟩
                  · exact absurd h1.symm hne
                  · exact ⟨h1, fun h => h.elim (fun h3 => hne h3.symm) h2⟩
              simp only [hiff]

theorem publishToTopic_ok {Event : Type} (w : World Event) (k : String) (e : Event)
    (pub : List SubRef) (w1 : World Event) (pub1 : List SubRef)
    (h : publishToTopic w k e pub = .ok w1 pub1) :
    (∀ x, x ∈ pub1 ↔ x ∈ pub ∨ x ∈ subscribers w k) ∧
      ∀ s, w1.subObjs[s]? =
        (w.subObjs[s]?).map
          (fun sobj => if s ∈ subscribers w k ∧ s ∉ pub then pushEvent e sobj else sobj) := by
  cases hload : sync.Map.Load w.bus.topics.m k with
  | none =>
    rw [subscribers_of_none w k hload]
    unfold publishToTopic at h
    rw [typedsyncmap.Map.Load_of_none _ _ hload] at h
    cases h
    refine ⟨by simp, ?_⟩
    intro s
    cases w.subObjs[s]? <;> simp
  | some t =>
    unfold publishToTopic at h
    rw [typedsyncmap.Map.Load_of_some _ _ _ hload] at h
    cases ht : w.topicObjs[t]? with
    | none => simp [ht] at h
    | some tobj =>
      simp only [ht] at h
      rw [subscribers_of_some w k t tobj hload ht]
      exact publishLoop_ok e tobj.subs w pub w1 pub1 h

theorem publishKeys_ok {Event : Type} (e : Event) :
    ∀ (ks : List String) (w : World Event) (pub : List SubRef) (w2 : World Event)
      (pub2 : List SubRef), publishKeys e ks w pub = .ok w2 pub2 →
      (∀ x, x ∈ pub2 ↔ x ∈ pub ∨ isTarget w ks x = true) ∧
      ∀ s, w2.subObjs[s]? =
        (w.subObjs[s]?).map
          (fun sobj => if isTarget w ks s = true ∧ s ∉ pub then pushEvent e sobj else sobj)
  | [], w, pub, w2, pub2, h => by
    rw [publishKeys] at h
    cases h
    refine ⟨by simp [isTarget_nil], ?_⟩
    intro s
    cases w.subObjs[s]? <;> simp [isTarget_nil]
  | k :: rest, w, pub, w2, pub2, h => by
    rw [publishKeys] at h
    cases hrun1 : publishToTopic w k e pub with
    | fail w1 f => simp [hrun1] at h
    | ok w1 pub1 =>
      simp only [hrun1] at h
      obtain ⟨hpub1, hch1⟩ := publishToTopic_ok w k e pub w1 pub1 hrun1
      have hb : BufOnly w w1 := by
        have hb1 := publishToTopic_bufOnly w k e pub
        rw [hrun1] at hb1
        exact hb1
      have htgt : ∀ s, isTarget w1 rest s = isTarget w rest s :=
        fun s => isTarget_congr hb.bus hb.topicObjs rest s
      obtain ⟨hpub2, hch2⟩ := publishKeys_ok e rest w1 pub1 w2 pub2 h
      refine ⟨?_, ?_⟩
      · intro x
        rw [hpub2 x, hpub1 x, htgt x, isTarget_cons]
        tauto
      · intro s
        rw [hch2 s, hch1 s, htgt s]
        cases hs : w.subObjs[s]? with
        | none => rfl
        | some sobj =>
          simp only [Option.map_some', Option.some.injEq]
          by_cases hp : s ∈ pub
          · have hp1 : s ∈ pub1 := (hpub1 s).mpr (Or.inl hp)
            simp [hp, hp1]
          · by_cases hk : s ∈ subscribers w k
            · have hp1 : s ∈ pub1 := (hpub1 s).mpr (Or.inr hk)
              have ht : isTarget w (k :: rest) s = true :=
                (isTarget_cons w k rest s).mpr (Or.inl hk)
              simp [hp, hp1, hk, ht]
            · have hp1 : s ∉ pub1 := fun h => ((hpub1 s).mp h).elim hp hk
              by_cases hr : isTarget w rest s = true
              · have ht : isTarget w (k :: rest) s = true :=
                  (isTarget_cons w k rest s).mpr (Or.inr hr)
                simp [hp, hp1, hk, ht, hr]
              · have ht : ¬ isTarget w (k :: rest) s = true :=
                  fun h => ((isTarget_cons w k rest s).mp h).elim hk hr
                simp [hp, hp1, hk, ht, hr]

/-- What a completed `Publish` did: every target got the event appended once, nothing else
changed. -/
theorem Publish_ok {Event : Type} (w : World Event) (e : Event) (ks : List String)
    (w1 : World Event) (h : Publish w e ks = .ok w1 ()) :
    BufOnly w w1 ∧
      ∀ s, w1.subObjs[s]? =
        (w.subObjs[s]?).map (fun sobj => if isTarget w ks s = true then pushEvent e sobj else sobj) := by
  unfold Publish at h
  cases hrun : publishKeys e ks w [] with
  | fail w2 f => simp [hrun] at h
  | ok w2 pub2 =>
    simp only [hrun, Res.ok.injEq, and_true] at h
    subst h
    have hb := publishKeys_bufOnly e ks w []
    rw [hrun] at hb
    refine ⟨hb, ?_⟩
    intro s
    rw [(publishKeys_ok e ks w [] w2 pub2 hrun).2 s]
    simp

theorem Publish_bufOnly {Event : Type} (w : World Event) (e : Event) (ks : List String) :
    BufOnly w (Publish w e ks).state := by
  unfold Publish
  have hb := publishKeys_bufOnly e ks w []
  cases hrun : publishKeys e ks w [] with
  | fail w2 f =>
    rw [hrun] at hb
    exact hb
  | ok w2 pub2 =>
    rw [hrun] at hb
    exact hb

theorem Receive_bufOnly {Event : Type} (w : World Event) (s : SubRef) :
    BufOnly w (Receive w s).state := by
  unfold Receive
  split
  · exact BufOnly.same w
  · rename_i sobj hs
    split
    · exact BufOnly.same w
    · exact BufOnly.same w
    · rename_i e c hrecv
      unfold Chan.recv at hrecv
      cases hbuf : sobj.ch.buf with
      | nil =>
        rw [hbuf] at hrecv
        by_cases hc : sobj.ch.closed = true <;> simp [hc] at hrecv
      | cons e1 rest =>
        rw [hbuf] at hrecv
        simp only [RecvResult.value.injEq] at hrecv
        obtain ⟨_, hc⟩ := hrecv
        subst hc
        refine BufOnly.of_set w s sobj _ hs rfl rfl ?_
        rw [hbuf]
        simp only [List.length_cons]
        omega

end eventbus

namespace eventbus

/-! ## Subscribe -/

theorem mem_insertSub (s x : SubRef) (subs : List SubRef) :
    x ∈ insertSub s subs ↔ x ∈ subs ∨ x = s := by
  unfold insertSub
  by_cases h : s ∈ subs
  · simp only [h, if_true]
    constructor
    · exact Or.inl
    · rintro (h1 | h1)
      · exact h1
      · exact h1 ▸ h
  · simp [h]

theorem findOrCreateTopic_hit {Event : Type} (fuel : Nat) (w : World Event) (k : String)
    (t : TopicRef) (tobj : topic) (hload : sync.Map.Load w.bus.topics.m k = some t)
    (ht : w.topicObjs[t]? = some tobj) (hopen : tobj.isClosed = false) :
    findOrCreateTopic (fuel + 1) w k = .ok w t := by
  rw [findOrCreateTopic, typedsyncmap.Map.Load_of_some _ _ _ hload]
  simp [ht, hopen]

theorem findOrCreateTopic_miss {Event : Type} (fuel : Nat) (w : World Event) (k : String)
    (hload : sync.Map.Load w.bus.topics.m k = none) :
    findOrCreateTopic (fuel + 1) w k =
      .ok { w with
            topicObjs := w.topicObjs ++ [{ key := k, subs := [], isClosed := false }]
            bus := { w.bus with topics := ⟨sync.Map.Store w.bus.topics.m k w.topicObjs.length⟩ } }
        w.topicObjs.length := by
  rw [findOrCreateTopic, typedsyncmap.Map.Load_of_none _ _ hload]
  simp [typedsyncmap.Map.LoadOrStore, sync.Map.LoadOrStore, hload]

end eventbus

namespace eventbus

theorem lt_of_lookup {α : Type} {l : List α} {i : Nat} {a : α} (h : l[i]? = some a) :
    i < l.length := by
  rcases List.getElem?_eq_some_iff.mp h with ⟨hi, _⟩
  exact hi

theorem subscribeLoop_cons {Event : Type} (fuel : Nat) (w : World Event) (k : String) (s : SubRef)
    (sobj : Subscription Event) (hinv : Inv w) (hs : w.subObjs[s]? = some sobj) :
    ∃ (w1 : World Event) (t : TopicRef),
      (∀ rest, subscribeLoop (fuel + 1) s (k :: rest) w = subscribeLoop (fuel + 1) s rest w1) ∧
        JoinStep k s sobj t w w1 := by
  have hslt : s < w.subObjs.length := lt_of_lookup hs
  cases hload : sync.Map.Load w.bus.topics.m k with
  | some t =>
    obtain ⟨tobj, ht, _, hopen⟩ := hinv.reg_open k t hload
    have htlt : t < w.topicObjs.length := lt_of_lookup ht
    refine ⟨{ w with
              topicObjs := w.topicObjs.set t { tobj with subs := insertSub s tobj.subs }
              subObjs := w.subObjs.set s { sobj with topics := sobj.topics ++ [t] } }, t, ?_, ?_⟩
    · intro rest
      rw [subscribeLoop, findOrCreateTopic_hit fuel w k t tobj hload ht hopen]
      simp only [addSubscription, ht, hs]
    · refine ⟨rfl, hload, fun _ _ => rfl, ?_, ?_, ?_, ?_, ?_, by simp⟩
      · intro t0 h0
        rw [hload] at h0
        cases h0
        refine ⟨rfl, rfl, by simp, tobj, ht, ?_⟩
        simp [List.getElem?_set_self htlt]
      · intro h0
        rw [hload] at h0
        cases h0
      · intro t1 h1
        simp [List.getElem?_set_ne (Ne.symm h1)]
      · simp [List.getElem?_set_self hslt]
      · intro x hx
        simp [List.getElem?_set_ne (Ne.symm hx)]
  | none =>
    refine ⟨{ bus := { w.bus with topics := ⟨sync.Map.Store w.bus.topics.m k w.topicObjs.length⟩ }
              topicObjs := (w.topicObjs ++ [({ key := k, subs := [], isClosed := false } : topic)]).set
                w.topicObjs.length { key := k, subs := [s], isClosed := false }
              subObjs := w.subObjs.set s { sobj with topics := sobj.topics ++ [w.topicObjs.length] } },
            w.topicObjs.length, ?_, ?_⟩
    · intro rest
      rw [subscribeLoop, findOrCreateTopic_miss fuel w k hload]
      simp [addSubscription, hs, insertSub]
    · refine ⟨rfl, ?_, ?_, ?_, ?_, ?_, ?_, ?_, by simp⟩
      · exact sync.Map.Load_Store_self _ _ _
      · intro k1 hk1
        exact sync.Map.Load_Store_ne _ _ _ _ hk1
      · intro t0 h0
        rw [hload] at h0
        cases h0
      · intro _
        refine ⟨rfl, by simp, ?_⟩
        simp
      · intro t1 h1
        simp only [List.getElem?_set_ne (Ne.symm h1)]
        by_cases hlt : t1 < w.topicObjs.length
        · rw [List.getElem?_append_left hlt]
        · have hgt : w.topicObjs.length < t1 := by
            rcases Nat.lt_trichotomy t1 w.topicObjs.length with h | h | h
            · exact absurd h hlt
            · exact absurd h h1
            · exact h
          rw [List.getElem?_eq_none (by simp; omega), List.getElem?_eq_none (by omega)]
      · simp [List.getElem?_set_self hslt]
      · intro x hx
        simp [List.getElem?_set_ne (Ne.symm hx)]

end eventbus

namespace eventbus

theorem JoinStep.top_t {Event : Type} {k : String} {s : SubRef} {sobj : Subscription Event}
    {t : TopicRef} {w w1 : World Event} (hinv : Inv w) (hj : JoinStep k s sobj t w w1) :
    ∃ tobj1 : topic, w1.topicObjs[t]? = some tobj1 ∧ tobj1.key = k ∧ tobj1.isClosed = false ∧
      s ∈ tobj1.subs ∧
      (∀ x, x ∈ tobj1.subs → x = s ∨ ∃ tobj : topic, w.topicObjs[t]? = some tobj ∧ x ∈ tobj.subs) ∧
      (∀ tobj : topic, w.topicObjs[t]? = some tobj → ∀ x, x ∈ tobj.subs → x ∈ tobj1.subs) := by
  cases hload : sync.Map.Load w.bus.topics.m k with
  | some t0 =>
    obtain ⟨ht0, _, _, tobj, ht, ht1⟩ := hj.hit t0 hload
    subst ht0
    obtain ⟨tobj0, h0, hkey, hopen⟩ := hinv.reg_open k t hload
    rw [ht] at h0
    cases h0
    refine ⟨_, ht1, hkey, hopen, (mem_insertSub s s tobj.subs).mpr (Or.inr rfl), ?_, ?_⟩
    · intro x hx
      rcases (mem_insertSub s x tobj.subs).mp hx with h | h
      · exact Or.inr ⟨tobj, ht, h⟩
      · exact Or.inl h
    · intro tobj2 h2 x hx
      rw [ht] at h2
      cases h2
      exact (mem_insertSub s x tobj.subs).mpr (Or.inl hx)
  | none =>
    obtain ⟨ht, _, ht1⟩ := hj.miss hload
    refine ⟨_, ht1, rfl, rfl, List.mem_singleton.mpr rfl, ?_, ?_⟩
    · intro x hx
      exact Or.inl (List.mem_singleton.mp hx)
    · intro tobj2 h2
      have hlt := lt_of_lookup h2
      rw [ht] at hlt
      exact absurd hlt (lt_irrefl _)

theorem JoinStep.hit_of_valid {Event : Type} {k : String} {s : SubRef} {sobj : Subscription Event}
    {t : TopicRef} {w w1 : World Event} (hj : JoinStep k s sobj t w w1) (tobj : topic)
    (ht : w.topicObjs[t]? = some tobj) : sync.Map.Load w.bus.topics.m k = some t := by
  cases hload : sync.Map.Load w.bus.topics.m k with
  | some t0 =>
    rw [(hj.hit t0 hload).1]
  | none =>
    have h1 := (hj.miss hload).1
    have hlt := lt_of_lookup ht
    rw [h1] at hlt
    exact absurd hlt (lt_irrefl _)

theorem JoinStep.lift_sub {Event : Type} {k : String} {s : SubRef} {sobj : Subscription Event}
    {t : TopicRef} {w w1 : World Event} (hj : JoinStep k s sobj t w w1)
    (hs : w.subObjs[s]? = some sobj) (x : SubRef) (a : Subscription Event)
    (ha : w.subObjs[x]? = some a) :
    ∃ b : Subscription Event, w1.subObjs[x]? = some b ∧ b.ch = a.ch ∧
      ∀ t1, t1 ∈ a.topics → t1 ∈ b.topics := by
  by_cases hx : x = s
  · subst hx
    rw [hs] at ha
    cases ha
    exact ⟨_, hj.sub_s, rfl, fun t1 h1 => List.mem_append_left _ h1⟩
  · exact ⟨a, by rw [hj.sub_other x hx]; exact ha, rfl, fun _ h1 => h1⟩

theorem JoinStep.keeps_inv {Event : Type} {k : String} {s : SubRef} {sobj : Subscription Event}
    {t : TopicRef} {w w1 : World Event} (hinv : Inv w) (hs : w.subObjs[s]? = some sobj)
    (hopen : sobj.ch.closed = false) (hj : JoinStep k s sobj t w w1) : Inv w1 := by
  obtain ⟨tobj1, ht1, hkey1, hopen1, hs1, hsub1, hsup1⟩ := hj.top_t hinv
  refine ⟨?_, ?_, ?_, ?_, ?_, ?_⟩
  · intro k1 t1 h
    by_cases hk : k1 = k
    · subst hk
      rw [hj.reg_k] at h
      cases h
      exact ⟨tobj1, ht1, hkey1, hopen1⟩
    · rw [hj.reg_other k1 hk] at h
      obtain ⟨tobj, ht, hkey, hop⟩ := hinv.reg_open k1 t1 h
      have hne : t1 ≠ t := by
        rintro rfl
        have h2 := hj.hit_of_valid tobj ht
        obtain ⟨tobj2, ht2, hkey2, _⟩ := hinv.reg_open k t1 h2
        rw [ht] at ht2
        cases ht2
        exact hk (hkey.symm.trans hkey2)
      rw [hj.top_other t1 hne]
      exact ⟨tobj, ht, hkey, hop⟩
  · intro t1 tobj h hop
    by_cases ht : t1 = t
    · subst ht
      rw [ht1] at h
      cases h
      rw [hkey1]
      exact ⟨hj.reg_k, List.ne_nil_of_mem hs1⟩
    · rw [hj.top_other t1 ht] at h
      obtain ⟨hreg, hne⟩ := hinv.open_reg t1 tobj h hop
      refine ⟨?_, hne⟩
      by_cases hk : tobj.key = k
      · rw [hk] at hreg
        exact absurd (hj.hit t1 hreg).1.symm ht
      · rw [hj.reg_other _ hk]
        exact hreg
  · intro t1 tobj h hcl
    by_cases ht : t1 = t
    · subst ht
      rw [ht1] at h
      cases h
      rw [hopen1] at hcl
      cases hcl
    · rw [hj.top_other t1 ht] at h
      exact hinv.closed_empty t1 tobj h hcl
  · intro t1 tobj x h hx
    have key : ∀ (t2 : TopicRef) (tobj2 : topic), w.topicObjs[t2]? = some tobj2 → x ∈ tobj2.subs →
        ∃ b : Subscription Event, w1.subObjs[x]? = some b ∧ b.ch.closed = false ∧ t2 ∈ b.topics := by
      intro t2 tobj2 h2 hx2
      obtain ⟨a, ha, hao, hat⟩ := hinv.member_open t2 tobj2 x h2 hx2
      obtain ⟨b, hb, hbc, hbt⟩ := hj.lift_sub hs x a ha
      exact ⟨b, hb, by rw [hbc]; exact hao, hbt t2 hat⟩
    by_cases ht : t1 = t
    · subst ht
      rw [ht1] at h
      cases h
      rcases hsub1 x hx with hxs | ⟨tobj2, h2, hx2⟩
      · subst hxs
        exact ⟨_, hj.sub_s, hopen, List.mem_append_right _ (List.mem_singleton.mpr rfl)⟩
      · exact key t1 tobj2 h2 hx2
    · rw [hj.top_other t1 ht] at h
      exact key t1 tobj h hx
  · intro x b t1 h hmem
    by_cases hx : x = s
    · subst hx
      rw [hj.sub_s] at h
      cases h
      by_cases ht : t1 = t
      · subst ht
        exact ⟨tobj1, ht1, fun _ => hs1⟩
      · have hmem2 : t1 ∈ sobj.topics := by
          rcases List.mem_append.mp hmem with h2 | h2
          · exact h2
          · exact absurd (List.mem_singleton.mp h2) ht
        obtain ⟨tobj, h3, hin⟩ := hinv.joined x sobj t1 hs hmem2
        rw [hj.top_other t1 ht]
        exact ⟨tobj, h3, hin⟩
    · rw [hj.sub_other x hx] at h
      obtain ⟨tobj, h3, hin⟩ := hinv.joined x b t1 h hmem
      by_cases ht : t1 = t
      · subst ht
        exact ⟨tobj1, ht1, fun hop => hsup1 tobj h3 x (hin hop)⟩
      · rw [hj.top_other t1 ht]
        exact ⟨tobj, h3, hin⟩
  · intro x b h
    by_cases hx : x = s
    · subst hx
      rw [hj.sub_s] at h
      cases h
      exact hinv.within_cap x sobj hs
    · rw [hj.sub_other x hx] at h
      exact hinv.within_cap x b h

end eventbus

namespace eventbus

theorem JoinStep.top_len {Event : Type} {k : String} {s : SubRef} {sobj : Subscription Event}
    {t : TopicRef} {w w1 : World Event} (hj : JoinStep k s sobj t w w1) :
    w.topicObjs.length ≤ w1.topicObjs.length := by
  cases hload : sync.Map.Load w.bus.topics.m k with
  | some t0 =>
    obtain ⟨_, _, hlen, _⟩ := hj.hit t0 hload
    omega
  | none =>
    obtain ⟨_, hlen, _⟩ := hj.miss hload
    omega

theorem JoinStep.reg_keep {Event : Type} {k : String} {s : SubRef} {sobj : Subscription Event}
    {t : TopicRef} {w w1 : World Event} (hj : JoinStep k s sobj t w w1) (k1 : String)
    (t0 : TopicRef) (h : sync.Map.Load w.bus.topics.m k1 = some t0) :
    sync.Map.Load w1.bus.topics.m k1 = some t0 := by
  by_cases hk : k1 = k
  · subst hk
    rw [hj.reg_k, (hj.hit t0 h).1]
  · rw [hj.reg_other k1 hk]
    exact h

theorem JoinStep.top_keep {Event : Type} {k : String} {s : SubRef} {sobj : Subscription Event}
    {t : TopicRef} {w w1 : World Event} (hj : JoinStep k s sobj t w w1) (t1 : TopicRef)
    (tobj : topic) (h : w.topicObjs[t1]? = some tobj) :
    ∃ tobj1 : topic, w1.topicObjs[t1]? = some tobj1 ∧ tobj1.key = tobj.key ∧
      tobj1.isClosed = tobj.isClosed ∧ (∀ x, x ∈ tobj.subs → x ∈ tobj1.subs) ∧
      (∀ x, x ∈ tobj1.subs → x ∈ tobj.subs ∨ x = s) := by
  by_cases ht : t1 = t
  · subst ht
    have hload := hj.hit_of_valid tobj h
    obtain ⟨_, _, _, tobj2, h2, h3⟩ := hj.hit t1 hload
    rw [h] at h2
    cases h2
    refine ⟨_, h3, rfl, rfl, ?_, ?_⟩
    · intro x hx
      exact (mem_insertSub s x tobj.subs).mpr (Or.inl hx)
    · intro x hx
      exact (mem_insertSub s x tobj.subs).mp hx
  · exact ⟨tobj, by rw [hj.top_other t1 ht]; exact h, rfl, rfl, fun _ hx => hx,
      fun _ hx => Or.inl hx⟩

theorem subscribeLoop_spec {Event : Type} (fuel : Nat) (s : SubRef) :
    ∀ (ks : List String) (w : World Event) (sobj : Subscription Event), Inv w →
      w.subObjs[s]? = some sobj → sobj.ch.closed = false →
      ∃ w1 : World Event, subscribeLoop (fuel + 1) s ks w = .ok w1 () ∧ Inv w1 ∧
        JoinAll ks s sobj w w1
  | [], w, sobj, hinv, hs, _ => by
    refine ⟨w, rfl, hinv, ⟨rfl, ?_, fun _ _ => rfl, rfl, fun _ _ h => h, ?_, ?_, fun _ _ => rfl,
      le_refl _, ?_⟩⟩
    · simp [hs]
    · intro k hk
      cases hk
    · intro k hk
      cases hk
    · intro t tobj h
      exact ⟨tobj, h, rfl, rfl, fun _ hx => hx, fun _ hx => Or.inl hx⟩
  | k :: rest, w, sobj, hinv, hs, hopen => by
    obtain ⟨w3, t, heq, hj⟩ := subscribeLoop_cons fuel w k s sobj hinv hs
    have hinv3 : Inv w3 := hj.keeps_inv hinv hs hopen
    obtain ⟨tobj3, ht3, hkey3, hopen3, hs3, _, _⟩ := hj.top_t hinv
    obtain ⟨w1, hrun, hinv1, ha⟩ := subscribeLoop_spec fuel s rest w3
      { sobj with topics := sobj.topics ++ [t] } hinv3 hj.sub_s hopen
    have hk1 : sync.Map.Load w1.bus.topics.m k = some t := ha.reg_keep k t hj.reg_k
    refine ⟨w1, by rw [heq rest]; exact hrun, hinv1, ⟨?_, ?_, ?_, ?_, ?_, ?_, ?_, ?_, ?_, ?_⟩⟩
    · exact ha.raw.trans hj.raw
    · rw [ha.sub_s]
      simp [typedsyncmap.Map.Load_of_some _ _ _ hk1]
    · intro x hx
      rw [ha.sub_other x hx, hj.sub_other x hx]
    · exact ha.sub_len.trans hj.sub_len
    · intro k1 t0 h
      exact ha.reg_keep k1 t0 (hj.reg_keep k1 t0 h)
    · intro k1 hk
      rcases List.mem_cons.mp hk with h | h
      · subst h
        obtain ⟨tobj1, h1, e1, e2, e3, _⟩ := ha.top_keep t tobj3 ht3
        exact ⟨t, tobj1, hk1, h1, e1.trans hkey3, e2.trans hopen3, e3 s hs3⟩
      · exact ha.reg_in k1 h
    · intro k1 hk hnone
      by_cases hkk : k1 = k
      · subst hkk
        refine ⟨t, hk1, ?_⟩
        rw [(hj.miss hnone).1]
      · have hrest : k1 ∈ rest := by
          rcases List.mem_cons.mp hk with h | h
          · exact absurd h hkk
          · exact h
        have hnone3 : sync.Map.Load w3.bus.topics.m k1 = none := by
          rw [hj.reg_other k1 hkk]
          exact hnone
        obtain ⟨t1, h1, hle⟩ := ha.reg_new k1 hrest hnone3
        exact ⟨t1, h1, le_trans hj.top_len hle⟩
    · intro k1 hk
      have hkk : k1 ≠ k := fun h => hk (h ▸ List.mem_cons_self _ _)
      have hrest : k1 ∉ rest := fun h => hk (List.mem_cons_of_mem _ h)
      rw [ha.reg_out k1 hrest, hj.reg_other k1 hkk]
    · exact le_trans hj.top_len ha.top_len
    · intro t1 tobj h
      obtain ⟨tobjA, hA, a1, a2, a3, a4⟩ := hj.top_keep t1 tobj h
      obtain ⟨tobjB, hB, b1, b2, b3, b4⟩ := ha.top_keep t1 tobjA hA
      refine ⟨tobjB, hB, b1.trans a1, b2.trans a2, fun x hx => b3 x (a3 x hx), ?_⟩
      intro x hx
      rcases b4 x hx with h1 | h1
      · exact a4 x h1
      · exact Or.inr h1

end eventbus

namespace eventbus

theorem bufferSizeOrDefault_nonneg (b : EventBus) : 0 ≤ bufferSizeOrDefault b := by
  unfold bufferSizeOrDefault DefaultBufferSize
  split
  · decide
  · split
    · exact le_refl 0
    · omega

theorem canAllocate_iff {Event : Type} [ChanLimit Event] (w : World Event) :
    canAllocate w = true ↔ bufferSizeOrDefault w.bus ≤ (ChanLimit.maxChanSize Event : Int) := by
  unfold canAllocate
  exact decide_eq_true_iff

theorem canAllocate_of_small {Event : Type} [ChanLimit Event] (w : World Event)
    (h : w.bus.rawBufferSize ≤ 32767) : canAllocate w = true := by
  rw [canAllocate_iff]
  have h1 : 32767 ≤ ChanLimit.maxChanSize Event := ChanLimit.small_fits
  have h2 : ((32767 : Nat) : Int) ≤ (ChanLimit.maxChanSize Event : Int) := Int.ofNat_le.mpr h1
  unfold bufferSizeOrDefault DefaultBufferSize
  split
  · omega
  · split
    · omega
    · omega

theorem canAllocate_congr {Event : Type} [ChanLimit Event] {w w1 : World Event}
    (h : w1.bus.rawBufferSize = w.bus.rawBufferSize) : canAllocate w1 = canAllocate w := by
  unfold canAllocate bufferSizeOrDefault
  rw [h]

theorem makeChan_bufferSize {Event : Type} [ChanLimit Event] (w : World Event)
    (hfit : canAllocate w = true) :
    (makeChan (bufferSizeOrDefault w.bus) : Option (Chan Event)) =
      some { buf := [], cap := (bufferSizeOrDefault w.bus).toNat, closed := false } := by
  unfold makeChan
  have h := bufferSizeOrDefault_nonneg w.bus
  have h2 := (canAllocate_iff w).mp hfit
  rw [if_neg (by omega)]

theorem makeChan_too_large {Event : Type} [ChanLimit Event] (w : World Event)
    (hfit : canAllocate w = false) :
    (makeChan (bufferSizeOrDefault w.bus) : Option (Chan Event)) = none := by
  unfold makeChan
  have h2 : ¬ bufferSizeOrDefault w.bus ≤ (ChanLimit.maxChanSize Event : Int) := by
    intro h
    rw [(canAllocate_iff w).mpr h] at hfit
    cases hfit
  rw [if_pos (Or.inr (by omega))]

/-- `Subscribe` on a bus whose buffer size `make` does not accept panics at once. -/
theorem Subscribe_too_large {Event : Type} [ChanLimit Event] (fuel : Nat) (w : World Event)
    (ks : List String) (hfit : canAllocate w = false) : Subscribe fuel w ks = .fail w .panic := by
  unfold Subscribe
  rw [makeChan_too_large w hfit]

theorem Subscribe_ok_fits {Event : Type} [ChanLimit Event] (fuel : Nat) (w w1 : World Event)
    (ks : List String) (s : SubRef) (h : Subscribe fuel w ks = .ok w1 s) :
    canAllocate w = true := by
  cases hfit : canAllocate w with
  | true => rfl
  | false =>
    rw [Subscribe_too_large fuel w ks hfit] at h
    cases h

theorem Inv.alloc_sub {Event : Type} {w : World Event} (hinv : Inv w) (ch : Chan Event)
    (hopen : ch.buf.length ≤ ch.cap) :
    Inv { w with subObjs := w.subObjs ++ [{ ch := ch, topics := [] }] } := by
  have old : ∀ (x : SubRef) (a : Subscription Event), w.subObjs[x]? = some a →
      (w.subObjs ++ [({ ch := ch, topics := [] } : Subscription Event)])[x]? = some a := by
    intro x a ha
    rw [List.getElem?_append_left (lt_of_lookup ha)]
    exact ha
  have new : ∀ (x : SubRef) (b : Subscription Event),
      (w.subObjs ++ [({ ch := ch, topics := [] } : Subscription Event)])[x]? = some b →
      w.subObjs[x]? = some b ∨ b = { ch := ch, topics := [] } := by
    intro x b hb
    by_cases hlt : x < w.subObjs.length
    · rw [List.getElem?_append_left hlt] at hb
      exact Or.inl hb
    · have hge : w.subObjs.length ≤ x := Nat.le_of_not_lt hlt
      rw [List.getElem?_append_right hge] at hb
      have hx : x - w.subObjs.length = 0 := by
        have h1 := lt_of_lookup hb
        simp only [List.length_singleton] at h1
        exact Nat.lt_one_iff.mp h1
      rw [hx] at hb
      simp at hb
      exact Or.inr hb.symm
  refine ⟨hinv.reg_open, hinv.open_reg, hinv.closed_empty, ?_, ?_, ?_⟩
  · intro t tobj s h hs
    obtain ⟨a, ha, h1, h2⟩ := hinv.member_open t tobj s h hs
    exact ⟨a, old s a ha, h1, h2⟩
  · intro s b t hb hmem
    rcases new s b hb with h | h
    · exact hinv.joined s b t h hmem
    · subst h
      cases hmem
  · intro s b hb
    rcases new s b hb with h | h
    · exact hinv.within_cap s b h
    · subst h
      exact hopen

theorem Subscribe_spec {Event : Type} [ChanLimit Event] (fuel : Nat) (w : World Event)
    (ks : List String) (hinv : Inv w) (hfit : canAllocate w = true) :
    ∃ w1 : World Event, Subscribe (fuel + 1) w ks = .ok w1 w.subObjs.length ∧ Inv w1 ∧
      JoinAll ks w.subObjs.length
        { ch := { buf := [], cap := (bufferSizeOrDefault w.bus).toNat, closed := false }, topics := [] }
        { w with subObjs := w.subObjs ++
            [{ ch := { buf := [], cap := (bufferSizeOrDefault w.bus).toNat, closed := false },
               topics := [] }] } w1 := by
  have hinv0 := hinv.alloc_sub
    ({ buf := [], cap := (bufferSizeOrDefault w.bus).toNat, closed := false } : Chan Event)
    (Nat.zero_le _)
  obtain ⟨w1, hrun, hinv1, ha⟩ := subscribeLoop_spec fuel w.subObjs.length ks _ _ hinv0
    (List.getElem?_concat_length _ _) rfl
  refine ⟨w1, ?_, hinv1, ha⟩
  unfold Subscribe
  rw [makeChan_bufferSize w hfit]
  simp only [hrun]

end eventbus

namespace eventbus

/-! ## Unsubscribe -/

theorem mem_deleteSub (s x : SubRef) (subs : List SubRef) :
    x ∈ deleteSub s subs ↔ x ∈ subs ∧ x ≠ s := by
  unfold deleteSub
  simp

theorem deleteSub_idem (s : SubRef) (subs : List SubRef) :
    deleteSub s (deleteSub s subs) = deleteSub s subs := by
  unfold deleteSub
  simp

theorem deleteSub_of_not_mem (s : SubRef) (subs : List SubRef) (h : s ∉ subs) :
    deleteSub s subs = subs := by
  unfold deleteSub
  rw [List.filter_eq_self]
  intro a ha
  simp only [ne_eq, decide_not, Bool.not_eq_true', decide_eq_false_iff_not]
  rintro rfl
  exact h ha

theorem Inv.toInvU {Event : Type} {w : World Event} (hinv : Inv w) (s : SubRef)
    (sobj : Subscription Event) (hs : w.subObjs[s]? = some sobj) (hopen : sobj.ch.closed = false) :
    InvU s w := by
  refine ⟨hinv.reg_open, hinv.open_reg, hinv.closed_empty, hinv.member_open, ?_, hinv.within_cap, ?_⟩
  · intro x a t ha hmem
    obtain ⟨tobj, ht, hin⟩ := hinv.joined x a t ha hmem
    exact ⟨tobj, ht, fun _ h => hin h⟩
  · intro a t tobj ha hmem ht hcl
    rw [hs] at ha
    cases ha
    obtain ⟨tobj2, ht2, hin⟩ := hinv.joined s sobj t hs hmem
    rw [ht] at ht2
    cases ht2
    have hempty := hinv.closed_empty t tobj ht hcl
    have hmem2 := hin hopen
    rw [hempty] at hmem2
    cases hmem2

theorem removeSubscription_empty {Event : Type} (w : World Event) (t : TopicRef) (s : SubRef)
    (tobj : topic) (ht : w.topicObjs[t]? = some tobj) (hempty : deleteSub s tobj.subs = []) :
    removeSubscription w t s =
      .ok { w with
            topicObjs := w.topicObjs.set t { tobj with subs := deleteSub s tobj.subs, isClosed := true }
            bus := { w.bus with topics := w.bus.topics.Delete tobj.key } } () := by
  unfold removeSubscription
  simp [ht, hempty]

theorem removeSubscription_nonempty {Event : Type} (w : World Event) (t : TopicRef) (s : SubRef)
    (tobj : topic) (ht : w.topicObjs[t]? = some tobj) (hne : deleteSub s tobj.subs ≠ []) :
    removeSubscription w t s =
      .ok { w with topicObjs := w.topicObjs.set t { tobj with subs := deleteSub s tobj.subs } } () := by
  unfold removeSubscription
  simp [ht, hne]

end eventbus

namespace eventbus

theorem InvU.key_ne {Event : Type} {s : SubRef} {w : World Event} (hinv : InvU s w)
    (sobj : Subscription Event) (hs : w.subObjs[s]? = some sobj) (t : TopicRef) (tobj : topic)
    (hmem : t ∈ sobj.topics) (ht : w.topicObjs[t]? = some tobj) (t1 : TopicRef) (tobj1 : topic)
    (ht1 : w.topicObjs[t1]? = some tobj1) (hne : t1 ≠ t) (hopen : tobj1.isClosed = false) :
    tobj1.key ≠ tobj.key := by
  intro heq
  have h1 := (hinv.open_reg t1 tobj1 ht1 hopen).1
  rw [heq] at h1
  cases hc : tobj.isClosed with
  | false =>
    have h2 := (hinv.open_reg t tobj ht hc).1
    rw [h1] at h2
    exact hne (Option.some.inj h2)
  | true =>
    have h2 := hinv.closed_unreg sobj t tobj hs hmem ht hc
    rw [h1] at h2
    cases h2

theorem removeSubscription_spec {Event : Type} (w : World Event) (s t : Nat)
    (sobj : Subscription Event) (hinv : InvU s w) (hs : w.subObjs[s]? = some sobj)
    (hmem : t ∈ sobj.topics) :
    ∃ w1 : World Event, removeSubscription w t s = .ok w1 () ∧ InvU s w1 ∧ Detach s w w1 ∧
      (∀ tobj1 : topic, w1.topicObjs[t]? = some tobj1 → s ∉ tobj1.subs) ∧
      (∀ t1 : Nat, t1 ≠ t → w1.topicObjs[t1]? = w.topicObjs[t1]?) := by
  obtain ⟨tobj, ht, hin⟩ := hinv.joined s sobj t hs hmem
  have htlt : t < w.topicObjs.length := lt_of_lookup ht
  have hkne := hinv.key_ne sobj hs t tobj hmem ht
  by_cases hempty : deleteSub s tobj.subs = []
  · have hself : (w.topicObjs.set t
        { tobj with subs := deleteSub s tobj.subs, isClosed := true })[t]? =
        some { tobj with subs := deleteSub s tobj.subs, isClosed := true } :=
      List.getElem?_set_self htlt
    have hother : ∀ t1 : Nat, t1 ≠ t → (w.topicObjs.set t
        { tobj with subs := deleteSub s tobj.subs, isClosed := true })[t1]? = w.topicObjs[t1]? :=
      fun t1 h1 => List.getElem?_set_ne (Ne.symm h1)
    have hdel_self : sync.Map.Load (w.bus.topics.Delete tobj.key).m tobj.key = none :=
      sync.Map.Load_Delete_self _ _
    have hdel_ne : ∀ k : String, k ≠ tobj.key →
        sync.Map.Load (w.bus.topics.Delete tobj.key).m k = sync.Map.Load w.bus.topics.m k :=
      fun k hk => sync.Map.Load_Delete_ne _ _ _ hk
    refine ⟨_, removeSubscription_empty w t s tobj ht hempty, ?_, ?_, ?_, ?_⟩
    · refine ⟨?_, ?_, ?_, ?_, ?_, ?_, ?_⟩
      · intro k t1 h
        dsimp only at h ⊢
        have hk : k ≠ tobj.key := by
          rintro rfl
          rw [hdel_self] at h
          cases h
        rw [hdel_ne k hk] at h
        obtain ⟨tobj1, h1, hkey, hop⟩ := hinv.reg_open k t1 h
        have hne : t1 ≠ t := by
          rintro rfl
          rw [ht] at h1
          cases h1
          exact hk hkey.symm
        rw [hother t1 hne]
        exact ⟨tobj1, h1, hkey, hop⟩
      · intro t1 tobj1 h hop
        dsimp only at h ⊢
        by_cases hne : t1 = t
        · subst hne
          rw [hself] at h
          cases h
          cases hop
        · rw [hother t1 hne] at h
          obtain ⟨hreg, hnn⟩ := hinv.open_reg t1 tobj1 h hop
          rw [hdel_ne _ (hkne t1 tobj1 h hne hop)]
          exact ⟨hreg, hnn⟩
      · intro t1 tobj1 h hcl
        dsimp only at h
        by_cases hne : t1 = t
        · subst hne
          rw [hself] at h
          cases h
          exact hempty
        · rw [hother t1 hne] at h
          exact hinv.closed_empty t1 tobj1 h hcl
      · intro t1 tobj1 x h hx
        dsimp only at h ⊢
        by_cases hne : t1 = t
        · subst hne
          rw [hself] at h
          cases h
          rw [hempty] at hx
          cases hx
        · rw [hother t1 hne] at h
          exact hinv.member_open t1 tobj1 x h hx
      · intro x a t1 ha hm
        dsimp only at ha ⊢
        obtain ⟨tobj1, h1, hin1⟩ := hinv.joined x a t1 ha hm
        by_cases hne : t1 = t
        · subst hne
          rw [ht] at h1
          cases h1
          refine ⟨_, hself, ?_⟩
          intro hxs hop
          have hx : x ∈ deleteSub s tobj.subs := (mem_deleteSub s x _).mpr ⟨hin1 hxs hop, hxs⟩
          rw [hempty] at hx
          cases hx
        · rw [hother t1 hne]
          exact ⟨tobj1, h1, hin1⟩
      · exact hinv.within_cap
      · intro a t1 tobj1 ha hm h hcl
        dsimp only at ha h ⊢
        by_cases hne : t1 = t
        · subst hne
          rw [hself] at h
          cases h
          exact hdel_self
        · rw [hother t1 hne] at h
          have hnone := hinv.closed_unreg a t1 tobj1 ha hm h hcl
          by_cases hk : tobj1.key = tobj.key
          · rw [hk]
            exact hdel_self
          · rw [hdel_ne _ hk]
            exact hnone
    · refine ⟨rfl, rfl, by simp, ?_, ?_, ?_⟩
      · intro t1 tobj1 h
        dsimp only
        by_cases hne : t1 = t
        · subst hne
          rw [ht] at h
          cases h
          exact ⟨_, hself, rfl, Or.inr rfl, fun _ => rfl⟩
        · rw [hother t1 hne]
          exact ⟨tobj1, h, rfl, Or.inl rfl, fun h2 => h2⟩
      · intro k t1 h
        dsimp only at h
        have hk : k ≠ tobj.key := by
          rintro rfl
          rw [hdel_self] at h
          cases h
        rw [hdel_ne k hk] at h
        exact h
      · intro k t1 tobj1 hreg h hop
        dsimp only at h ⊢
        by_cases hne : t1 = t
        · subst hne
          rw [hself] at h
          cases h
          cases hop
        · rw [hother t1 hne] at h
          obtain ⟨tobj2, h2, hkey, _⟩ := hinv.reg_open k t1 hreg
          rw [h] at h2
          cases h2
          rw [← hkey, hdel_ne _ (hkne t1 tobj1 h hne hop)]
          rw [hkey]
          exact hreg
    · intro tobj1 h
      dsimp only at h
      rw [hself] at h
      cases h
      dsimp only
      rw [hempty]
      exact List.not_mem_nil s
    · intro t1 hne
      exact hother t1 hne
  · have hself : (w.topicObjs.set t { tobj with subs := deleteSub s tobj.subs })[t]? =
        some { tobj with subs := deleteSub s tobj.subs } :=
      List.getElem?_set_self htlt
    have hother : ∀ t1 : Nat, t1 ≠ t →
        (w.topicObjs.set t { tobj with subs := deleteSub s tobj.subs })[t1]? = w.topicObjs[t1]? :=
      fun t1 h1 => List.getElem?_set_ne (Ne.symm h1)
    refine ⟨_, removeSubscription_nonempty w t s tobj ht hempty, ?_, ?_, ?_, ?_⟩
    · refine ⟨?_, ?_, ?_, ?_, ?_, ?_, ?_⟩
      · intro k t1 h
        dsimp only at h ⊢
        obtain ⟨tobj1, h1, hkey, hop⟩ := hinv.reg_open k t1 h
        by_cases hne : t1 = t
        · subst hne
          rw [ht] at h1
          cases h1
          exact ⟨_, hself, hkey, hop⟩
        · rw [hother t1 hne]
          exact ⟨tobj1, h1, hkey, hop⟩
      · intro t1 tobj1 h hop
        dsimp only at h ⊢
        by_cases hne : t1 = t
        · subst hne
          rw [hself] at h
          cases h
          exact ⟨(hinv.open_reg t1 tobj ht hop).1, hempty⟩
        · rw [hother t1 hne] at h
          exact hinv.open_reg t1 tobj1 h hop
      · intro t1 tobj1 h hcl
        dsimp only at h
        by_cases hne : t1 = t
        · subst hne
          rw [hself] at h
          cases h
          have h0 := hinv.closed_empty t1 tobj ht hcl
          dsimp only
          rw [h0]
          rfl
        · rw [hother t1 hne] at h
          exact hinv.closed_empty t1 tobj1 h hcl
      · intro t1 tobj1 x h hx
        dsimp only at h ⊢
        by_cases hne : t1 = t
        · subst hne
          rw [hself] at h
          cases h
          exact hinv.member_open t1 tobj x ht ((mem_deleteSub s x _).mp hx).1
        · rw [hother t1 hne] at h
          exact hinv.member_open t1 tobj1 x h hx
      · intro x a t1 ha hm
        dsimp only at ha ⊢
        obtain ⟨tobj1, h1, hin1⟩ := hinv.joined x a t1 ha hm
        by_cases hne : t1 = t
        · subst hne
          rw [ht] at h1
          cases h1
          exact ⟨_, hself, fun hxs hop => (mem_deleteSub s x _).mpr ⟨hin1 hxs hop, hxs⟩⟩
        · rw [hother t1 hne]
          exact ⟨tobj1, h1, hin1⟩
      · exact hinv.within_cap
      · intro a t1 tobj1 ha hm h hcl
        dsimp only at ha h ⊢
        by_cases hne : t1 = t
        · subst hne
          rw [hself] at h
          cases h
          exact hinv.closed_unreg a t1 tobj ha hm ht hcl
        · rw [hother t1 hne] at h
          exact hinv.closed_unreg a t1 tobj1 ha hm h hcl
    · refine ⟨rfl, rfl, by simp, ?_, fun _ _ h => h, fun _ _ _ h _ _ => h⟩
      intro t1 tobj1 h
      dsimp only
      by_cases hne : t1 = t
      · subst hne
        rw [ht] at h
        cases h
        exact ⟨_, hself, rfl, Or.inr rfl, fun h2 => h2⟩
      · rw [hother t1 hne]
        exact ⟨tobj1, h, rfl, Or.inl rfl, fun h2 => h2⟩
    · intro tobj1 h
      dsimp only at h
      rw [hself] at h
      cases h
      exact fun hx => ((mem_deleteSub s s _).mp hx).2 rfl
    · intro t1 hne
      exact hother t1 hne

end eventbus

namespace eventbus

theorem Detach.nothing {Event : Type} (s : SubRef) (w : World Event) : Detach s w w :=
  ⟨rfl, rfl, rfl, fun _ tobj h => ⟨tobj, h, rfl, Or.inl rfl, fun h2 => h2⟩, fun _ _ h => h,
    fun _ _ _ h _ _ => h⟩

theorem Detach.compose {Event : Type} {s : SubRef} {w w1 w2 : World Event} (h1 : Detach s w w1)
    (h2 : Detach s w1 w2) : Detach s w w2 := by
  refine ⟨h2.raw.trans h1.raw, h2.subObjs.trans h1.subObjs, h2.top_len.trans h1.top_len, ?_, ?_, ?_⟩
  · intro t tobj h
    obtain ⟨a, ha, ak, asub, acl⟩ := h1.top t tobj h
    obtain ⟨b, hb, bk, bsub, bcl⟩ := h2.top t a ha
    refine ⟨b, hb, bk.trans ak, ?_, fun hc => bcl (acl hc)⟩
    rcases asub with e1 | e1 <;> rcases bsub with e2 | e2
    · exact Or.inl (e2.trans e1)
    · exact Or.inr (by rw [e2, e1])
    · exact Or.inr (e2.trans e1)
    · exact Or.inr (by rw [e2, e1, deleteSub_idem])
  · intro k t h
    exact h1.reg_sub k t (h2.reg_sub k t h)
  · intro k t tobj2 hreg h hop
    have hlt : t < w1.topicObjs.length := by
      have := lt_of_lookup h
      rw [h2.top_len] at this
      exact this
    obtain ⟨b, hb, _, _, bcl⟩ := h2.top t (w1.topicObjs[t]) (List.getElem?_eq_getElem hlt)
    rw [h] at hb
    cases hb
    have hopA : (w1.topicObjs[t]).isClosed = false := by
      cases hc : (w1.topicObjs[t]).isClosed with
      | false => rfl
      | true =>
        rw [bcl hc] at hop
        cases hop
    exact h2.reg_keep k t tobj2
      (h1.reg_keep k t _ hreg (List.getElem?_eq_getElem hlt) hopA) h hop

theorem unsubscribeLoop_spec {Event : Type} (s : Nat) (sobj : Subscription Event) :
    ∀ (ts : List Nat) (w : World Event), InvU s w → w.subObjs[s]? = some sobj →
      (∀ t, t ∈ ts → t ∈ sobj.topics) →
      ∃ w1 : World Event, unsubscribeLoop s ts w = .ok w1 () ∧ InvU s w1 ∧ Detach s w w1 ∧
        (∀ (t : Nat) (tobj1 : topic), t ∈ ts → w1.topicObjs[t]? = some tobj1 → s ∉ tobj1.subs) ∧
        (∀ t1 : Nat, t1 ∉ ts → w1.topicObjs[t1]? = w.topicObjs[t1]?)
  | [], w, hinv, _, _ => by
    refine ⟨w, rfl, hinv, Detach.nothing s w, ?_, fun _ _ => rfl⟩
    intro t _ hmem
    cases hmem
  | t :: rest, w, hinv, hs, hsub => by
    obtain ⟨w1, hrun1, hinv1, hd1, hnot1, hother1⟩ :=
      removeSubscription_spec w s t sobj hinv hs (hsub t (List.mem_cons_self _ _))
    have hs1 : w1.subObjs[s]? = some sobj := by
      rw [hd1.subObjs]
      exact hs
    obtain ⟨w2, hrun2, hinv2, hd2, hnot2, hother2⟩ := unsubscribeLoop_spec s sobj rest w1 hinv1 hs1
      (fun t1 h1 => hsub t1 (List.mem_cons_of_mem _ h1))
    refine ⟨w2, ?_, hinv2, hd1.compose hd2, ?_, ?_⟩
    · rw [unsubscribeLoop, hrun1]
      exact hrun2
    · intro t1 tobj2 hmem h2
      by_cases hin : t1 ∈ rest
      · exact hnot2 t1 tobj2 hin h2
      · have ht1 : t1 = t := by
          rcases List.mem_cons.mp hmem with h | h
          · exact h
          · exact absurd h hin
        subst ht1
        rw [hother2 t1 hin] at h2
        exact hnot1 tobj2 h2
    · intro t1 hnin
      have hne : t1 ≠ t := fun h => hnin (h ▸ List.mem_cons_self _ _)
      have hnr : t1 ∉ rest := fun h => hnin (List.mem_cons_of_mem _ h)
      rw [hother2 t1 hnr, hother1 t1 hne]

end eventbus

namespace eventbus

theorem Chan.close_open {Event : Type} (c : Chan Event) (h : c.closed = false) :
    c.close = some { c with closed := true } := by
  unfold Chan.close
  simp [h]

theorem Unsubscribe_spec {Event : Type} (w : World Event) (s : Nat) (sobj : Subscription Event)
    (hinv : Inv w) (hs : w.subObjs[s]? = some sobj) (hopen : sobj.ch.closed = false) :
    ∃ w1 : World Event, Unsubscribe w s = .ok w1 () ∧ Inv w1 ∧ Unsubscribed s sobj w w1 := by
  obtain ⟨w1, hrun, hinvU, hd, hnot, hother⟩ := unsubscribeLoop_spec s sobj sobj.topics w
    (hinv.toInvU s sobj hs hopen) hs (fun _ h => h)
  have hs1 : w1.subObjs[s]? = some sobj := by
    rw [hd.subObjs]
    exact hs
  have hslt : s < w1.subObjs.length := lt_of_lookup hs1
  have hnone : ∀ (t : Nat) (tobj1 : topic), w1.topicObjs[t]? = some tobj1 → s ∉ tobj1.subs := by
    intro t tobj1 h hmem
    obtain ⟨a, ha, _, hat⟩ := hinvU.member_open t tobj1 s h hmem
    rw [hs1] at ha
    cases ha
    exact hnot t tobj1 hat h hmem
  have hself : (w1.subObjs.set s { sobj with ch := { sobj.ch with closed := true } })[s]? =
      some { sobj with ch := { sobj.ch with closed := true } } := List.getElem?_set_self hslt
  have hoth : ∀ x : Nat, x ≠ s →
      (w1.subObjs.set s { sobj with ch := { sobj.ch with closed := true } })[x]? = w1.subObjs[x]? :=
    fun x hx => List.getElem?_set_ne (Ne.symm hx)
  have hinv2 : Inv { w1 with
      subObjs := w1.subObjs.set s { sobj with ch := { sobj.ch with closed := true } } } := by
    refine ⟨hinvU.reg_open, hinvU.open_reg, hinvU.closed_empty, ?_, ?_, ?_⟩
    · intro t tobj x h hx
      dsimp only at h ⊢
      have hne : x ≠ s := by
        rintro rfl
        exact hnone t tobj h hx
      rw [hoth x hne]
      exact hinvU.member_open t tobj x h hx
    · intro x b t h hmem
      dsimp only at h ⊢
      by_cases hx : x = s
      · subst hx
        rw [hself] at h
        cases h
        obtain ⟨tobj, ht, _⟩ := hinvU.joined x sobj t hs1 hmem
        refine ⟨tobj, ht, ?_⟩
        intro hc
        cases hc
      · rw [hoth x hx] at h
        obtain ⟨tobj, ht, hin⟩ := hinvU.joined x b t h hmem
        exact ⟨tobj, ht, hin hx⟩
    · intro x b h
      dsimp only at h
      by_cases hx : x = s
      · subst hx
        rw [hself] at h
        cases h
        exact hinvU.within_cap x sobj hs1
      · rw [hoth x hx] at h
        exact hinvU.within_cap x b h
  refine ⟨_, ?_, hinv2, ?_⟩
  · unfold Unsubscribe
    simp only [hs, hrun, hs1, Chan.close_open sobj.ch hopen]
  · refine ⟨hd.raw, ?_, hd.top_len, ?_, hother, ?_⟩
    · dsimp only
      rw [hd.subObjs]
    · intro t tobj h
      obtain ⟨tobj1, h1, hk, hsub, _⟩ := hd.top t tobj h
      have hnot1 := hnone t tobj1 h1
      refine ⟨tobj1, h1, hk, ?_, ?_⟩
      · rcases hsub with e | e
        · rw [e] at hnot1
          rw [e, deleteSub_of_not_mem s tobj.subs hnot1]
        · exact e
      · constructor
        · exact hinv2.closed_empty t tobj1 h1
        · intro hempty
          cases hc : tobj1.isClosed with
          | true => rfl
          | false => exact absurd hempty (hinv2.open_reg t tobj1 h1 hc).2
    · intro k t
      constructor
      · intro h
        obtain ⟨tobj1, h1, _, hop⟩ := hinv2.reg_open k t h
        exact ⟨hd.reg_sub k t h, tobj1, h1, (hinv2.open_reg t tobj1 h1 hop).2⟩
      · rintro ⟨hreg, tobj1, h1, hne⟩
        have hop : tobj1.isClosed = false := by
          cases hc : tobj1.isClosed with
          | false => rfl
          | true => exact absurd (hinv2.closed_empty t tobj1 h1 hc) hne
        exact hd.reg_keep k t tobj1 hreg h1 hop

end eventbus

namespace eventbus

/-! ## The invariant holds between calls -/

theorem Inv.init {Event : Type} (config : Config) : Inv (NewWithConfig config : World Event) := by
  refine ⟨?_, ?_, ?_, ?_, ?_, ?_⟩
  · intro k t h
    cases h
  · intro t tobj h
    simp [NewWithConfig] at h
  · intro t tobj h
    simp [NewWithConfig] at h
  · intro t tobj s h
    simp [NewWithConfig] at h
  · intro s sobj t h
    simp [NewWithConfig] at h
  · intro s sobj h
    simp [NewWithConfig] at h

theorem removeSubscription_subObjs {Event : Type} (w : World Event) (t : TopicRef) (s : SubRef) :
    (removeSubscription w t s).state.subObjs = w.subObjs := by
  unfold removeSubscription
  split
  · rfl
  · dsimp only
    split <;> rfl

theorem unsubscribeLoop_subObjs {Event : Type} (s : SubRef) :
    ∀ (ts : List TopicRef) (w : World Event), (unsubscribeLoop s ts w).state.subObjs = w.subObjs
  | [], _ => rfl
  | t :: rest, w => by
    rw [unsubscribeLoop]
    have h1 := removeSubscription_subObjs w t s
    split
    · rename_i w1 f heq
      rw [heq] at h1
      exact h1
    · rename_i w1 u heq
      rw [heq] at h1
      rw [unsubscribeLoop_subObjs s rest w1]
      exact h1

theorem Unsubscribe_ok_open {Event : Type} (w w1 : World Event) (s : SubRef)
    (h : Unsubscribe w s = .ok w1 ()) :
    ∃ sobj : Subscription Event, w.subObjs[s]? = some sobj ∧ sobj.ch.closed = false := by
  unfold Unsubscribe at h
  cases hs : w.subObjs[s]? with
  | none => simp [hs] at h
  | some sobj =>
    refine ⟨sobj, rfl, ?_⟩
    simp only [hs] at h
    have hsub := unsubscribeLoop_subObjs s sobj.topics w
    cases hrun : unsubscribeLoop s sobj.topics w with
    | fail w2 f => simp [hrun] at h
    | ok w2 u =>
      rw [hrun] at hsub
      simp only [Res.state] at hsub
      simp only [hrun, hsub, hs] at h
      cases hc : sobj.ch.closed with
      | false => rfl
      | true => simp [Chan.close, hc] at h

theorem subscribeLoop_zero {Event : Type} (s : SubRef) (ks : List String) (w w1 : World Event)
    (h : subscribeLoop 0 s ks w = .ok w1 ()) : ks = [] := by
  cases ks with
  | nil => rfl
  | cons k rest => simp [subscribeLoop, findOrCreateTopic] at h

theorem Subscribe_inv {Event : Type} [ChanLimit Event] (fuel : Nat) (w w1 : World Event)
    (ks : List String)
    (s : SubRef) (hinv : Inv w) (h : Subscribe fuel w ks = .ok w1 s) : Inv w1 := by
  have hfit := Subscribe_ok_fits fuel w w1 ks s h
  cases fuel with
  | succ n =>
    obtain ⟨w2, hrun, hinv2, _⟩ := Subscribe_spec n w ks hinv hfit
    rw [hrun] at h
    cases h
    exact hinv2
  | zero =>
    have hks : ks = [] := by
      unfold Subscribe at h
      rw [makeChan_bufferSize w hfit] at h
      simp only at h
      cases hrun : subscribeLoop 0 w.subObjs.length ks
          { w with subObjs := w.subObjs ++
            [{ ch := { buf := [], cap := (bufferSizeOrDefault w.bus).toNat, closed := false },
               topics := [] }] } with
      | fail w2 f => simp [hrun] at h
      | ok w2 u => exact subscribeLoop_zero _ _ _ _ hrun
    subst hks
    obtain ⟨w2, hrun, hinv2, _⟩ := Subscribe_spec 0 w [] hinv hfit
    have heq : Subscribe 0 w ([] : List String) = Subscribe (0 + 1) w [] := by
      unfold Subscribe
      simp [subscribeLoop]
    rw [heq, hrun] at h
    cases h
    exact hinv2

theorem step_inv {Event : Type} [ChanLimit Event] (fuel : Nat) (op : Op Event)
    (w w1 : World Event) (r : Ret Event)
    (hinv : Inv w) (h : step fuel w op = .ok w1 r) : Inv w1 := by
  cases op with
  | subscribe ks =>
    simp only [step] at h
    cases hrun : Subscribe fuel w ks with
    | fail w2 f => simp [hrun] at h
    | ok w2 s =>
      simp only [hrun, Res.ok.injEq] at h
      rw [← h.1]
      exact Subscribe_inv fuel w w2 ks s hinv hrun
  | publish e ks =>
    simp only [step] at h
    have hb := Publish_bufOnly w e ks
    cases hrun : Publish w e ks with
    | fail w2 f => simp [hrun] at h
    | ok w2 u =>
      simp only [hrun, Res.ok.injEq] at h
      rw [hrun] at hb
      rw [← h.1]
      exact hinv.of_bufOnly hb
  | unsubscribe s =>
    simp only [step] at h
    cases hrun : Unsubscribe w s with
    | fail w2 f => simp [hrun] at h
    | ok w2 u =>
      simp only [hrun, Res.ok.injEq] at h
      rw [← h.1]
      obtain ⟨sobj, hs, hopen⟩ := Unsubscribe_ok_open w w2 s hrun
      obtain ⟨w3, hrun3, hinv3, _⟩ := Unsubscribe_spec w s sobj hinv hs hopen
      rw [hrun] at hrun3
      cases hrun3
      exact hinv3
  | receive s =>
    simp only [step] at h
    have hb := Receive_bufOnly w s
    cases hrun : Receive w s with
    | fail w2 f => simp [hrun] at h
    | ok w2 v =>
      simp only [hrun, Res.ok.injEq] at h
      rw [hrun] at hb
      rw [← h.1]
      exact hinv.of_bufOnly hb

theorem Reachable.inv {Event : Type} [ChanLimit Event] {w : World Event}
    (h : Reachable w) : Inv w := by
  induction h with
  | init config => exact Inv.init config
  | step fuel op w w1 r _ hstep ih => exact step_inv fuel op w w1 r ih hstep

end eventbus

namespace eventbus

/-! ## Sample memories are reachable -/

theorem sampleOne_reachable : Reachable sampleOne :=
  Reachable.step 1 (.subscribe ["k1", "k2"]) New sampleOne (.subscription 0) (Reachable.init {})
    (by decide)

theorem sampleTwo_reachable : Reachable sampleTwo :=
  Reachable.step 1 (.subscribe ["k1"]) sampleOne sampleTwo (.subscription 1) sampleOne_reachable
    (by decide)

/-- Members of a registered topic are valid subscriptions in a memory satisfying `Inv`. -/
theorem Inv.target_open {Event : Type} {w : World Event} (hinv : Inv w) (ks : List String)
    (s : SubRef) (h : isTarget w ks s = true) :
    ∃ sobj : Subscription Event, w.subObjs[s]? = some sobj ∧ sobj.ch.closed = false := by
  unfold isTarget at h
  rw [List.any_eq_true] at h
  obtain ⟨k, _, hk⟩ := h
  have hmem : s ∈ subscribers w k := by simpa using hk
  cases hload : sync.Map.Load w.bus.topics.m k with
  | none =>
    rw [subscribers_of_none w k hload] at hmem
    cases hmem
  | some t =>
    obtain ⟨tobj, ht, _, _⟩ := hinv.reg_open k t hload
    rw [subscribers_of_some w k t tobj hload ht] at hmem
    obtain ⟨sobj, hs, hopen, _⟩ := hinv.member_open t tobj s ht hmem
    exact ⟨sobj, hs, hopen⟩

/-! ## Claims -/

/-- C1. Exactly-once fanout: in every reachable memory, for every event `e` and every list of
topic keys `ks` (any length, duplicates and unknown keys allowed), if no target channel is
full then `Publish` completes and the channel of every subscription that is a member of the
registered topic of at least one key in `ks` holds its former events followed by `e`, once. -/
theorem publish_exactly_once {Event : Type} [ChanLimit Event] (w : World Event) (e : Event)
    (ks : List String)
    (hreach : Reachable w) (hroom : ∀ s, isTarget w ks s = true → hasRoom w s = true) :
    ∃ w1 : World Event, Publish w e ks = .ok w1 () ∧
      ∀ s, isTarget w ks s = true →
        ∃ buf : List Event, channelOf w s = some buf ∧ channelOf w1 s = some (buf ++ [e]) := by
  have hinv := hreach.inv
  obtain ⟨w1, pub1, hrun, _, hch⟩ := publishKeys_spec e ks w []
    (by
      intro k t _ hload
      obtain ⟨tobj, ht, _⟩ := hinv.reg_open k t hload
      exact ⟨tobj, ht⟩)
    (by
      intro s hs _
      obtain ⟨sobj, hsobj, hopen⟩ := hinv.target_open ks s hs
      have hr := hroom s hs
      unfold hasRoom at hr
      rw [hsobj] at hr
      exact ⟨sobj, hsobj, hopen, by simpa using hr⟩)
  refine ⟨w1, ?_, ?_⟩
  · unfold Publish
    rw [hrun]
  · intro s hs
    obtain ⟨sobj, hsobj, _⟩ := hinv.target_open ks s hs
    refine ⟨sobj.ch.buf, ?_, ?_⟩
    · unfold channelOf
      rw [hsobj]
      rfl
    · unfold channelOf
      rw [hch s, hsobj]
      simp [hs, pushEvent]

theorem sampleOne_room (s : SubRef)
    (h : isTarget sampleOne ["k1", "k1", "k2", "zz"] s = true) : hasRoom sampleOne s = true := by
  have hs : s = 0 := by
    have h2 : ∀ k : String, s ∈ subscribers sampleOne k → s = 0 := by
      intro k hk
      cases hload : sync.Map.Load sampleOne.bus.topics.m k with
      | none =>
        rw [subscribers_of_none sampleOne k hload] at hk
        cases hk
      | some t =>
        cases ht : sampleOne.topicObjs[t]? with
        | none =>
          rw [subscribers_of_dangling sampleOne k t hload ht] at hk
          cases hk
        | some tobj =>
          rw [subscribers_of_some sampleOne k t tobj hload ht] at hk
          have hlt : t < 2 := lt_of_lookup ht
          have h0 : ∀ i : Nat, i < 2 → ∀ x : topic, sampleOne.topicObjs[i]? = some x →
              x.subs = [0] := by decide
          rw [h0 t hlt tobj ht] at hk
          exact List.mem_singleton.mp hk
    unfold isTarget at h
    rw [List.any_eq_true] at h
    obtain ⟨k, _, hk⟩ := h
    exact h2 k (by simpa using hk)
  subst hs
  decide

/-- Witness for C1: a subscriber of "k1" and "k2" gets the event once from
`Publish(7, "k1", "k1", "k2", "zz")`. -/
theorem publish_exactly_once_witness :
    ∃ w1 : World Nat, Publish sampleOne 7 ["k1", "k1", "k2", "zz"] = .ok w1 () ∧
      ∀ s, isTarget sampleOne ["k1", "k1", "k2", "zz"] s = true →
        ∃ buf : List Nat, channelOf sampleOne s = some buf ∧ channelOf w1 s = some (buf ++ [7]) :=
  publish_exactly_once sampleOne 7 ["k1", "k1", "k2", "zz"] sampleOne_reachable sampleOne_room

end eventbus

namespace eventbus

theorem Inv.mem_subscribedKeys_iff {Event : Type} {w : World Event} (hinv : Inv w) (s : SubRef)
    (sobj : Subscription Event) (hs : w.subObjs[s]? = some sobj) (hopen : sobj.ch.closed = false)
    (k : String) : k ∈ subscribedKeys w s ↔ s ∈ subscribers w k := by
  unfold subscribedKeys
  rw [hs]
  simp only [List.mem_filterMap, Option.map_eq_some']
  constructor
  · rintro ⟨t, hmem, tobj, ht, hkey⟩
    obtain ⟨tobj2, ht2, hin⟩ := hinv.joined s sobj t hs hmem
    rw [ht] at ht2
    cases ht2
    have hsin := hin hopen
    have hop : tobj.isClosed = false := by
      cases hc : tobj.isClosed with
      | false => rfl
      | true =>
        have h0 := hinv.closed_empty t tobj ht hc
        rw [h0] at hsin
        cases hsin
    have hreg := (hinv.open_reg t tobj ht hop).1
    rw [hkey] at hreg
    rw [subscribers_of_some w k t tobj hreg ht]
    exact hsin
  · intro hmem
    cases hload : sync.Map.Load w.bus.topics.m k with
    | none =>
      rw [subscribers_of_none w k hload] at hmem
      cases hmem
    | some t =>
      obtain ⟨tobj, ht, hkey, _⟩ := hinv.reg_open k t hload
      rw [subscribers_of_some w k t tobj hload ht] at hmem
      obtain ⟨a, ha, _, hat⟩ := hinv.member_open t tobj s ht hmem
      rw [hs] at ha
      cases ha
      exact ⟨t, hat, tobj, ht, hkey⟩

theorem Inv.isTarget_eq {Event : Type} {w : World Event} (hinv : Inv w) (s : SubRef)
    (sobj : Subscription Event) (hs : w.subObjs[s]? = some sobj) (hopen : sobj.ch.closed = false)
    (ks : List String) :
    isTarget w ks s = ks.any (fun k => decide (k ∈ subscribedKeys w s)) := by
  unfold isTarget
  congr 1
  funext k
  rw [decide_eq_decide]
  exact (hinv.mem_subscribedKeys_iff s sobj hs hopen k).symm

theorem publishAll_ok {Event : Type} :
    ∀ (ps : List (Event × List String)) (w w1 : World Event), publishAll ps w = .ok w1 () →
      BufOnly w w1 ∧
      ∀ s : SubRef, w1.subObjs[s]? =
        (w.subObjs[s]?).map
          (pushEvents ((ps.filter (fun p => isTarget w p.2 s)).map Prod.fst))
  | [], w, w1, h => by
    rw [publishAll] at h
    cases h
    refine ⟨BufOnly.same w, ?_⟩
    intro s
    cases w.subObjs[s]? <;> simp [pushEvents]
  | (e, ks) :: rest, w, w1, h => by
    rw [publishAll] at h
    cases hrun : Publish w e ks with
    | fail w2 f => simp [hrun] at h
    | ok w2 u =>
      simp only [hrun] at h
      obtain ⟨hb1, hch1⟩ := Publish_ok w e ks w2 hrun
      obtain ⟨hb2, hch2⟩ := publishAll_ok rest w2 w1 h
      refine ⟨hb1.chain hb2, ?_⟩
      intro s
      rw [hch2 s, hch1 s]
      cases hs : w.subObjs[s]? with
      | none => rfl
      | some sobj =>
        simp only [Option.map_some', Option.some.injEq, isTarget_congr hb1.bus hb1.topicObjs]
        by_cases ht : isTarget w ks s = true
        · simp [ht, pushEvent, pushEvents, List.filter_cons]
        · simp [ht, pushEvents, List.filter_cons]

/-- C2. Order preservation: for every subscription `s` that is open in a reachable memory and
every finite sequence of `Publish` calls that run one after another to completion, `s` is
still open afterwards and its channel holds, in FIFO order, its former events followed by
exactly the events `e_i` whose key list `ks_i` contains a key `s` is subscribed to, in the order
the calls were made. -/
theorem publish_order_preserved {Event : Type} [ChanLimit Event] (w w1 : World Event) (s : SubRef)
    (ps : List (Event × List String)) (hreach : Reachable w) (hopen : isOpen w s = true)
    (hrun : publishAll ps w = .ok w1 ()) :
    ∃ buf : List Event, channelOf w s = some buf ∧
      channelOf w1 s = some (buf ++ eventsFor (subscribedKeys w s) ps) ∧ isOpen w1 s = true := by
  have hinv := hreach.inv
  obtain ⟨hb, hch⟩ := publishAll_ok ps w w1 hrun
  unfold isOpen at hopen
  cases hs : w.subObjs[s]? with
  | none => simp [hs] at hopen
  | some sobj =>
    rw [hs] at hopen
    have hop : sobj.ch.closed = false := by simpa using hopen
    have hs1 := hch s
    rw [hs] at hs1
    refine ⟨sobj.ch.buf, ?_, ?_, ?_⟩
    · unfold channelOf
      rw [hs]
      rfl
    · unfold channelOf eventsFor
      rw [hs1]
      simp only [Option.map_some', Option.some.injEq, pushEvents, List.append_cancel_left_eq]
      congr 1
      congr 1
      funext p
      exact hinv.isTarget_eq s sobj hs hop p.2
    · unfold isOpen
      rw [hs1]
      simpa [pushEvents] using hop

/-- Witness for C2: the scenario of the test "when subscribed to multiple topics". -/
theorem publish_order_preserved_witness :
    ∃ buf : List Nat, channelOf sampleOne 0 = some buf ∧
      channelOf
          (publishAll [(123, ["k1", "k2", "k3"]), (456, ["k3"]), (789, ["k1"]), (42, ["k2"])]
            sampleOne).state 0 =
        some (buf ++ eventsFor (subscribedKeys sampleOne 0)
          [(123, ["k1", "k2", "k3"]), (456, ["k3"]), (789, ["k1"]), (42, ["k2"])]) ∧
      isOpen
          (publishAll [(123, ["k1", "k2", "k3"]), (456, ["k3"]), (789, ["k1"]), (42, ["k2"])]
            sampleOne).state 0 = true :=
  publish_order_preserved sampleOne _ 0
    [(123, ["k1", "k2", "k3"]), (456, ["k3"]), (789, ["k1"]), (42, ["k2"])] sampleOne_reachable
    (by decide) (by decide)

theorem Publish_frame {Event : Type} (w : World Event) (e : Event) (ks : List String)
    (s : SubRef) (hs : isTarget w ks s = false) :
    (Publish w e ks).state.subObjs[s]? = w.subObjs[s]? := by
  have h1 := publishKeys_frame e ks w [] s hs
  have h2 : (Publish w e ks).state = (publishKeys e ks w []).state := by
    unfold Publish
    cases publishKeys e ks w [] <;> rfl
  rw [h2]
  exact h1

/-- C3. Independent topics stay independent: for every memory, event `e` and key list `ks`,
`Publish` leaves the subscription object (hence the channel) of every subscription that is not
a member of the registered topic of any key in `ks` as it was, whether the call completes or
not. -/
theorem publish_leaves_others {Event : Type} (w : World Event) (e : Event) (ks : List String)
    (s : SubRef) (hs : isTarget w ks s = false) :
    (Publish w e ks).state.subObjs[s]? = w.subObjs[s]? ∧
      channelOf (Publish w e ks).state s = channelOf w s := by
  have h1 := Publish_frame w e ks s hs
  refine ⟨h1, ?_⟩
  unfold channelOf
  rw [h1]

/-- Witness for C3: a subscriber of "k1" only (subscription 1 of `sampleTwo`) is untouched by
a publish to "k2" only. -/
theorem publish_leaves_others_witness :
    (Publish sampleTwo 5 ["k2"]).state.subObjs[1]? = sampleTwo.subObjs[1]? ∧
      channelOf (Publish sampleTwo 5 ["k2"]).state 1 = channelOf sampleTwo 1 :=
  publish_leaves_others sampleTwo 5 ["k2"] 1 (by decide)

end eventbus

namespace eventbus

/-! ## Facts for the unsubscribe claims -/

theorem Subscribe_ok_spec {Event : Type} [ChanLimit Event] (fuel : Nat) (w w1 : World Event)
    (ks : List String)
    (s : SubRef) (hinv : Inv w) (h : Subscribe fuel w ks = .ok w1 s) :
    s = w.subObjs.length ∧ Inv w1 ∧
      JoinAll ks w.subObjs.length
        { ch := { buf := [], cap := (bufferSizeOrDefault w.bus).toNat, closed := false }, topics := [] }
        { w with subObjs := w.subObjs ++
            [{ ch := { buf := [], cap := (bufferSizeOrDefault w.bus).toNat, closed := false },
               topics := [] }] } w1 := by
  have hfit := Subscribe_ok_fits fuel w w1 ks s h
  cases fuel with
  | succ n =>
    obtain ⟨w2, hrun, hinv2, hj⟩ := Subscribe_spec n w ks hinv hfit
    rw [hrun] at h
    cases h
    exact ⟨rfl, hinv2, hj⟩
  | zero =>
    have hks : ks = [] := by
      unfold Subscribe at h
      rw [makeChan_bufferSize w hfit] at h
      simp only at h
      cases hrun : subscribeLoop 0 w.subObjs.length ks
          { w with subObjs := w.subObjs ++
            [{ ch := { buf := [], cap := (bufferSizeOrDefault w.bus).toNat, closed := false },
               topics := [] }] } with
      | fail w2 f => simp [hrun] at h
      | ok w2 u => exact subscribeLoop_zero _ _ _ _ hrun
    subst hks
    obtain ⟨w2, hrun, hinv2, hj⟩ := Subscribe_spec 0 w [] hinv hfit
    have heq : Subscribe 0 w ([] : List String) = Subscribe (0 + 1) w [] := by
      unfold Subscribe
      simp [subscribeLoop]
    rw [heq, hrun] at h
    cases h
    exact ⟨rfl, hinv2, hj⟩

/-- A completed call leaves the buffer size setting alone and keeps a closed subscription
closed. -/
theorem step_keeps {Event : Type} [ChanLimit Event] (fuel : Nat) (op : Op Event)
    (w w1 : World Event) (r : Ret Event)
    (hinv : Inv w) (h : step fuel w op = .ok w1 r) :
    w1.bus.rawBufferSize = w.bus.rawBufferSize ∧
      ∀ (s : SubRef) (a : Subscription Event), w.subObjs[s]? = some a → a.ch.closed = true →
        ∃ b : Subscription Event, w1.subObjs[s]? = some b ∧ b.ch.closed = true := by
  cases op with
  | subscribe ks =>
    simp only [step] at h
    cases hrun : Subscribe fuel w ks with
    | fail w2 f => simp [hrun] at h
    | ok w2 s1 =>
      simp only [hrun, Res.ok.injEq] at h
      rw [← h.1]
      obtain ⟨_, _, hj⟩ := Subscribe_ok_spec fuel w w2 ks s1 hinv hrun
      refine ⟨hj.raw, ?_⟩
      intro s a ha hcl
      have hlt : s < w.subObjs.length := lt_of_lookup ha
      have hne : s ≠ w.subObjs.length := Nat.ne_of_lt hlt
      refine ⟨a, ?_, hcl⟩
      rw [hj.sub_other s hne]
      dsimp only
      rw [List.getElem?_append_left hlt]
      exact ha
  | publish e ks =>
    simp only [step] at h
    have hb := Publish_bufOnly w e ks
    cases hrun : Publish w e ks with
    | fail w2 f => simp [hrun] at h
    | ok w2 u =>
      simp only [hrun, Res.ok.injEq] at h
      rw [hrun] at hb
      simp only [Res.state] at hb
      rw [← h.1]
      refine ⟨by rw [hb.bus], ?_⟩
      intro s a ha hcl
      obtain ⟨b, hb2⟩ := lookup_some_of_len hb.len ha
      obtain ⟨⟨_, _, e3⟩, _⟩ := hb.shape s a b ha hb2
      exact ⟨b, hb2, by rw [e3]; exact hcl⟩
  | unsubscribe s1 =>
    simp only [step] at h
    cases hrun : Unsubscribe w s1 with
    | fail w2 f => simp [hrun] at h
    | ok w2 u =>
      simp only [hrun, Res.ok.injEq] at h
      rw [← h.1]
      obtain ⟨sobj, hs, hopen⟩ := Unsubscribe_ok_open w w2 s1 hrun
      obtain ⟨w3, hrun3, _, hu⟩ := Unsubscribe_spec w s1 sobj hinv hs hopen
      rw [hrun] at hrun3
      cases hrun3
      refine ⟨hu.raw, ?_⟩
      intro s a ha hcl
      have hne : s1 ≠ s := by
        rintro rfl
        rw [hs] at ha
        cases ha
        rw [hopen] at hcl
        cases hcl
      refine ⟨a, ?_, hcl⟩
      rw [hu.subObjs, List.getElem?_set_ne hne]
      exact ha
  | receive s1 =>
    simp only [step] at h
    have hb := Receive_bufOnly w s1
    cases hrun : Receive w s1 with
    | fail w2 f => simp [hrun] at h
    | ok w2 v =>
      simp only [hrun, Res.ok.injEq] at h
      rw [hrun] at hb
      simp only [Res.state] at hb
      rw [← h.1]
      refine ⟨by rw [hb.bus], ?_⟩
      intro s a ha hcl
      obtain ⟨b, hb2⟩ := lookup_some_of_len hb.len ha
      obtain ⟨⟨_, _, e3⟩, _⟩ := hb.shape s a b ha hb2
      exact ⟨b, hb2, by rw [e3]; exact hcl⟩

theorem run_keeps {Event : Type} [ChanLimit Event] (fuel : Nat) :
    ∀ (ops : List (Op Event)) (w w1 : World Event) (rs : List (Ret Event)), Inv w →
      run fuel ops w = .ok w1 rs →
      Inv w1 ∧ w1.bus.rawBufferSize = w.bus.rawBufferSize ∧
        ∀ (s : SubRef) (a : Subscription Event), w.subObjs[s]? = some a → a.ch.closed = true →
          ∃ b : Subscription Event, w1.subObjs[s]? = some b ∧ b.ch.closed = true
  | [], w, w1, rs, hinv, h => by
    rw [run] at h
    cases h
    exact ⟨hinv, rfl, fun s a ha hcl => ⟨a, ha, hcl⟩⟩
  | op :: rest, w, w1, rs, hinv, h => by
    rw [run] at h
    cases hstep : step fuel w op with
    | fail w2 f => simp [hstep] at h
    | ok w2 r =>
      simp only [hstep] at h
      cases hrest : run fuel rest w2 with
      | fail w3 f => simp [hrest] at h
      | ok w3 rs3 =>
        simp only [hrest, Res.ok.injEq] at h
        obtain ⟨h1, _⟩ := h
        subst h1
        have hinv2 := step_inv fuel op w w2 r hinv hstep
        obtain ⟨hraw2, hcl2⟩ := step_keeps fuel op w w2 r hinv hstep
        obtain ⟨hinv3, hraw3, hcl3⟩ := run_keeps fuel rest w2 w3 rs3 hinv2 hrest
        refine ⟨hinv3, hraw3.trans hraw2, ?_⟩
        intro s a ha hcl
        obtain ⟨b, hb, hbc⟩ := hcl2 s a ha hcl
        exact hcl3 s b hb hbc

theorem Inv.closed_not_target {Event : Type} {w : World Event} (hinv : Inv w) (s : SubRef)
    (a : Subscription Event) (ha : w.subObjs[s]? = some a) (hcl : a.ch.closed = true)
    (ks : List String) : isTarget w ks s = false := by
  cases ht : isTarget w ks s with
  | false => rfl
  | true =>
    obtain ⟨b, hb, hop⟩ := hinv.target_open ks s ht
    rw [ha] at hb
    cases hb
    rw [hcl] at hop
    cases hop

theorem receiveAll_closed {Event : Type} (s : SubRef) :
    ∀ (buf : List Event) (w : World Event) (sobj : Subscription Event),
      w.subObjs[s]? = some sobj → sobj.ch.closed = true → sobj.ch.buf = buf →
      ∃ w1 : World Event, receiveAll (buf.length + 1) w s = .ok w1 buf
  | [], w, sobj, hs, hcl, hbuf => by
    refine ⟨w, ?_⟩
    simp [receiveAll, Receive, hs, Chan.recv, hbuf, hcl]
  | e :: rest, w, sobj, hs, hcl, hbuf => by
    have hlt : s < w.subObjs.length := lt_of_lookup hs
    obtain ⟨w1, h1⟩ := receiveAll_closed s rest
      { w with subObjs := w.subObjs.set s { sobj with ch := { sobj.ch with buf := rest } } }
      { sobj with ch := { sobj.ch with buf := rest } } (List.getElem?_set_self hlt) hcl rfl
    refine ⟨w1, ?_⟩
    rw [List.length_cons, receiveAll]
    simp only [Receive, hs, Chan.recv, hbuf]
    rw [h1]

end eventbus

namespace eventbus

theorem sampleThree_reachable : Reachable sampleThree :=
  Reachable.step 1 (.publish 5 ["k1"]) sampleTwo sampleThree .unit sampleTwo_reachable (by decide)

theorem sampleClosed_reachable : Reachable sampleClosed :=
  Reachable.step 1 (.unsubscribe 0) sampleOne sampleClosed .unit sampleOne_reachable (by decide)

theorem reachable_run {Event : Type} [ChanLimit Event] (fuel : Nat) :
    ∀ (ops : List (Op Event)) (w w1 : World Event) (rs : List (Ret Event)), Reachable w →
      run fuel ops w = .ok w1 rs → Reachable w1
  | [], w, w1, rs, hreach, h => by
    rw [run] at h
    cases h
    exact hreach
  | op :: rest, w, w1, rs, hreach, h => by
    rw [run] at h
    cases hstep : step fuel w op with
    | fail w2 f => simp [hstep] at h
    | ok w2 r =>
      simp only [hstep] at h
      cases hrest : run fuel rest w2 with
      | fail w3 f => simp [hrest] at h
      | ok w3 rs3 =>
        simp only [hrest, Res.ok.injEq] at h
        obtain ⟨h1, _⟩ := h
        subst h1
        exact reachable_run fuel rest w2 w3 rs3 (Reachable.step fuel op w w2 r hreach hstep) hrest

/-- C4. Unsubscribe detaches cleanly: for every subscription `s` that is open in a reachable
memory, `Unsubscribe` completes; afterwards `s` is in no topic's subscription set, its channel
is closed and still holds exactly the events buffered before; after any further completed
calls, every `Publish` with any keys leaves the subscription object of `s` as it is; and a
reader draining the channel gets the buffered events and then end-of-stream. -/
theorem unsubscribe_detaches {Event : Type} [ChanLimit Event] (w : World Event) (s : SubRef)
    (hreach : Reachable w)
    (hopen : isOpen w s = true) :
    ∃ (w1 : World Event) (buf : List Event), Unsubscribe w s = .ok w1 () ∧
      channelOf w s = some buf ∧
      (∀ (t : TopicRef) (tobj : topic), w1.topicObjs[t]? = some tobj → s ∉ tobj.subs) ∧
      (∃ sobj1 : Subscription Event, w1.subObjs[s]? = some sobj1 ∧ sobj1.ch.closed = true ∧
        sobj1.ch.buf = buf) ∧
      (∀ (fuel : Nat) (ops : List (Op Event)) (w2 : World Event) (rs : List (Ret Event))
        (e : Event) (ks : List String), run fuel ops w1 = .ok w2 rs →
        (Publish w2 e ks).state.subObjs[s]? = w2.subObjs[s]?) ∧
      ∃ w2 : World Event, receiveAll (buf.length + 1) w1 s = .ok w2 buf := by
  have hinv := hreach.inv
  unfold isOpen at hopen
  cases hs : w.subObjs[s]? with
  | none => simp [hs] at hopen
  | some sobj =>
    rw [hs] at hopen
    have hop : sobj.ch.closed = false := by simpa using hopen
    obtain ⟨w1, hrun, hinv1, hu⟩ := Unsubscribe_spec w s sobj hinv hs hop
    have hslt : s < w.subObjs.length := lt_of_lookup hs
    have hs1 : w1.subObjs[s]? = some { sobj with ch := { sobj.ch with closed := true } } := by
      rw [hu.subObjs]
      exact List.getElem?_set_self hslt
    refine ⟨w1, sobj.ch.buf, hrun, ?_, ?_, ⟨_, hs1, rfl, rfl⟩, ?_, ?_⟩
    · unfold channelOf
      rw [hs]
      rfl
    · intro t tobj ht hmem
      obtain ⟨a, ha, haop, _⟩ := hinv1.member_open t tobj s ht hmem
      rw [hs1] at ha
      cases ha
      cases haop
    · intro fuel ops w2 rs e ks hrun2
      obtain ⟨hinv2, _, hcl⟩ := run_keeps fuel ops w1 w2 rs hinv1 hrun2
      obtain ⟨b, hb, hbc⟩ := hcl s _ hs1 rfl
      exact Publish_frame w2 e ks s (hinv2.closed_not_target s b hb hbc ks)
    · exact receiveAll_closed s sobj.ch.buf w1 _ hs1 rfl rfl

end eventbus

namespace eventbus

/-- Witness for C4: subscription 0 of `sampleThree` holds one event and unsubscribes. -/
theorem unsubscribe_detaches_witness :
    ∃ (w1 : World Nat) (buf : List Nat), Unsubscribe sampleThree 0 = .ok w1 () ∧
      channelOf sampleThree 0 = some buf ∧
      (∀ (t : TopicRef) (tobj : topic), w1.topicObjs[t]? = some tobj → 0 ∉ tobj.subs) ∧
      (∃ sobj1 : Subscription Nat, w1.subObjs[0]? = some sobj1 ∧ sobj1.ch.closed = true ∧
        sobj1.ch.buf = buf) ∧
      (∀ (fuel : Nat) (ops : List (Op Nat)) (w2 : World Nat) (rs : List (Ret Nat))
        (e : Nat) (ks : List String), run fuel ops w1 = .ok w2 rs →
        (Publish w2 e ks).state.subObjs[0]? = w2.subObjs[0]?) ∧
      ∃ w2 : World Nat, receiveAll (buf.length + 1) w1 0 = .ok w2 buf :=
  unsubscribe_detaches sampleThree 0 sampleThree_reachable (by decide)

theorem set_same {α : Type} {l : List α} {i : Nat} {a : α} (h : l[i]? = some a) :
    l.set i a = l := by
  apply List.ext_getElem?
  intro j
  by_cases hj : i = j
  · subst hj
    rw [List.getElem?_set_self (lt_of_lookup h), h]
  · rw [List.getElem?_set_ne hj]

theorem unsubscribeLoop_closed {Event : Type} (s : SubRef) :
    ∀ (ts : List TopicRef) (w : World Event),
      (∀ t, t ∈ ts → ∃ tobj : topic, w.topicObjs[t]? = some tobj ∧ s ∉ tobj.subs ∧
        (tobj.subs = [] → tobj.isClosed = true)) →
      ∃ w1 : World Event, unsubscribeLoop s ts w = .ok w1 () ∧ w1.topicObjs = w.topicObjs ∧
        w1.subObjs = w.subObjs ∧ w1.bus.rawBufferSize = w.bus.rawBufferSize
  | [], w, _ => ⟨w, rfl, rfl, rfl, rfl⟩
  | t :: rest, w, h => by
    obtain ⟨tobj, ht, hnot, hcl⟩ := h t (List.mem_cons_self _ _)
    have hdel : deleteSub s tobj.subs = tobj.subs := deleteSub_of_not_mem s tobj.subs hnot
    have hstep : ∃ w1 : World Event, removeSubscription w t s = .ok w1 () ∧
        w1.topicObjs = w.topicObjs ∧ w1.subObjs = w.subObjs ∧
        w1.bus.rawBufferSize = w.bus.rawBufferSize := by
      by_cases hempty : deleteSub s tobj.subs = []
      · refine ⟨_, removeSubscription_empty w t s tobj ht hempty, ?_, rfl, rfl⟩
        dsimp only
        have hc := hcl (hdel ▸ hempty)
        have hobj : ({ tobj with subs := deleteSub s tobj.subs, isClosed := true } : topic) = tobj := by
          rw [hdel]
          cases tobj
          simp only at hc
          subst hc
          rfl
        rw [hobj]
        exact set_same ht
      · refine ⟨_, removeSubscription_nonempty w t s tobj ht hempty, ?_, rfl, rfl⟩
        dsimp only
        rw [hdel]
        exact set_same ht
    obtain ⟨w1, hrun1, htop1, hsub1, hraw1⟩ := hstep
    obtain ⟨w2, hrun2, htop2, hsub2, hraw2⟩ := unsubscribeLoop_closed s rest w1 (by
      intro t1 h1
      rw [htop1]
      exact h t1 (List.mem_cons_of_mem _ h1))
    refine ⟨w2, ?_, htop2.trans htop1, hsub2.trans hsub1, hraw2.trans hraw1⟩
    rw [unsubscribeLoop, hrun1]
    exact hrun2

/-- C5 as the code has it: for every subscription of a reachable memory that has already been
unsubscribed, a further `Unsubscribe` does not complete: it stops with a panic at the close
of the already closed channel, and at that point every subscription object, every topic
object and the buffer size setting are as they were. -/
theorem unsubscribe_again_panics {Event : Type} [ChanLimit Event] (w : World Event) (s : SubRef)
    (sobj : Subscription Event) (hreach : Reachable w) (hs : w.subObjs[s]? = some sobj)
    (hclosed : sobj.ch.closed = true) :
    ∃ w1 : World Event, Unsubscribe w s = .fail w1 .panic ∧ w1.subObjs = w.subObjs ∧
      w1.topicObjs = w.topicObjs ∧ w1.bus.rawBufferSize = w.bus.rawBufferSize := by
  have hinv := hreach.inv
  obtain ⟨w1, hrun, htop, hsub, hraw⟩ := unsubscribeLoop_closed s sobj.topics w (by
    intro t ht
    obtain ⟨tobj, htobj, _⟩ := hinv.joined s sobj t hs ht
    refine ⟨tobj, htobj, ?_, ?_⟩
    · intro hmem
      obtain ⟨a, ha, hop, _⟩ := hinv.member_open t tobj s htobj hmem
      rw [hs] at ha
      cases ha
      rw [hclosed] at hop
      cases hop
    · intro hempty
      cases hc : tobj.isClosed with
      | true => rfl
      | false => exact absurd hempty (hinv.open_reg t tobj htobj hc).2)
  refine ⟨w1, ?_, hsub, htop, hraw⟩
  unfold Unsubscribe
  have hs1 : w1.subObjs[s]? = some sobj := by
    rw [hsub]
    exact hs
  simp [hs, hrun, hs1, Chan.close, hclosed]

/-- Witness for C5 as the code has it: the closed subscription 0 of `sampleClosed`. -/
theorem unsubscribe_again_panics_witness :
    ∃ w1 : World Nat, Unsubscribe sampleClosed 0 = .fail w1 .panic ∧
      w1.subObjs = sampleClosed.subObjs ∧ w1.topicObjs = sampleClosed.topicObjs ∧
      w1.bus.rawBufferSize = sampleClosed.bus.rawBufferSize :=
  unsubscribe_again_panics sampleClosed 0
    { ch := { buf := [], cap := 10, closed := true }, topics := [0, 1] } sampleClosed_reachable
    (by decide) (by decide)

/-- C5 as stated fails: after `Subscribe("k1", "k2")` and `Unsubscribe` on a default bus, a
second `Unsubscribe` on the same subscription does not complete (it panics). -/
theorem unsubscribe_twice_not_noop :
    isOpen sampleClosed 0 = false ∧ (Unsubscribe sampleClosed 0).isOk = false ∧
      Unsubscribe sampleClosed 0 = .fail sampleClosed .panic := by
  decide

/-- C6. No-subscriber publish is a no-op: for every memory, event `e` and key list `ks` such
that no key of `ks` has a topic in the registry, `Publish` completes and the memory afterwards
is the memory before (registry, topics, subscriptions); no topic is created. -/
theorem publish_unregistered_noop {Event : Type} (w : World Event) (e : Event) (ks : List String)
    (hnone : ∀ k, k ∈ ks → w.bus.topics.Load k = some (default, false)) : Publish w e ks = .ok w () := by
  have hkeys : ∀ (l : List String), (∀ k, k ∈ l → w.bus.topics.Load k = some (default, false)) →
      publishKeys e l w [] = .ok w [] := by
    intro l
    induction l with
    | nil => intro _; rfl
    | cons k rest ih =>
      intro h
      have hk := (typedsyncmap.Map.Load_snd_false_iff _ _).mp (h k (List.mem_cons_self _ _))
      rw [publishKeys, publishToTopic, typedsyncmap.Map.Load_of_none _ _ hk]
      exact ih (fun k1 h1 => h k1 (List.mem_cons_of_mem _ h1))
  unfold Publish
  rw [hkeys ks hnone]

/-- Witness for C6: the test "when nothing is subscribed" on a fresh bus. -/
theorem publish_unregistered_noop_witness :
    Publish (New : World Nat) 123 ["key1", "key2"] = .ok New () :=
  publish_unregistered_noop New 123 ["key1", "key2"] (by decide)

end eventbus

namespace eventbus

/-! ## Facts for the recreation and configuration claims -/

theorem step_sub_fits {Event : Type} [ChanLimit Event] (fuel : Nat) (op : Op Event)
    (w w1 : World Event) (r : Ret Event) (hinv : Inv w) (h : step fuel w op = .ok w1 r)
    (hw : w.subObjs = [] ∨ canAllocate w = true) : w1.subObjs = [] ∨ canAllocate w1 = true := by
  have hraw := (step_keeps fuel op w w1 r hinv h).1
  rcases hw with hw | hw
  · cases op with
    | subscribe ks =>
      simp only [step] at h
      cases hrun : Subscribe fuel w ks with
      | fail w2 f => simp [hrun] at h
      | ok w2 s1 =>
        right
        rw [canAllocate_congr hraw]
        exact Subscribe_ok_fits fuel w w2 ks s1 hrun
    | publish e ks =>
      simp only [step] at h
      have hb := Publish_bufOnly w e ks
      cases hrun : Publish w e ks with
      | fail w2 f => simp [hrun] at h
      | ok w2 u =>
        simp only [hrun, Res.ok.injEq] at h
        rw [hrun] at hb
        simp only [Res.state] at hb
        left
        rw [← h.1]
        have hlen := hb.len
        rw [hw] at hlen
        exact List.eq_nil_of_length_eq_zero hlen
    | unsubscribe s1 =>
      simp only [step] at h
      cases hrun : Unsubscribe w s1 with
      | fail w2 f => simp [hrun] at h
      | ok w2 u =>
        obtain ⟨sobj, hs, _⟩ := Unsubscribe_ok_open w w2 s1 hrun
        rw [hw] at hs
        cases hs
    | receive s1 =>
      simp only [step] at h
      have hb := Receive_bufOnly w s1
      cases hrun : Receive w s1 with
      | fail w2 f => simp [hrun] at h
      | ok w2 v =>
        simp only [hrun, Res.ok.injEq] at h
        rw [hrun] at hb
        simp only [Res.state] at hb
        left
        rw [← h.1]
        have hlen := hb.len
        rw [hw] at hlen
        exact List.eq_nil_of_length_eq_zero hlen
  · right
    rw [canAllocate_congr hraw]
    exact hw

/-- In a reachable memory that holds a subscription, the buffer size of the bus is one `make`
accepted. -/
theorem Reachable.sub_fits {Event : Type} [ChanLimit Event] {w : World Event} (h : Reachable w) :
    w.subObjs = [] ∨ canAllocate w = true := by
  induction h with
  | init config => exact Or.inl rfl
  | step fuel op w w1 r hr hstep ih => exact step_sub_fits fuel op w w1 r hr.inv hstep ih

theorem Reachable.fits_of_sub {Event : Type} [ChanLimit Event] {w : World Event}
    (h : Reachable w) (s : SubRef) (sobj : Subscription Event) (hs : w.subObjs[s]? = some sobj) :
    canAllocate w = true := by
  rcases h.sub_fits with h0 | h0
  · rw [h0] at hs
    cases hs
  · exact h0

theorem Subscribe_single {Event : Type} [ChanLimit Event] (fuel : Nat) (w : World Event)
    (k : String) (hinv : Inv w) (hfit : canAllocate w = true) :
    ∃ (w1 : World Event) (t : TopicRef), Subscribe (fuel + 1) w [k] = .ok w1 w.subObjs.length ∧
      Inv w1 ∧
      JoinStep k w.subObjs.length
        { ch := { buf := [], cap := (bufferSizeOrDefault w.bus).toNat, closed := false }, topics := [] }
        t
        { w with subObjs := w.subObjs ++
            [{ ch := { buf := [], cap := (bufferSizeOrDefault w.bus).toNat, closed := false },
               topics := [] }] } w1 := by
  have hinv0 := hinv.alloc_sub
    ({ buf := [], cap := (bufferSizeOrDefault w.bus).toNat, closed := false } : Chan Event)
    (Nat.zero_le _)
  obtain ⟨w1, t, heq, hj⟩ := subscribeLoop_cons fuel _ k w.subObjs.length _ hinv0
    (List.getElem?_concat_length _ _)
  have h1 := heq []
  rw [subscribeLoop.eq_1] at h1
  refine ⟨w1, t, ?_, hj.keeps_inv hinv0 (List.getElem?_concat_length _ _) rfl, hj⟩
  unfold Subscribe
  rw [makeChan_bufferSize w hfit]
  simp only [h1]

theorem bufferSizeOrDefault_eq (b : EventBus) :
    bufferSizeOrDefault b =
      if b.rawBufferSize = 0 then 10 else if b.rawBufferSize < 0 then 0 else b.rawBufferSize := rfl

theorem publish_single_room {Event : Type} (w : World Event) (k : String) (e : Event)
    (t : TopicRef) (s : SubRef) (sobj : Subscription Event)
    (hreg : sync.Map.Load w.bus.topics.m k = some t)
    (ht : w.topicObjs[t]? = some { key := k, subs := [s], isClosed := false })
    (hs : w.subObjs[s]? = some sobj) (hopen : sobj.ch.closed = false)
    (hroom : sobj.ch.buf.length < sobj.ch.cap) :
    Publish w e [k] = .ok { w with subObjs := w.subObjs.set s (pushEvent e sobj) } () := by
  unfold Publish
  simp [publishKeys, publishToTopic, typedsyncmap.Map.Load_of_some _ _ _ hreg, ht, publishLoop, hs,
    Chan.send_of_room sobj.ch e hopen hroom, pushEvent]

theorem publish_single_full {Event : Type} (w : World Event) (k : String) (e : Event)
    (t : TopicRef) (s : SubRef) (sobj : Subscription Event)
    (hreg : sync.Map.Load w.bus.topics.m k = some t)
    (ht : w.topicObjs[t]? = some { key := k, subs := [s], isClosed := false })
    (hs : w.subObjs[s]? = some sobj) (hopen : sobj.ch.closed = false)
    (hfull : ¬ sobj.ch.buf.length < sobj.ch.cap) :
    Publish w e [k] = .fail w (.blocked s) := by
  unfold Publish
  simp [publishKeys, publishToTopic, typedsyncmap.Map.Load_of_some _ _ _ hreg, ht, publishLoop, hs,
    Chan.send, hopen, hfull]

end eventbus

namespace eventbus

theorem bufferSize_toNat_pos (b : EventBus) (h : 0 ≤ b.rawBufferSize) :
    0 < (bufferSizeOrDefault b).toNat := by
  rw [bufferSizeOrDefault_eq]
  split
  · decide
  · rename_i h0
    rw [if_neg (by omega)]
    omega

theorem bufferSize_toNat_zero (b : EventBus) (h : b.rawBufferSize < 0) :
    (bufferSizeOrDefault b).toNat = 0 := by
  rw [bufferSizeOrDefault_eq, if_neg (by omega), if_pos h]
  rfl

/-- C7 as the code has it.  Topic recreation: in a reachable memory where the registry maps
`k` to a topic whose only subscriber is `s`, `Unsubscribe` of `s` completes and leaves the
registry without an entry for `k`; a following `Subscribe(k)` completes, returns a new open
subscription with an empty channel and registers under `k` a new, non-closed topic object
whose subscription set is exactly the new subscription; a following `Publish(e, k)`, when the
bus's buffer size is not negative, completes, leaves exactly `e` on the new subscription's
channel and changes no unsubscribed subscription; when the buffer size is negative it blocks
at the new subscription. -/
theorem topic_recreation {Event : Type} [ChanLimit Event] (w : World Event) (s : SubRef)
    (k : String)
    (t : TopicRef) (tobj : topic) (e : Event) (fuel : Nat) (hreach : Reachable w)
    (hreg : w.bus.topics.Load k = some (t, true)) (ht : w.topicObjs[t]? = some tobj)
    (hlast : ∀ x, x ∈ tobj.subs → x = s) :
    ∃ w1 w2 : World Event, Unsubscribe w s = .ok w1 () ∧ w1.bus.topics.Load k = some (default, false) ∧
      Subscribe (fuel + 1) w1 [k] = .ok w2 w1.subObjs.length ∧
      w2.bus.topics.Load k = some (w1.topicObjs.length, true) ∧
      w2.topicObjs[w1.topicObjs.length]? =
        some { key := k, subs := [w1.subObjs.length], isClosed := false } ∧
      isOpen w2 w1.subObjs.length = true ∧ channelOf w2 w1.subObjs.length = some [] ∧
      (0 ≤ w.bus.rawBufferSize → ∃ w3 : World Event, Publish w2 e [k] = .ok w3 () ∧
        channelOf w3 w1.subObjs.length = some [e] ∧
        ∀ x, isOpen w2 x = false → w3.subObjs[x]? = w2.subObjs[x]?) ∧
      (w.bus.rawBufferSize < 0 → Publish w2 e [k] = .fail w2 (.blocked w1.subObjs.length)) := by
  have hinv := hreach.inv
  have hreg1 := (typedsyncmap.Map.Load_eq_true_iff _ _ _).mp hreg
  obtain ⟨tobj0, ht0, _, hop⟩ := hinv.reg_open k t hreg1
  rw [ht] at ht0
  cases ht0
  obtain ⟨x, hx⟩ := List.exists_mem_of_ne_nil _ (hinv.open_reg t tobj ht hop).2
  have hsmem : s ∈ tobj.subs := hlast x hx ▸ hx
  obtain ⟨sobj, hs, hsop, _⟩ := hinv.member_open t tobj s ht hsmem
  obtain ⟨w1, hrun1, hinv1, hu⟩ := Unsubscribe_spec w s sobj hinv hs hsop
  have hnone1 : sync.Map.Load w1.bus.topics.m k = none := by
    cases h : sync.Map.Load w1.bus.topics.m k with
    | none => rfl
    | some t1 =>
      obtain ⟨hregw, tobj1, h1, hne1⟩ := (hu.reg k t1).mp h
      rw [hreg1] at hregw
      cases hregw
      obtain ⟨tobj2, h2, _, hsub2, _⟩ := hu.top t tobj ht
      rw [h1] at h2
      cases h2
      exfalso
      apply hne1
      rw [hsub2]
      apply List.eq_nil_iff_forall_not_mem.mpr
      intro a ha
      have ha2 := (mem_deleteSub s a tobj.subs).mp ha
      exact ha2.2 (hlast a ha2.1)
  have hfit1 : canAllocate w1 = true := by
    rw [canAllocate_congr hu.raw]
    exact hreach.fits_of_sub s sobj hs
  obtain ⟨w2, t2, hrun2, hinv2, hj⟩ := Subscribe_single fuel w1 k hinv1 hfit1
  obtain ⟨ht2, _, htop2⟩ := hj.miss hnone1
  have ht2' : t2 = w1.topicObjs.length := ht2
  subst ht2'
  have hs2 := hj.sub_s
  have hreg2 := hj.reg_k
  have hslt : w1.subObjs.length < w2.subObjs.length := lt_of_lookup hs2
  have hraw1 : w1.bus.rawBufferSize = w.bus.rawBufferSize := hu.raw
  refine ⟨w1, w2, hrun1, ?_, hrun2, ?_, htop2, ?_, ?_, ?_, ?_⟩
  · exact (typedsyncmap.Map.Load_snd_false_iff _ _).mpr hnone1
  · exact typedsyncmap.Map.Load_of_some _ _ _ hreg2
  · unfold isOpen
    rw [hs2]
    rfl
  · unfold channelOf
    rw [hs2]
    rfl
  · intro hnonneg
    have hroom := bufferSize_toNat_pos w1.bus (by rw [hraw1]; exact hnonneg)
    refine ⟨_, publish_single_room w2 k e _ _ _ hreg2 htop2 hs2 rfl hroom, ?_, ?_⟩
    · unfold channelOf
      dsimp only
      rw [List.getElem?_set_self hslt]
      rfl
    · intro x hxc
      have hne : w1.subObjs.length ≠ x := by
        rintro rfl
        unfold isOpen at hxc
        rw [hs2] at hxc
        cases hxc
      dsimp only
      rw [List.getElem?_set_ne hne]
  · intro hneg
    have hzero := bufferSize_toNat_zero w1.bus (by rw [hraw1]; exact hneg)
    refine publish_single_full w2 k e _ _ _ hreg2 htop2 hs2 rfl ?_
    dsimp only
    rw [hzero]
    exact Nat.lt_irrefl 0

/-- Witness for C7 as the code has it: subscription 0 is the only subscriber of "k2" in
`sampleTwo`. -/
theorem topic_recreation_witness :
    ∃ w1 w2 : World Nat, Unsubscribe sampleTwo 0 = .ok w1 () ∧
      w1.bus.topics.Load "k2" = some (default, false) ∧
      Subscribe (0 + 1) w1 ["k2"] = .ok w2 w1.subObjs.length ∧
      w2.bus.topics.Load "k2" = some (w1.topicObjs.length, true) ∧
      w2.topicObjs[w1.topicObjs.length]? =
        some { key := "k2", subs := [w1.subObjs.length], isClosed := false } ∧
      isOpen w2 w1.subObjs.length = true ∧ channelOf w2 w1.subObjs.length = some [] ∧
      (0 ≤ sampleTwo.bus.rawBufferSize → ∃ w3 : World Nat, Publish w2 42 ["k2"] = .ok w3 () ∧
        channelOf w3 w1.subObjs.length = some [42] ∧
        ∀ x, isOpen w2 x = false → w3.subObjs[x]? = w2.subObjs[x]?) ∧
      (sampleTwo.bus.rawBufferSize < 0 →
        Publish w2 42 ["k2"] = .fail w2 (.blocked w1.subObjs.length)) :=
  topic_recreation sampleTwo 0 "k2" 1 { key := "k2", subs := [0], isClosed := false } 42 0
    sampleTwo_reachable (by decide) (by decide) (by decide)

/-- C7 as stated fails: on a bus built with `BufferSize: -1`, after the last subscriber of
"k1" unsubscribed and a new subscription 1 joined "k1", `Publish(42, "k1")` does not put the
event on the new subscription's channel: it blocks there and the channel stays empty. -/
theorem topic_recreation_unbuffered_blocks :
    isOpen sampleUnbuffered 1 = true ∧ subscribers sampleUnbuffered "k1" = [1] ∧
      Publish sampleUnbuffered 42 ["k1"] = .fail sampleUnbuffered (.blocked 1) ∧
      channelOf (Publish sampleUnbuffered 42 ["k1"]).state 1 = some [] := by
  decide

end eventbus

namespace eventbus

theorem Subscribe_new_object {Event : Type} [ChanLimit Event] (fuel : Nat) (w : World Event)
    (ks : List String) (hinv : Inv w) (hfit : canAllocate w = true) :
    ∃ w1 : World Event, Subscribe (fuel + 1) w ks = .ok w1 w.subObjs.length ∧ Inv w1 ∧
      w1.bus.rawBufferSize = w.bus.rawBufferSize ∧
      w1.subObjs[w.subObjs.length]? =
        some { ch := { buf := [], cap := (bufferSizeOrDefault w.bus).toNat, closed := false },
               topics := ks.map (fun k => ((w1.bus.topics.Load k).getD default).1) } := by
  obtain ⟨w1, hrun, hinv1, hj⟩ := Subscribe_spec fuel w ks hinv hfit
  refine ⟨w1, hrun, hinv1, hj.raw, ?_⟩
  rw [hj.sub_s]
  simp

/-- C8. Buffer size configuration: for every integer `n`, `bufferSizeOrDefault` of a bus built
with `BufferSize: n` is 10 when `n = 0`, 0 when `n < 0` and `n` when `n > 0`; after any
sequence of completed calls on that bus, the channel of every subscription that a `Subscribe`,
with any keys, creates has that capacity; `Subscribe` does create one whenever that capacity
is a size `make` accepts, as every `n` up to 32767 is, and otherwise it panics in `make` and
leaves the memory as it was. -/
theorem buffer_size_configuration {Event : Type} [ChanLimit Event] (n : Int) (fuel fuel1 : Nat)
    (ops : List (Op Event)) (w : World Event) (rs : List (Ret Event)) (ks : List String)
    (hrun : run fuel ops (NewWithConfig { BufferSize := n }) = .ok w rs) :
    bufferSizeOrDefault (NewWithConfig { BufferSize := n } : World Event).bus =
        (if n = 0 then 10 else if n < 0 then 0 else n) ∧
      (∀ (w1 : World Event) (s : SubRef), Subscribe fuel1 w ks = .ok w1 s →
        w.subObjs[s]? = none ∧
        ∃ sobj : Subscription Event, w1.subObjs[s]? = some sobj ∧
          (sobj.ch.cap : Int) = (if n = 0 then 10 else if n < 0 then 0 else n)) ∧
      ((if n = 0 then 10 else if n < 0 then 0 else n) ≤ (ChanLimit.maxChanSize Event : Int) →
        ∃ (w1 : World Event) (sobj : Subscription Event),
          Subscribe (fuel1 + 1) w ks = .ok w1 w.subObjs.length ∧
          w1.subObjs[w.subObjs.length]? = some sobj ∧
          (sobj.ch.cap : Int) = (if n = 0 then 10 else if n < 0 then 0 else n)) ∧
      (n ≤ 32767 → ∃ w1 : World Event, Subscribe (fuel1 + 1) w ks = .ok w1 w.subObjs.length) ∧
      ((ChanLimit.maxChanSize Event : Int) < (if n = 0 then 10 else if n < 0 then 0 else n) →
        Subscribe fuel1 w ks = .fail w .panic) := by
  obtain ⟨hinv, hraw, _⟩ := run_keeps fuel ops _ w rs (Inv.init { BufferSize := n }) hrun
  have hn : w.bus.rawBufferSize = n := hraw
  have hsize : bufferSizeOrDefault w.bus = (if n = 0 then 10 else if n < 0 then 0 else n) := by
    rw [bufferSizeOrDefault_eq, hn]
  have hcap : (((bufferSizeOrDefault w.bus).toNat : Nat) : Int) =
      (if n = 0 then 10 else if n < 0 then 0 else n) := by
    rw [Int.toNat_of_nonneg (bufferSizeOrDefault_nonneg w.bus), hsize]
  refine ⟨rfl, ?_, ?_, ?_, ?_⟩
  · intro w1 s hsub
    obtain ⟨hs, _, hj⟩ := Subscribe_ok_spec fuel1 w w1 ks s hinv hsub
    subst hs
    exact ⟨List.getElem?_eq_none (le_refl _), _, hj.sub_s, hcap⟩
  · intro hle
    obtain ⟨w1, hsub, _, _, hobj⟩ := Subscribe_new_object fuel1 w ks hinv
      ((canAllocate_iff w).mpr (by rw [hsize]; exact hle))
    exact ⟨w1, _, hsub, hobj, hcap⟩
  · intro hle
    obtain ⟨w1, hsub, _⟩ := Subscribe_new_object fuel1 w ks hinv
      (canAllocate_of_small w (by rw [hn]; exact hle))
    exact ⟨w1, hsub⟩
  · intro hlt
    refine Subscribe_too_large fuel1 w ks ?_
    cases hfit : canAllocate w with
    | false => rfl
    | true =>
      have h := (canAllocate_iff w).mp hfit
      rw [hsize] at h
      omega

/-- Witness for C8: `BufferSize: 100`, a `Subscribe("key1")` and a `Publish` in between, with
`int` events on a 64-bit platform; and `BufferSize: 9223372036854775807`, the largest `int`,
where `Subscribe` panics. -/
theorem buffer_size_configuration_witness :
    (∃ (w1 : World Nat) (sobj : Subscription Nat),
        Subscribe (0 + 1)
            (run 1 [.subscribe ["key1"], .publish 123 ["key1", "key2"]]
              (NewWithConfig { BufferSize := 100 })).state [] =
          .ok w1
            (run 1 [.subscribe ["key1"], .publish 123 ["key1", "key2"]]
              (NewWithConfig { BufferSize := 100 })).state.subObjs.length ∧
        w1.subObjs[(run 1 [.subscribe ["key1"], .publish 123 ["key1", "key2"]]
              (NewWithConfig { BufferSize := 100 })).state.subObjs.length]? = some sobj ∧
        (sobj.ch.cap : Int) =
          (if (100 : Int) = 0 then 10 else if (100 : Int) < 0 then 0 else 100)) ∧
      Subscribe 1 (NewWithConfig { BufferSize := 9223372036854775807 } : World Nat) ["key1"] =
        .fail (NewWithConfig { BufferSize := 9223372036854775807 }) .panic :=
  ⟨(buffer_size_configuration 100 1 0 [.subscribe ["key1"], .publish 123 ["key1", "key2"]] _
      [.subscription 0, .unit] [] (by decide)).2.2.1 (by decide),
    (buffer_size_configuration 9223372036854775807 0 1 [] _ [] ["key1"] rfl).2.2.2.2
      (by decide)⟩

/-- C9. Zero-value construction is valid and is the default configuration: the zero-value
bus, `New()` and `NewWithConfig(&Config{})` are the same initial memory, with an empty
registry and raw buffer size 0; so every sequence of calls gives the same result on all
three, and every `Subscribe` after any completed calls on it yields channel capacity 10. -/
theorem zero_value_is_default {Event : Type} [ChanLimit Event] :
    (New : World Event) = zeroValue ∧ (NewWithConfig {} : World Event) = zeroValue ∧
      (zeroValue : World Event).bus.topics = ⟨[]⟩ ∧
      (zeroValue : World Event).bus.rawBufferSize = 0 ∧
      (∀ (fuel : Nat) (ops : List (Op Event)),
        run fuel ops New = run fuel ops zeroValue ∧
        run fuel ops (NewWithConfig {}) = run fuel ops zeroValue) ∧
      ∀ (fuel fuel1 : Nat) (ops : List (Op Event)) (w : World Event) (rs : List (Ret Event))
        (ks : List String), run fuel ops zeroValue = .ok w rs →
        ∃ (w1 : World Event) (sobj : Subscription Event),
          Subscribe (fuel1 + 1) w ks = .ok w1 w.subObjs.length ∧
          w1.subObjs[w.subObjs.length]? = some sobj ∧ sobj.ch.cap = 10 := by
  refine ⟨rfl, rfl, rfl, rfl, fun _ _ => ⟨rfl, rfl⟩, ?_⟩
  intro fuel fuel1 ops w rs ks hrun
  obtain ⟨hinv, hraw, _⟩ := run_keeps fuel ops _ w rs (Inv.init {}) hrun
  have h0 : w.bus.rawBufferSize = 0 := hraw
  obtain ⟨w1, hsub, _, _, hobj⟩ := Subscribe_new_object fuel1 w ks hinv
    (canAllocate_of_small w (by rw [h0]; decide))
  refine ⟨w1, _, hsub, hobj, ?_⟩
  dsimp only
  rw [bufferSizeOrDefault_eq, h0]
  rfl

/-- C10 as the code has it.  Subscribe postcondition: in every reachable memory whose buffer
size is one `make` accepts and for every key list `ks`, `Subscribe` completes and returns a
new subscription (the next object of the memory) that is open, has an empty channel and whose
joined-topic list is the list of the topics the registry now has for the keys of `ks`, in the
order of `ks`; for every key `k` in `ks` the registry maps `k` to a non-closed topic with key
`k` whose subscription set contains the new subscription; a key that had a topic keeps that
same topic, and a key of `ks` that had none gets a topic object allocated by this call.  In a
memory whose buffer size `make` does not accept, `Subscribe` panics in `make` and leaves the
memory as it was. -/
theorem subscribe_postcondition {Event : Type} [ChanLimit Event] (w : World Event)
    (ks : List String) (fuel : Nat) (hreach : Reachable w) :
    (canAllocate w = true → ∃ (w1 : World Event) (sobj : Subscription Event),
      Subscribe (fuel + 1) w ks = .ok w1 w.subObjs.length ∧ w.subObjs[w.subObjs.length]? = none ∧
      w1.subObjs[w.subObjs.length]? = some sobj ∧ sobj.ch.buf = [] ∧ sobj.ch.closed = false ∧
      sobj.topics = ks.map (fun k => ((w1.bus.topics.Load k).getD default).1) ∧
      (∀ k, k ∈ ks → ∃ (t : TopicRef) (tobj : topic), w1.bus.topics.Load k = some (t, true) ∧
        w1.topicObjs[t]? = some tobj ∧ tobj.key = k ∧ tobj.isClosed = false ∧
        w.subObjs.length ∈ tobj.subs) ∧
      (∀ (k : String) (t0 : TopicRef), w.bus.topics.Load k = some (t0, true) →
        w1.bus.topics.Load k = some (t0, true)) ∧
      (∀ k, k ∈ ks → w.bus.topics.Load k = some (default, false) →
        ∃ t : TopicRef, w1.bus.topics.Load k = some (t, true) ∧ w.topicObjs[t]? = none)) ∧
    (canAllocate w = false → Subscribe (fuel + 1) w ks = .fail w .panic) := by
  have hinv := hreach.inv
  refine ⟨fun hfit => ?_, fun hfit => Subscribe_too_large (fuel + 1) w ks hfit⟩
  obtain ⟨w1, hrun, _, hj⟩ := Subscribe_spec fuel w ks hinv hfit
  refine ⟨w1, _, hrun, List.getElem?_eq_none (le_refl _), hj.sub_s, rfl, rfl, by simp, ?_, ?_, ?_⟩
  · intro k hk
    obtain ⟨t, tobj, h1, h2, h3, h4, h5⟩ := hj.reg_in k hk
    exact ⟨t, tobj, typedsyncmap.Map.Load_of_some _ _ _ h1, h2, h3, h4, h5⟩
  · intro k t0 h
    exact typedsyncmap.Map.Load_of_some _ _ _
      (hj.reg_keep k t0 ((typedsyncmap.Map.Load_eq_true_iff _ _ _).mp h))
  · intro k hk h
    obtain ⟨t, h1, hle⟩ := hj.reg_new k hk ((typedsyncmap.Map.Load_snd_false_iff _ _).mp h)
    exact ⟨t, typedsyncmap.Map.Load_of_some _ _ _ h1, List.getElem?_eq_none hle⟩

/-- Witness for C10: `Subscribe("k1", "k3", "k3")` on `sampleOne` reuses the topic of "k1" and
creates one for "k3". -/
theorem subscribe_postcondition_witness :
    ∃ (w1 : World Nat) (sobj : Subscription Nat),
      Subscribe (0 + 1) sampleOne ["k1", "k3", "k3"] = .ok w1 sampleOne.subObjs.length ∧
      sampleOne.subObjs[sampleOne.subObjs.length]? = none ∧
      w1.subObjs[sampleOne.subObjs.length]? = some sobj ∧ sobj.ch.buf = [] ∧
      sobj.ch.closed = false ∧
      sobj.topics = ["k1", "k3", "k3"].map (fun k => ((w1.bus.topics.Load k).getD default).1) ∧
      (∀ k, k ∈ ["k1", "k3", "k3"] → ∃ (t : TopicRef) (tobj : topic),
        w1.bus.topics.Load k = some (t, true) ∧
        w1.topicObjs[t]? = some tobj ∧ tobj.key = k ∧ tobj.isClosed = false ∧
        sampleOne.subObjs.length ∈ tobj.subs) ∧
      (∀ (k : String) (t0 : TopicRef), sampleOne.bus.topics.Load k = some (t0, true) →
        w1.bus.topics.Load k = some (t0, true)) ∧
      (∀ k, k ∈ ["k1", "k3", "k3"] → sampleOne.bus.topics.Load k = some (default, false) →
        ∃ t : TopicRef, w1.bus.topics.Load k = some (t, true) ∧ sampleOne.topicObjs[t]? = none) :=
  (subscribe_postcondition sampleOne ["k1", "k3", "k3"] 0 sampleOne_reachable).1 (by decide)

/-- C10 as claimed, "for every bus state `Subscribe` succeeds", fails on a bus built with
`BufferSize: 9223372036854775807`, the largest `int`, with `int` events on a 64-bit platform:
that memory is reachable, and `Subscribe("k")` returns no subscription with any budget, as it
panics in `make`. -/
theorem subscribe_fails_on_unallocatable_size :
    Reachable (NewWithConfig { BufferSize := 9223372036854775807 } : World Nat) ∧
      ∀ fuel : Nat,
        Subscribe fuel (NewWithConfig { BufferSize := 9223372036854775807 } : World Nat) ["k"] =
            .fail (NewWithConfig { BufferSize := 9223372036854775807 }) .panic ∧
          ¬ ∃ (w1 : World Nat) (s : SubRef),
            Subscribe fuel (NewWithConfig { BufferSize := 9223372036854775807 }) ["k"] =
              .ok w1 s := by
  refine ⟨Reachable.init _, fun fuel => ?_⟩
  have h := Subscribe_too_large fuel
    (NewWithConfig { BufferSize := 9223372036854775807 } : World Nat) ["k"] (by decide)
  refine ⟨h, ?_⟩
  rintro ⟨w1, s, hs⟩
  rw [h] at hs
  cases hs

end eventbus

namespace eventbus

/-! ## Every outcome of a publish appends at most once -/

theorem publishLoop_prefix {Event : Type} (e : Event) :
    ∀ (subs : List SubRef) (w : World Event) (pub : List SubRef) (s : SubRef)
      (a : Subscription Event), w.subObjs[s]? = some a →
      (publishLoop e subs w pub).state.subObjs[s]? = some a ∨
        (publishLoop e subs w pub).state.subObjs[s]? = some (pushEvent e a)
  | [], _, _, _, _, ha => Or.inl ha
  | sub :: rest, w, pub, s, a, ha => by
    rw [publishLoop]
    split
    · exact publishLoop_prefix e rest w pub s a ha
    · split
      · exact Or.inl ha
      · rename_i sobj hsub
        split
        · exact Or.inl ha
        · exact Or.inl ha
        · rename_i c hsend
          obtain ⟨_, _, hc⟩ := Chan.send_sent hsend
          subst hc
          have hlt : sub < w.subObjs.length := lt_of_lookup hsub
          by_cases hne : sub = s
          · subst hne
            rw [hsub] at ha
            cases ha
            right
            rw [publishLoop_frame e rest _ (sub :: pub) sub (Or.inr (List.mem_cons_self _ _))]
            simp only [List.getElem?_set_self hlt]
            rfl
          · refine publishLoop_prefix e rest _ (sub :: pub) s a ?_
            simp only [List.getElem?_set_ne hne]
            exact ha

theorem publishToTopic_prefix {Event : Type} (w : World Event) (k : String) (e : Event)
    (pub : List SubRef) (s : SubRef) (a : Subscription Event) (ha : w.subObjs[s]? = some a) :
    (publishToTopic w k e pub).state.subObjs[s]? = some a ∨
      (publishToTopic w k e pub).state.subObjs[s]? = some (pushEvent e a) := by
  rcases publishToTopic_cases w k e pub with h | h | ⟨tobj, h⟩ <;> rw [h]
  · exact Or.inl ha
  · exact Or.inl ha
  · exact publishLoop_prefix e _ w pub s a ha

theorem publishKeys_frame_pub {Event : Type} (e : Event) :
    ∀ (ks : List String) (w : World Event) (pub : List SubRef) (s : SubRef), s ∈ pub →
      (publishKeys e ks w pub).state.subObjs[s]? = w.subObjs[s]?
  | [], _, _, _, _ => rfl
  | k :: rest, w, pub, s, hs => by
    rw [publishKeys]
    have h1 := publishToTopic_frame w k e pub s (Or.inr hs)
    cases hrun : publishToTopic w k e pub with
    | fail w1 f =>
      rw [hrun] at h1
      exact h1
    | ok w1 pub1 =>
      rw [hrun] at h1
      simp only [Res.state] at h1
      simp only
      rw [publishKeys_frame_pub e rest w1 pub1 s
        (((publishToTopic_ok w k e pub w1 pub1 hrun).1 s).mpr (Or.inl hs))]
      exact h1

theorem publishKeys_prefix {Event : Type} (e : Event) :
    ∀ (ks : List String) (w : World Event) (pub : List SubRef) (s : SubRef)
      (a : Subscription Event), w.subObjs[s]? = some a →
      (publishKeys e ks w pub).state.subObjs[s]? = some a ∨
        (publishKeys e ks w pub).state.subObjs[s]? = some (pushEvent e a)
  | [], _, _, _, _, ha => Or.inl ha
  | k :: rest, w, pub, s, a, ha => by
    rw [publishKeys]
    have h1 := publishToTopic_prefix w k e pub s a ha
    cases hrun : publishToTopic w k e pub with
    | fail w1 f =>
      rw [hrun] at h1
      exact h1
    | ok w1 pub1 =>
      simp only
      obtain ⟨hpub1, hch1⟩ := publishToTopic_ok w k e pub w1 pub1 hrun
      have hs1 := hch1 s
      rw [ha] at hs1
      simp only [Option.map_some'] at hs1
      by_cases hcond : s ∈ subscribers w k ∧ s ∉ pub
      · rw [if_pos hcond] at hs1
        right
        rw [publishKeys_frame_pub e rest w1 pub1 s ((hpub1 s).mpr (Or.inr hcond.1))]
        exact hs1
      · rw [if_neg hcond] at hs1
        exact publishKeys_prefix e rest w1 pub1 s a hs1

theorem Publish_state {Event : Type} (w : World Event) (e : Event) (ks : List String) :
    (Publish w e ks).state = (publishKeys e ks w []).state := by
  unfold Publish
  cases publishKeys e ks w [] <;> rfl

/-- C20. Publish changes channel contents only: for every memory, event and key list, and
whatever the outcome of `Publish`, the registry and the buffer size, every topic object
(key, subscription set, closed flag) and the number of subscriptions are as before, and every
subscription keeps its joined-topic list, its channel capacity and its closed flag, while its
buffer is either unchanged or has the event appended once. -/
theorem publish_changes_buffers_only {Event : Type} (w : World Event) (e : Event)
    (ks : List String) :
    (Publish w e ks).state.bus = w.bus ∧ (Publish w e ks).state.topicObjs = w.topicObjs ∧
      (Publish w e ks).state.subObjs.length = w.subObjs.length ∧
      ∀ (s : SubRef) (a : Subscription Event), w.subObjs[s]? = some a →
        ∃ b : Subscription Event, (Publish w e ks).state.subObjs[s]? = some b ∧
          b.topics = a.topics ∧ b.ch.cap = a.ch.cap ∧ b.ch.closed = a.ch.closed ∧
          (b.ch.buf = a.ch.buf ∨ b.ch.buf = a.ch.buf ++ [e]) := by
  have hb := Publish_bufOnly w e ks
  refine ⟨hb.bus, hb.topicObjs, hb.len, ?_⟩
  intro s a ha
  rw [Publish_state]
  rcases publishKeys_prefix e ks w [] s a ha with h | h
  · exact ⟨a, h, rfl, rfl, rfl, Or.inl rfl⟩
  · exact ⟨pushEvent e a, h, rfl, rfl, rfl, Or.inr rfl⟩

end eventbus

namespace eventbus

/-! ## A publish that does not complete is parked at a full channel -/

theorem Chan.send_open {Event : Type} (c : Chan Event) (e : Event) (hopen : c.closed = false) :
    (c.buf.length < c.cap ∧ c.send e = .sent { c with buf := c.buf ++ [e] }) ∨
      (¬ c.buf.length < c.cap ∧ c.send e = .wouldBlock) := by
  unfold Chan.send
  by_cases h : c.buf.length < c.cap
  · exact Or.inl ⟨h, by simp [hopen, h]⟩
  · exact Or.inr ⟨h, by simp [hopen, h]⟩

theorem publishLoop_fail {Event : Type} (e : Event) :
    ∀ (subs : List SubRef) (w : World Event) (pub : List SubRef) (w1 : World Event) (f : Fault),
      (∀ s, s ∈ subs → ∃ sobj : Subscription Event,
        w.subObjs[s]? = some sobj ∧ sobj.ch.closed = false) →
      publishLoop e subs w pub = .fail w1 f →
      ∃ (s : SubRef) (sobj : Subscription Event), f = .blocked s ∧ s ∈ subs ∧ s ∉ pub ∧
        w.subObjs[s]? = some sobj ∧ w1.subObjs[s]? = some sobj ∧
        ¬ sobj.ch.buf.length < sobj.ch.cap
  | [], w, pub, w1, f, _, h => by
    rw [publishLoop] at h
    cases h
  | sub :: rest, w, pub, w1, f, hvalid, h => by
    rw [publishLoop] at h
    by_cases hmem : sub ∈ pub
    · simp only [hmem, if_true] at h
      obtain ⟨s, sobj, h1, h2, h3, h4, h5, h6⟩ := publishLoop_fail e rest w pub w1 f
        (fun s hs => hvalid s (List.mem_cons_of_mem _ hs)) h
      exact ⟨s, sobj, h1, List.mem_cons_of_mem _ h2, h3, h4, h5, h6⟩
    · simp only [hmem, if_false] at h
      obtain ⟨sobj, hs, hopen⟩ := hvalid sub (List.mem_cons_self _ _)
      have hlt : sub < w.subObjs.length := lt_of_lookup hs
      simp only [hs] at h
      rcases Chan.send_open sobj.ch e hopen with ⟨_, hsend⟩ | ⟨hfull, hsend⟩
      · simp only [hsend] at h
        obtain ⟨s, a, h1, h2, h3, h4, h5, h6⟩ := publishLoop_fail e rest _ (sub :: pub) w1 f
          (by
            intro s hsr
            by_cases hne : sub = s
            · subst hne
              exact ⟨_, List.getElem?_set_self hlt, hopen⟩
            · simp only [List.getElem?_set_ne hne]
              exact hvalid s (List.mem_cons_of_mem _ hsr)) h
        have hne : sub ≠ s := fun h7 => h3 (h7 ▸ List.mem_cons_self _ _)
        simp only [List.getElem?_set_ne hne] at h4
        exact ⟨s, a, h1, List.mem_cons_of_mem _ h2, fun h7 => h3 (List.mem_cons_of_mem _ h7),
          h4, h5, h6⟩
      · simp only [hsend, Res.fail.injEq] at h
        obtain ⟨h1, h2⟩ := h
        subst h1
        exact ⟨sub, sobj, h2.symm, List.mem_cons_self _ _, hmem, hs, hs, hfull⟩

theorem publishToTopic_fail {Event : Type} (w : World Event) (k : String) (e : Event)
    (pub : List SubRef) (w1 : World Event) (f : Fault)
    (hvalid : ∀ t, sync.Map.Load w.bus.topics.m k = some t → ∃ tobj : topic, w.topicObjs[t]? = some tobj)
    (hopen : ∀ s, s ∈ subscribers w k → ∃ sobj : Subscription Event,
      w.subObjs[s]? = some sobj ∧ sobj.ch.closed = false)
    (h : publishToTopic w k e pub = .fail w1 f) :
    ∃ (s : SubRef) (sobj : Subscription Event), f = .blocked s ∧ s ∈ subscribers w k ∧ s ∉ pub ∧
      w.subObjs[s]? = some sobj ∧ w1.subObjs[s]? = some sobj ∧
      ¬ sobj.ch.buf.length < sobj.ch.cap := by
  cases hload : sync.Map.Load w.bus.topics.m k with
  | none =>
    unfold publishToTopic at h
    rw [typedsyncmap.Map.Load_of_none _ _ hload] at h
    cases h
  | some t =>
    obtain ⟨tobj, ht⟩ := hvalid t hload
    rw [subscribers_of_some w k t tobj hload ht] at hopen ⊢
    unfold publishToTopic at h
    rw [typedsyncmap.Map.Load_of_some _ _ _ hload] at h
    simp only [ht] at h
    exact publishLoop_fail e tobj.subs w pub w1 f hopen h

theorem publishKeys_fail {Event : Type} (e : Event) :
    ∀ (ks : List String) (w : World Event) (pub : List SubRef) (w1 : World Event) (f : Fault),
      (∀ k t, k ∈ ks → sync.Map.Load w.bus.topics.m k = some t →
        ∃ tobj : topic, w.topicObjs[t]? = some tobj) →
      (∀ s, isTarget w ks s = true → ∃ sobj : Subscription Event,
        w.subObjs[s]? = some sobj ∧ sobj.ch.closed = false) →
      publishKeys e ks w pub = .fail w1 f →
      ∃ (s : SubRef) (sobj : Subscription Event), f = .blocked s ∧ isTarget w ks s = true ∧
        s ∉ pub ∧ w.subObjs[s]? = some sobj ∧ w1.subObjs[s]? = some sobj ∧
        ¬ sobj.ch.buf.length < sobj.ch.cap
  | [], w, pub, w1, f, _, _, h => by
    rw [publishKeys] at h
    cases h
  | k :: rest, w, pub, w1, f, hvalid, hopen, h => by
    rw [publishKeys] at h
    cases hrun : publishToTopic w k e pub with
    | fail w2 f2 =>
      simp only [hrun, Res.fail.injEq] at h
      obtain ⟨h1, h2⟩ := h
      subst h1
      subst h2
      obtain ⟨s, sobj, e1, e2, e3, e4, e5, e6⟩ := publishToTopic_fail w k e pub w2 f2
        (fun t ht => hvalid k t (List.mem_cons_self _ _) ht)
        (fun s hs => hopen s ((isTarget_cons w k rest s).mpr (Or.inl hs))) hrun
      exact ⟨s, sobj, e1, (isTarget_cons w k rest s).mpr (Or.inl e2), e3, e4, e5, e6⟩
    | ok w2 pub2 =>
      simp only [hrun] at h
      obtain ⟨hpub2, hch2⟩ := publishToTopic_ok w k e pub w2 pub2 hrun
      have hb : BufOnly w w2 := by
        have hb1 := publishToTopic_bufOnly w k e pub
        rw [hrun] at hb1
        exact hb1
      have htgt : ∀ s, isTarget w2 rest s = isTarget w rest s :=
        fun s => isTarget_congr hb.bus hb.topicObjs rest s
      obtain ⟨s, sobj, e1, e2, e3, e4, e5, e6⟩ := publishKeys_fail e rest w2 pub2 w1 f
        (by
          intro k2 t hk ht
          rw [hb.bus] at ht
          rw [hb.topicObjs]
          exact hvalid k2 t (List.mem_cons_of_mem _ hk) ht)
        (by
          intro s hs
          rw [htgt s] at hs
          obtain ⟨a, ha, hao⟩ := hopen s ((isTarget_cons w k rest s).mpr (Or.inr hs))
          obtain ⟨b, hb2⟩ := lookup_some_of_len hb.len ha
          obtain ⟨⟨_, _, c3⟩, _⟩ := hb.shape s a b ha hb2
          exact ⟨b, hb2, by rw [c3]; exact hao⟩) h
      rw [htgt s] at e2
      have hn : ¬ (s ∈ subscribers w k ∧ s ∉ pub) := by
        rintro ⟨h1, _⟩
        exact e3 ((hpub2 s).mpr (Or.inr h1))
      have hnp : s ∉ pub := fun h1 => e3 ((hpub2 s).mpr (Or.inl h1))
      have hs2 := hch2 s
      rw [e4] at hs2
      cases hw : w.subObjs[s]? with
      | none =>
        rw [hw] at hs2
        cases hs2
      | some a =>
        rw [hw] at hs2
        simp only [Option.map_some', if_neg hn, Option.some.injEq] at hs2
        subst hs2
        exact ⟨s, sobj, e1, (isTarget_cons w k rest s).mpr (Or.inr e2), hnp, hw, e5, e6⟩

theorem Publish_fail {Event : Type} (w : World Event) (e : Event) (ks : List String)
    (w1 : World Event) (f : Fault) (hinv : Inv w) (h : Publish w e ks = .fail w1 f) :
    ∃ (s : SubRef) (sobj : Subscription Event), f = .blocked s ∧ isTarget w ks s = true ∧
      w.subObjs[s]? = some sobj ∧ w1.subObjs[s]? = some sobj ∧
      ¬ sobj.ch.buf.length < sobj.ch.cap := by
  unfold Publish at h
  cases hrun : publishKeys e ks w [] with
  | ok w2 pub2 => simp [hrun] at h
  | fail w2 f2 =>
    simp only [hrun, Res.fail.injEq] at h
    obtain ⟨h1, h2⟩ := h
    subst h1
    subst h2
    obtain ⟨s, sobj, e1, e2, _, e4, e5, e6⟩ := publishKeys_fail e ks w [] w2 f2
      (by
        intro k t _ hload
        obtain ⟨tobj, ht, _⟩ := hinv.reg_open k t hload
        exact ⟨tobj, ht⟩)
      (fun s hs => hinv.target_open ks s hs) hrun
    exact ⟨s, sobj, e1, e2, e4, e5, e6⟩

end eventbus

namespace eventbus

theorem Publish_completes {Event : Type} (w : World Event) (e : Event) (ks : List String)
    (hinv : Inv w) (hroom : ∀ s, isTarget w ks s = true → hasRoom w s = true) :
    ∃ w1 : World Event, Publish w e ks = .ok w1 () := by
  obtain ⟨w1, pub1, hrun, _, _⟩ := publishKeys_spec e ks w []
    (by
      intro k t _ hload
      obtain ⟨tobj, ht, _⟩ := hinv.reg_open k t hload
      exact ⟨tobj, ht⟩)
    (by
      intro s hs _
      obtain ⟨sobj, hsobj, hopen⟩ := hinv.target_open ks s hs
      have hr := hroom s hs
      unfold hasRoom at hr
      rw [hsobj] at hr
      exact ⟨sobj, hsobj, hopen, by simpa using hr⟩)
  refine ⟨w1, ?_⟩
  unfold Publish
  rw [hrun]

theorem sampleFull_reachable : Reachable sampleFull :=
  reachable_run 1 [.subscribe ["k"], .subscribe ["k", "j"], .publish 1 ["j"]]
    (NewWithConfig { BufferSize := 1 }) sampleFull [.subscription 0, .subscription 1, .unit]
    (Reachable.init { BufferSize := 1 }) (by decide)

/-- C13. Backpressure, never drop: in every reachable memory, for every event `e` and key list
`ks`: if some member subscription of a matched topic has its channel at capacity, `Publish`
does not complete but stops blocked at a member subscription whose channel is at capacity,
whose buffer is as before; if every member has room, `Publish` completes; whenever `Publish`
completes, every member subscription has had `e` enqueued; and in the memory where `Publish`
stops, completed or blocked, no channel holds more events than its capacity and every channel
holds its former events, followed by `e` or not: nothing was dropped. -/
theorem publish_backpressure {Event : Type} [ChanLimit Event] (w : World Event) (e : Event)
    (ks : List String)
    (hreach : Reachable w) :
    ((∃ s, isTarget w ks s = true ∧ hasRoom w s = false) →
      ∃ (w1 : World Event) (s1 : SubRef), Publish w e ks = .fail w1 (.blocked s1) ∧
        isTarget w ks s1 = true ∧ hasRoom w s1 = false ∧ channelOf w1 s1 = channelOf w s1) ∧
    ((∀ s, isTarget w ks s = true → hasRoom w s = true) →
      ∃ w1 : World Event, Publish w e ks = .ok w1 ()) ∧
    (∀ w1 : World Event, Publish w e ks = .ok w1 () → ∀ s, isTarget w ks s = true →
      ∃ buf : List Event, channelOf w s = some buf ∧ channelOf w1 s = some (buf ++ [e])) ∧
    (∀ (s : SubRef) (b : Subscription Event), (Publish w e ks).state.subObjs[s]? = some b →
      b.ch.buf.length ≤ b.ch.cap) ∧
    (∀ (s : SubRef) (buf : List Event), channelOf w s = some buf →
      channelOf (Publish w e ks).state s = some buf ∨
        channelOf (Publish w e ks).state s = some (buf ++ [e])) := by
  have hinv := hreach.inv
  have hdeliver : ∀ w1 : World Event, Publish w e ks = .ok w1 () → ∀ s, isTarget w ks s = true →
      ∃ sobj : Subscription Event, w.subObjs[s]? = some sobj ∧
        w1.subObjs[s]? = some (pushEvent e sobj) := by
    intro w1 hrun s hs
    obtain ⟨sobj, hsobj, _⟩ := hinv.target_open ks s hs
    refine ⟨sobj, hsobj, ?_⟩
    rw [(Publish_ok w e ks w1 hrun).2 s, hsobj]
    simp [hs]
  refine ⟨?_, Publish_completes w e ks hinv, ?_, ?_, ?_⟩
  · rintro ⟨s, hs, hfull⟩
    cases hrun : Publish w e ks with
    | ok w1 u =>
      exfalso
      obtain ⟨sobj, hsobj, hs1⟩ := hdeliver w1 hrun s hs
      have hcap := (hinv.of_bufOnly (Publish_ok w e ks w1 hrun).1).within_cap s _ hs1
      simp only [pushEvent, List.length_append, List.length_singleton] at hcap
      unfold hasRoom at hfull
      rw [hsobj] at hfull
      simp only [decide_eq_false_iff_not] at hfull
      exact hfull hcap
    | fail w1 f =>
      obtain ⟨s1, sobj, e1, e2, e4, e5, e6⟩ := Publish_fail w e ks w1 f hinv hrun
      subst e1
      refine ⟨w1, s1, rfl, e2, ?_, ?_⟩
      · unfold hasRoom
        rw [e4]
        simpa using e6
      · unfold channelOf
        rw [e4, e5]
  · intro w1 hrun s hs
    obtain ⟨sobj, hsobj, hs1⟩ := hdeliver w1 hrun s hs
    refine ⟨sobj.ch.buf, ?_, ?_⟩
    · unfold channelOf
      rw [hsobj]
      rfl
    · unfold channelOf
      rw [hs1]
      rfl
  · intro s b hb
    exact (hinv.of_bufOnly (Publish_bufOnly w e ks)).within_cap s b hb
  · intro s buf hbuf
    unfold channelOf at hbuf ⊢
    cases ha : w.subObjs[s]? with
    | none =>
      rw [ha] at hbuf
      cases hbuf
    | some a =>
      rw [ha] at hbuf
      simp only [Option.map_some', Option.some.injEq] at hbuf
      subst hbuf
      rw [Publish_state]
      rcases publishKeys_prefix e ks w [] s a ha with h | h
      · left
        rw [h]
        rfl
      · right
        rw [h]
        rfl

/-- Witness for C13: in `sampleFull` subscription 1 is full, and `Publish(2, "k", "j")`
enqueues at subscription 0 and then blocks at subscription 1. -/
theorem publish_backpressure_witness :
    ((∃ s, isTarget sampleFull ["k", "j"] s = true ∧ hasRoom sampleFull s = false) →
      ∃ (w1 : World Nat) (s1 : SubRef), Publish sampleFull 2 ["k", "j"] = .fail w1 (.blocked s1) ∧
        isTarget sampleFull ["k", "j"] s1 = true ∧ hasRoom sampleFull s1 = false ∧
        channelOf w1 s1 = channelOf sampleFull s1) ∧
    ((∀ s, isTarget sampleFull ["k", "j"] s = true → hasRoom sampleFull s = true) →
      ∃ w1 : World Nat, Publish sampleFull 2 ["k", "j"] = .ok w1 ()) ∧
    (∀ w1 : World Nat, Publish sampleFull 2 ["k", "j"] = .ok w1 () →
      ∀ s, isTarget sampleFull ["k", "j"] s = true →
      ∃ buf : List Nat, channelOf sampleFull s = some buf ∧ channelOf w1 s = some (buf ++ [2])) ∧
    (∀ (s : SubRef) (b : Subscription Nat),
      (Publish sampleFull 2 ["k", "j"]).state.subObjs[s]? = some b →
      b.ch.buf.length ≤ b.ch.cap) ∧
    (∀ (s : SubRef) (buf : List Nat), channelOf sampleFull s = some buf →
      channelOf (Publish sampleFull 2 ["k", "j"]).state s = some buf ∨
        channelOf (Publish sampleFull 2 ["k", "j"]).state s = some (buf ++ [2])) :=
  publish_backpressure sampleFull 2 ["k", "j"] sampleFull_reachable

end eventbus

namespace eventbus

/-! ## Registry and channel invariants -/

/-- C15. Registry invariant: in every memory reached from a new bus by completed calls, a topic
object is the registry's entry for some key if and only if it is not closed and has at least
one subscription; every registry entry is a topic of that key that is neither closed nor
empty; and every open subscription is, for each key it is subscribed to and each topic it
joined, a member of the topic the registry has for that key. -/
theorem registry_invariant {Event : Type} [ChanLimit Event] (w : World Event)
    (hreach : Reachable w) :
    (∀ (t : TopicRef) (tobj : topic), w.topicObjs[t]? = some tobj →
      ((∃ k : String, w.bus.topics.Load k = some (t, true)) ↔
        (tobj.isClosed = false ∧ tobj.subs ≠ []))) ∧
    (∀ (k : String) (t : TopicRef), w.bus.topics.Load k = some (t, true) →
      ∃ tobj : topic, w.topicObjs[t]? = some tobj ∧ tobj.key = k ∧ tobj.isClosed = false ∧
        tobj.subs ≠ []) ∧
    (∀ (s : SubRef) (k : String), isOpen w s = true → k ∈ subscribedKeys w s →
      s ∈ subscribers w k) ∧
    (∀ (s : SubRef) (sobj : Subscription Event) (t : TopicRef), w.subObjs[s]? = some sobj →
      sobj.ch.closed = false → t ∈ sobj.topics →
      ∃ tobj : topic, w.topicObjs[t]? = some tobj ∧ w.bus.topics.Load tobj.key = some (t, true) ∧
        s ∈ tobj.subs) := by
  have hinv := hreach.inv
  have hjoin : ∀ (s : SubRef) (sobj : Subscription Event) (t : TopicRef),
      w.subObjs[s]? = some sobj → sobj.ch.closed = false → t ∈ sobj.topics →
      ∃ tobj : topic, w.topicObjs[t]? = some tobj ∧ w.bus.topics.Load tobj.key = some (t, true) ∧
        s ∈ tobj.subs := by
    intro s sobj t hs hopen hmem
    obtain ⟨tobj, ht, hin⟩ := hinv.joined s sobj t hs hmem
    have hsin := hin hopen
    have hop : tobj.isClosed = false := by
      cases hc : tobj.isClosed with
      | false => rfl
      | true =>
        have h0 := hinv.closed_empty t tobj ht hc
        rw [h0] at hsin
        cases hsin
    exact ⟨tobj, ht, typedsyncmap.Map.Load_of_some _ _ _ (hinv.open_reg t tobj ht hop).1, hsin⟩
  refine ⟨?_, ?_, ?_, hjoin⟩
  · intro t tobj ht
    constructor
    · rintro ⟨k, hk⟩
      obtain ⟨tobj1, h1, _, hop⟩ :=
        hinv.reg_open k t ((typedsyncmap.Map.Load_eq_true_iff _ _ _).mp hk)
      rw [ht] at h1
      cases h1
      exact ⟨hop, (hinv.open_reg t tobj ht hop).2⟩
    · rintro ⟨hop, _⟩
      exact ⟨tobj.key, typedsyncmap.Map.Load_of_some _ _ _ (hinv.open_reg t tobj ht hop).1⟩
  · intro k t hk
    obtain ⟨tobj, ht, hkey, hop⟩ :=
      hinv.reg_open k t ((typedsyncmap.Map.Load_eq_true_iff _ _ _).mp hk)
    exact ⟨tobj, ht, hkey, hop, (hinv.open_reg t tobj ht hop).2⟩
  · intro s k hopen hk
    unfold isOpen at hopen
    cases hs : w.subObjs[s]? with
    | none => simp [hs] at hopen
    | some sobj =>
      rw [hs] at hopen
      exact (hinv.mem_subscribedKeys_iff s sobj hs (by simpa using hopen) k).mp hk

/-- Witness for C15: the memory `sampleThree`. -/
theorem registry_invariant_witness :
    (∀ (t : TopicRef) (tobj : topic), sampleThree.topicObjs[t]? = some tobj →
      ((∃ k : String, sampleThree.bus.topics.Load k = some (t, true)) ↔
        (tobj.isClosed = false ∧ tobj.subs ≠ []))) ∧
    (∀ (k : String) (t : TopicRef), sampleThree.bus.topics.Load k = some (t, true) →
      ∃ tobj : topic, sampleThree.topicObjs[t]? = some tobj ∧ tobj.key = k ∧
        tobj.isClosed = false ∧ tobj.subs ≠ []) ∧
    (∀ (s : SubRef) (k : String), isOpen sampleThree s = true → k ∈ subscribedKeys sampleThree s →
      s ∈ subscribers sampleThree k) ∧
    (∀ (s : SubRef) (sobj : Subscription Nat) (t : TopicRef), sampleThree.subObjs[s]? = some sobj →
      sobj.ch.closed = false → t ∈ sobj.topics →
      ∃ tobj : topic, sampleThree.topicObjs[t]? = some tobj ∧
        sampleThree.bus.topics.Load tobj.key = some (t, true) ∧ s ∈ tobj.subs) :=
  registry_invariant sampleThree sampleThree_reachable

theorem unsubscribeLoop_detached {Event : Type} (w : World Event) (s : Nat)
    (sobj : Subscription Event) (hinv : Inv w) (hs : w.subObjs[s]? = some sobj)
    (hopen : sobj.ch.closed = false) :
    ∃ w1 : World Event, unsubscribeLoop s sobj.topics w = .ok w1 () ∧ InvU s w1 ∧ Detach s w w1 ∧
      ∀ (t : Nat) (tobj1 : topic), w1.topicObjs[t]? = some tobj1 → s ∉ tobj1.subs := by
  obtain ⟨w1, hrun, hinvU, hd, hnot, _⟩ := unsubscribeLoop_spec s sobj sobj.topics w
    (hinv.toInvU s sobj hs hopen) hs (fun _ h => h)
  refine ⟨w1, hrun, hinvU, hd, ?_⟩
  intro t tobj1 h hmem
  obtain ⟨a, ha, _, hat⟩ := hinvU.member_open t tobj1 s h hmem
  rw [hd.subObjs, hs] at ha
  cases ha
  exact hnot t tobj1 hat h hmem

/-- C16. No write to a closed channel: in every memory reached by completed calls, every
subscription contained in a topic's subscription set exists and has an open channel; the
detach loop of `Unsubscribe` on an open subscription completes with the subscription in no
topic's set while its channel is still open and every member of every set still open, so
the close comes after the detachment; and `Publish` with any event and keys either completes
or stops blocked at a full channel: it never panics on a send to a closed channel. -/
theorem no_send_on_closed_channel {Event : Type} [ChanLimit Event] (w : World Event)
    (hreach : Reachable w) :
    (∀ (t : TopicRef) (tobj : topic) (s : SubRef), w.topicObjs[t]? = some tobj → s ∈ tobj.subs →
      isOpen w s = true) ∧
    (∀ (s : SubRef) (sobj : Subscription Event), w.subObjs[s]? = some sobj →
      sobj.ch.closed = false →
      ∃ w1 : World Event, unsubscribeLoop s sobj.topics w = .ok w1 () ∧
        (∀ (t : TopicRef) (tobj : topic), w1.topicObjs[t]? = some tobj → s ∉ tobj.subs) ∧
        isOpen w1 s = true ∧
        (∀ (t : TopicRef) (tobj : topic) (x : SubRef), w1.topicObjs[t]? = some tobj →
          x ∈ tobj.subs → isOpen w1 x = true)) ∧
    (∀ (e : Event) (ks : List String),
      (∃ w1 : World Event, Publish w e ks = .ok w1 ()) ∨
        ∃ (w1 : World Event) (s : SubRef), Publish w e ks = .fail w1 (.blocked s) ∧
          isOpen w1 s = true) := by
  have hinv := hreach.inv
  refine ⟨?_, ?_, ?_⟩
  · intro t tobj s ht hmem
    obtain ⟨sobj, hs, hopen, _⟩ := hinv.member_open t tobj s ht hmem
    unfold isOpen
    rw [hs]
    simpa using hopen
  · intro s sobj hs hopen
    obtain ⟨w1, hrun, hinvU, hd, hnot⟩ := unsubscribeLoop_detached w s sobj hinv hs hopen
    refine ⟨w1, hrun, hnot, ?_, ?_⟩
    · unfold isOpen
      rw [hd.subObjs, hs]
      simpa using hopen
    · intro t tobj x ht hmem
      obtain ⟨a, ha, hao, _⟩ := hinvU.member_open t tobj x ht hmem
      unfold isOpen
      rw [ha]
      simpa using hao
  · intro e ks
    cases hrun : Publish w e ks with
    | ok w1 u => exact Or.inl ⟨w1, rfl⟩
    | fail w1 f =>
      obtain ⟨s, sobj, e1, e2, e4, e5, _⟩ := Publish_fail w e ks w1 f hinv hrun
      obtain ⟨a, ha, hao⟩ := hinv.target_open ks s e2
      rw [e4] at ha
      cases ha
      subst e1
      refine Or.inr ⟨w1, s, rfl, ?_⟩
      unfold isOpen
      rw [e5]
      simpa using hao

/-- Witness for C16: the memory `sampleFull`. -/
theorem no_send_on_closed_channel_witness :
    (∀ (t : TopicRef) (tobj : topic) (s : SubRef), sampleFull.topicObjs[t]? = some tobj →
      s ∈ tobj.subs → isOpen sampleFull s = true) ∧
    (∀ (s : SubRef) (sobj : Subscription Nat), sampleFull.subObjs[s]? = some sobj →
      sobj.ch.closed = false →
      ∃ w1 : World Nat, unsubscribeLoop s sobj.topics sampleFull = .ok w1 () ∧
        (∀ (t : TopicRef) (tobj : topic), w1.topicObjs[t]? = some tobj → s ∉ tobj.subs) ∧
        isOpen w1 s = true ∧
        (∀ (t : TopicRef) (tobj : topic) (x : SubRef), w1.topicObjs[t]? = some tobj →
          x ∈ tobj.subs → isOpen w1 x = true)) ∧
    (∀ (e : Nat) (ks : List String),
      (∃ w1 : World Nat, Publish sampleFull e ks = .ok w1 ()) ∨
        ∃ (w1 : World Nat) (s : SubRef), Publish sampleFull e ks = .fail w1 (.blocked s) ∧
          isOpen w1 s = true) :=
  no_send_on_closed_channel sampleFull sampleFull_reachable

end eventbus

namespace eventbus

/-! ## The topic lookup -/

theorem findOrCreateTopic_retry {Event : Type} (fuel : Nat) (w : World Event) (k : String)
    (t : TopicRef) (tobj : topic) (hload : sync.Map.Load w.bus.topics.m k = some t)
    (ht : w.topicObjs[t]? = some tobj) (hclosed : tobj.isClosed = true) :
    findOrCreateTopic (fuel + 1) w k = findOrCreateTopic fuel w k := by
  rw [findOrCreateTopic, typedsyncmap.Map.Load_of_some _ _ _ hload]
  simp [ht, hclosed]

theorem findOrCreateTopic_dangling {Event : Type} (fuel : Nat) (w : World Event) (k : String)
    (t : TopicRef) (hload : sync.Map.Load w.bus.topics.m k = some t)
    (ht : w.topicObjs[t]? = none) : findOrCreateTopic (fuel + 1) w k = .fail w .panic := by
  rw [findOrCreateTopic, typedsyncmap.Map.Load_of_some _ _ _ hload]
  simp [ht]

theorem findOrCreateTopic_spins {Event : Type} (w : World Event) (k : String) (t : TopicRef)
    (tobj : topic) (hload : sync.Map.Load w.bus.topics.m k = some t)
    (ht : w.topicObjs[t]? = some tobj) (hclosed : tobj.isClosed = true) :
    ∀ fuel : Nat, findOrCreateTopic fuel w k = .fail w .diverged
  | 0 => rfl
  | fuel + 1 => by
    rw [findOrCreateTopic_retry fuel w k t tobj hload ht hclosed]
    exact findOrCreateTopic_spins w k t tobj hload ht hclosed fuel

theorem findOrCreateTopic_ok_open {Event : Type} (k : String) :
    ∀ (fuel : Nat) (w w1 : World Event) (t : TopicRef), findOrCreateTopic fuel w k = .ok w1 t →
      ∃ tobj : topic, w1.topicObjs[t]? = some tobj ∧ tobj.isClosed = false ∧
        w1.bus.topics.Load k = some (t, true)
  | 0, w, w1, t, h => by
    rw [findOrCreateTopic] at h
    cases h
  | fuel + 1, w, w1, t, h => by
    cases hload : sync.Map.Load w.bus.topics.m k with
    | none =>
      rw [findOrCreateTopic_miss fuel w k hload] at h
      simp only [Res.ok.injEq] at h
      obtain ⟨h1, h2⟩ := h
      subst h1
      subst h2
      refine ⟨{ key := k, subs := [], isClosed := false }, ?_, rfl, ?_⟩
      · simp
      · exact typedsyncmap.Map.Load_of_some _ _ _ (sync.Map.Load_Store_self _ _ _)
    | some t0 =>
      cases ht : w.topicObjs[t0]? with
      | none =>
        rw [findOrCreateTopic_dangling fuel w k t0 hload ht] at h
        cases h
      | some tobj =>
        cases hc : tobj.isClosed with
        | true =>
          rw [findOrCreateTopic_retry fuel w k t0 tobj hload ht hc] at h
          exact findOrCreateTopic_ok_open k fuel w w1 t h
        | false =>
          rw [findOrCreateTopic_hit fuel w k t0 tobj hload ht hc] at h
          simp only [Res.ok.injEq] at h
          obtain ⟨h1, h2⟩ := h
          subst h1
          subst h2
          exact ⟨tobj, ht, hc, typedsyncmap.Map.Load_of_some _ _ _ hload⟩

/-- C17. Result of the topic lookup: in every reachable memory and for every key `k`,
`findOrCreateTopic` returns, with any positive recursion budget, a topic that is not closed,
has key `k` and is the registry's entry for `k` afterwards; when the registry already had a
topic for `k`, that same instance is returned and the memory is unchanged; when it had none,
a new topic object with an empty subscription set is allocated, inserted under `k` and
returned, every other key keeps its entry and nothing else changes.  And from any memory
whatever, a topic it returns is not closed. -/
theorem findOrCreateTopic_result {Event : Type} [ChanLimit Event] (w : World Event) (k : String)
    (fuel : Nat)
    (hreach : Reachable w) :
    (∃ (w1 : World Event) (t : TopicRef) (tobj : topic),
      findOrCreateTopic (fuel + 1) w k = .ok w1 t ∧ w1.topicObjs[t]? = some tobj ∧
      tobj.isClosed = false ∧ tobj.key = k ∧ w1.bus.topics.Load k = some (t, true) ∧
      (∀ t0 : TopicRef, w.bus.topics.Load k = some (t0, true) → t = t0 ∧ w1 = w) ∧
      (w.bus.topics.Load k = some (default, false) →
        w.topicObjs[t]? = none ∧ tobj.subs = [] ∧ w1.topicObjs = w.topicObjs ++ [tobj] ∧
        w1.subObjs = w.subObjs ∧ w1.bus.rawBufferSize = w.bus.rawBufferSize ∧
        ∀ k1 : String, k1 ≠ k → w1.bus.topics.Load k1 = w.bus.topics.Load k1)) ∧
    ∀ (w2 w3 : World Event) (fuel2 : Nat) (t3 : TopicRef),
      findOrCreateTopic fuel2 w2 k = .ok w3 t3 →
      ∃ tobj3 : topic, w3.topicObjs[t3]? = some tobj3 ∧ tobj3.isClosed = false := by
  have hinv := hreach.inv
  refine ⟨?_, ?_⟩
  · cases hload : sync.Map.Load w.bus.topics.m k with
    | some t0 =>
      obtain ⟨tobj, ht, hkey, hop⟩ := hinv.reg_open k t0 hload
      refine ⟨w, t0, tobj, findOrCreateTopic_hit fuel w k t0 tobj hload ht hop, ht, hop, hkey,
        typedsyncmap.Map.Load_of_some _ _ _ hload, ?_, ?_⟩
      · intro t1 h1
        rw [typedsyncmap.Map.Load_of_some _ _ _ hload] at h1
        simp only [Option.some.injEq, Prod.mk.injEq, and_true] at h1
        exact ⟨h1, rfl⟩
      · intro h1
        rw [typedsyncmap.Map.Load_of_some _ _ _ hload] at h1
        cases h1
    | none =>
      refine ⟨_, _, { key := k, subs := [], isClosed := false },
        findOrCreateTopic_miss fuel w k hload, by simp, rfl, rfl,
        typedsyncmap.Map.Load_of_some _ _ _ (sync.Map.Load_Store_self _ _ _), ?_, ?_⟩
      · intro t0 h0
        rw [typedsyncmap.Map.Load_of_none _ _ hload] at h0
        cases h0
      · intro _
        refine ⟨List.getElem?_eq_none (le_refl _), rfl, rfl, rfl, rfl, ?_⟩
        intro k1 hk1
        unfold typedsyncmap.Map.Load
        dsimp only
        rw [sync.Map.Load_Store_ne _ _ _ _ hk1]
  · intro w2 w3 fuel2 t3 h
    obtain ⟨tobj3, h1, h2, _⟩ := findOrCreateTopic_ok_open k fuel2 w2 w3 t3 h
    exact ⟨tobj3, h1, h2⟩

/-- Witness for C17: key "k1" of `sampleOne`, which has a topic. -/
theorem findOrCreateTopic_result_witness :
    (∃ (w1 : World Nat) (t : TopicRef) (tobj : topic),
      findOrCreateTopic (0 + 1) sampleOne "k1" = .ok w1 t ∧ w1.topicObjs[t]? = some tobj ∧
      tobj.isClosed = false ∧ tobj.key = "k1" ∧ w1.bus.topics.Load "k1" = some (t, true) ∧
      (∀ t0 : TopicRef, sampleOne.bus.topics.Load "k1" = some (t0, true) → t = t0 ∧ w1 = sampleOne) ∧
      (sampleOne.bus.topics.Load "k1" = some (default, false) →
        sampleOne.topicObjs[t]? = none ∧ tobj.subs = [] ∧
        w1.topicObjs = sampleOne.topicObjs ++ [tobj] ∧
        w1.subObjs = sampleOne.subObjs ∧ w1.bus.rawBufferSize = sampleOne.bus.rawBufferSize ∧
        ∀ k1 : String, k1 ≠ "k1" → w1.bus.topics.Load k1 = sampleOne.bus.topics.Load k1)) ∧
    ∀ (w2 w3 : World Nat) (fuel2 : Nat) (t3 : TopicRef),
      findOrCreateTopic fuel2 w2 "k1" = .ok w3 t3 →
      ∃ tobj3 : topic, w3.topicObjs[t3]? = some tobj3 ∧ tobj3.isClosed = false :=
  findOrCreateTopic_result sampleOne "k1" 0 sampleOne_reachable

end eventbus

namespace eventbus

/-! ## Eviction -/

theorem sampleRejoined_reachable : Reachable sampleRejoined :=
  reachable_run 1 [.subscribe ["k"], .unsubscribe 0, .subscribe ["k"]] New sampleRejoined
    [.subscription 0, .unit, .subscription 1] (Reachable.init {}) (by decide)

theorem Unsubscribed.top_of_new {Event : Type} {s : SubRef} {sobj : Subscription Event}
    {w w1 : World Event} (hu : Unsubscribed s sobj w w1) (t : TopicRef) (tobj1 : topic)
    (h1 : w1.topicObjs[t]? = some tobj1) :
    ∃ tobj : topic, w.topicObjs[t]? = some tobj ∧ tobj1.key = tobj.key ∧
      tobj1.subs = deleteSub s tobj.subs ∧ (tobj1.isClosed = true ↔ tobj1.subs = []) := by
  have hlt : t < w.topicObjs.length := by
    have := lt_of_lookup h1
    rw [hu.top_len] at this
    exact this
  obtain ⟨tobj2, h2, e1, e2, e3⟩ := hu.top t (w.topicObjs[t]) (List.getElem?_eq_getElem hlt)
  rw [h1] at h2
  cases h2
  exact ⟨_, List.getElem?_eq_getElem hlt, e1, e2, e3⟩

/-- C14 as the code has it.  Eviction is by key: in any memory, `removeSubscription` of `s`
from a topic object leaves every other topic object and every subscription alone; when it
leaves the topic's subscription set empty, the topic is marked closed and the registry has
no entry for the topic's key afterwards, whatever it mapped to, while every other key keeps
its entry; otherwise the registry is unchanged.  And when `Unsubscribe` runs on an open
subscription of a reachable memory, it completes and the registry entries it removed are
exactly those of the topics it left empty, each of which is then closed: every other entry
is kept. -/
theorem eviction_by_key {Event : Type} [ChanLimit Event] (w : World Event) (s : SubRef)
    (sobj : Subscription Event) (hreach : Reachable w) (hs : w.subObjs[s]? = some sobj)
    (hopen : sobj.ch.closed = false) :
    (∀ (w2 : World Event) (t : TopicRef) (tobj : topic) (x : SubRef),
      w2.topicObjs[t]? = some tobj →
      ∃ w3 : World Event, removeSubscription w2 t x = .ok w3 () ∧ w3.subObjs = w2.subObjs ∧
        (∀ t1 : TopicRef, t1 ≠ t → w3.topicObjs[t1]? = w2.topicObjs[t1]?) ∧
        (deleteSub x tobj.subs = [] →
          w3.topicObjs[t]? = some { key := tobj.key, subs := [], isClosed := true } ∧
          w3.bus.topics.Load tobj.key = some (default, false) ∧
          ∀ k1 : String, k1 ≠ tobj.key → w3.bus.topics.Load k1 = w2.bus.topics.Load k1) ∧
        (deleteSub x tobj.subs ≠ [] →
          w3.topicObjs[t]? = some { tobj with subs := deleteSub x tobj.subs } ∧
          w3.bus = w2.bus)) ∧
    ∃ w1 : World Event, Unsubscribe w s = .ok w1 () ∧
      (∀ (k : String) (t : TopicRef), w1.bus.topics.Load k = some (t, true) ↔
        (w.bus.topics.Load k = some (t, true) ∧
          ∃ tobj1 : topic, w1.topicObjs[t]? = some tobj1 ∧ tobj1.subs ≠ [])) ∧
      ∀ (t : TopicRef) (tobj1 : topic), w1.topicObjs[t]? = some tobj1 →
        (tobj1.isClosed = true ↔ tobj1.subs = []) := by
  refine ⟨?_, ?_⟩
  · intro w2 t tobj x ht
    have htlt : t < w2.topicObjs.length := lt_of_lookup ht
    by_cases hempty : deleteSub x tobj.subs = []
    · refine ⟨_, removeSubscription_empty w2 t x tobj ht hempty, rfl, ?_, ?_, ?_⟩
      · intro t1 h1
        exact List.getElem?_set_ne (Ne.symm h1)
      · intro _
        refine ⟨?_, ?_, ?_⟩
        · dsimp only
          rw [List.getElem?_set_self htlt, hempty]
        · exact (typedsyncmap.Map.Load_snd_false_iff _ _).mpr (sync.Map.Load_Delete_self _ _)
        · intro k1 hk1
          unfold typedsyncmap.Map.Load
          dsimp only [typedsyncmap.Map.Delete]
          rw [sync.Map.Load_Delete_ne _ _ _ hk1]
      · intro hne
        exact absurd hempty hne
    · refine ⟨_, removeSubscription_nonempty w2 t x tobj ht hempty, rfl, ?_, ?_, ?_⟩
      · intro t1 h1
        exact List.getElem?_set_ne (Ne.symm h1)
      · intro he
        exact absurd he hempty
      · intro _
        exact ⟨List.getElem?_set_self htlt, rfl⟩
  · obtain ⟨w1, hrun, _, hu⟩ := Unsubscribe_spec w s sobj hreach.inv hs hopen
    refine ⟨w1, hrun, ?_, ?_⟩
    · intro k t
      rw [typedsyncmap.Map.Load_eq_true_iff, typedsyncmap.Map.Load_eq_true_iff]
      exact hu.reg k t
    · intro t tobj1 h1
      obtain ⟨_, _, _, _, e3⟩ := hu.top_of_new t tobj1 h1
      exact e3

/-- Witness for C14 as the code has it: subscription 0 of `sampleTwo` unsubscribes; the entry
of "k2" goes, the entry of "k1" stays. -/
theorem eviction_by_key_witness :
    (∀ (w2 : World Nat) (t : TopicRef) (tobj : topic) (x : SubRef),
      w2.topicObjs[t]? = some tobj →
      ∃ w3 : World Nat, removeSubscription w2 t x = .ok w3 () ∧ w3.subObjs = w2.subObjs ∧
        (∀ t1 : TopicRef, t1 ≠ t → w3.topicObjs[t1]? = w2.topicObjs[t1]?) ∧
        (deleteSub x tobj.subs = [] →
          w3.topicObjs[t]? = some { key := tobj.key, subs := [], isClosed := true } ∧
          w3.bus.topics.Load tobj.key = some (default, false) ∧
          ∀ k1 : String, k1 ≠ tobj.key → w3.bus.topics.Load k1 = w2.bus.topics.Load k1) ∧
        (deleteSub x tobj.subs ≠ [] →
          w3.topicObjs[t]? = some { tobj with subs := deleteSub x tobj.subs } ∧
          w3.bus = w2.bus)) ∧
    ∃ w1 : World Nat, Unsubscribe sampleTwo 0 = .ok w1 () ∧
      (∀ (k : String) (t : TopicRef), w1.bus.topics.Load k = some (t, true) ↔
        (sampleTwo.bus.topics.Load k = some (t, true) ∧
          ∃ tobj1 : topic, w1.topicObjs[t]? = some tobj1 ∧ tobj1.subs ≠ [])) ∧
      ∀ (t : TopicRef) (tobj1 : topic), w1.topicObjs[t]? = some tobj1 →
        (tobj1.isClosed = true ↔ tobj1.subs = []) :=
  eviction_by_key sampleTwo 0 { ch := { buf := [], cap := 10, closed := false }, topics := [0, 1] }
    sampleTwo_reachable (by decide) (by decide)

/-- C14 as stated fails: in `sampleRejoined` the registry maps "k" to the newer topic 1, not
to the closed, already evicted topic 0; removing subscription 0 from topic 0 once more (as
a repeated `Unsubscribe` of subscription 0 does) removes the entry of "k" all the same, and
the newer topic 1, open with subscriber 1, is left without a registry entry. -/
theorem evicted_topic_removes_newer_entry :
    sampleRejoined.bus.topics.Load "k" = some (1, true) ∧
      sampleRejoined.topicObjs[0]? = some { key := "k", subs := [], isClosed := true } ∧
      sampleRejoined.topicObjs[1]? = some { key := "k", subs := [1], isClosed := false } ∧
      (removeSubscription sampleRejoined 0 0).state.bus.topics.Load "k" = some (default, false) ∧
      (removeSubscription sampleRejoined 0 0).state.topicObjs[1]? =
        some { key := "k", subs := [1], isClosed := false } ∧
      (Unsubscribe sampleRejoined 0).state.bus.topics.Load "k" = some (default, false) := by
  decide

end eventbus

namespace eventbus

/-! ## Unsubscribe and the other subscriptions -/

theorem Unsubscribed.keeps_member {Event : Type} {s : SubRef} {sobj : Subscription Event}
    {w w1 : World Event} (hu : Unsubscribed s sobj w w1) (hinv : Inv w) (x : SubRef)
    (hx : x ≠ s) (k : String) (h : x ∈ subscribers w k) : x ∈ subscribers w1 k := by
  cases hload : sync.Map.Load w.bus.topics.m k with
  | none =>
    rw [subscribers_of_none w k hload] at h
    cases h
  | some t =>
    obtain ⟨tobj, ht, _, _⟩ := hinv.reg_open k t hload
    rw [subscribers_of_some w k t tobj hload ht] at h
    obtain ⟨tobj1, h1, _, hsub, _⟩ := hu.top t tobj ht
    have hmem : x ∈ tobj1.subs := by
      rw [hsub]
      exact (mem_deleteSub s x tobj.subs).mpr ⟨h, hx⟩
    have hreg : sync.Map.Load w1.bus.topics.m k = some t :=
      (hu.reg k t).mpr ⟨hload, tobj1, h1, List.ne_nil_of_mem hmem⟩
    rw [subscribers_of_some w1 k t tobj1 hreg h1]
    exact hmem

theorem isTarget_mono {Event : Type} {w w1 : World Event} (x : SubRef)
    (h : ∀ k, x ∈ subscribers w k → x ∈ subscribers w1 k) (ks : List String)
    (ht : isTarget w ks x = true) : isTarget w1 ks x = true := by
  unfold isTarget at ht ⊢
  rw [List.any_eq_true] at ht ⊢
  obtain ⟨k, hk, hmem⟩ := ht
  exact ⟨k, hk, by simpa using h k (by simpa using hmem)⟩

/-- C19. Unsubscribe affects only its own subscription: for every open subscription `s` of a
reachable memory and every other subscription `s2`, `Unsubscribe` of `s` completes and leaves
the subscription object of `s2` (channel contents, open or closed, joined topics) as it was;
`s2` is a member of exactly the topics it was a member of; every topic that still has a
subscriber is not closed and is still the registry's entry for its key; so `s2` is still a
member of the registered topic of every key it was, and a following `Publish` to such a key
completes when no target channel is full and, whenever it completes, appends its event to the
channel of `s2`. -/
theorem unsubscribe_leaves_others {Event : Type} [ChanLimit Event] (w : World Event) (s s2 : SubRef)
    (hreach : Reachable w) (hopen : isOpen w s = true) (hne : s2 ≠ s) :
    ∃ w1 : World Event, Unsubscribe w s = .ok w1 () ∧ w1.subObjs[s2]? = w.subObjs[s2]? ∧
      channelOf w1 s2 = channelOf w s2 ∧ isOpen w1 s2 = isOpen w s2 ∧
      (∀ (t : TopicRef) (tobj : topic), w.topicObjs[t]? = some tobj →
        ∃ tobj1 : topic, w1.topicObjs[t]? = some tobj1 ∧ (s2 ∈ tobj1.subs ↔ s2 ∈ tobj.subs)) ∧
      (∀ (t : TopicRef) (tobj1 : topic), w1.topicObjs[t]? = some tobj1 → tobj1.subs ≠ [] →
        tobj1.isClosed = false ∧ w1.bus.topics.Load tobj1.key = some (t, true) ∧
        w.bus.topics.Load tobj1.key = some (t, true)) ∧
      (∀ k : String, s2 ∈ subscribers w k → s2 ∈ subscribers w1 k) ∧
      (∀ (e : Event) (ks : List String),
        (∀ x, isTarget w1 ks x = true → hasRoom w1 x = true) →
        ∃ w2 : World Event, Publish w1 e ks = .ok w2 ()) ∧
      ∀ (e : Event) (ks : List String) (w2 : World Event), Publish w1 e ks = .ok w2 () →
        isTarget w ks s2 = true →
        ∃ buf : List Event, channelOf w s2 = some buf ∧ channelOf w2 s2 = some (buf ++ [e]) := by
  have hinv := hreach.inv
  unfold isOpen at hopen
  cases hs : w.subObjs[s]? with
  | none => simp [hs] at hopen
  | some sobj =>
    rw [hs] at hopen
    have hop : sobj.ch.closed = false := by simpa using hopen
    obtain ⟨w1, hrun, hinv1, hu⟩ := Unsubscribe_spec w s sobj hinv hs hop
    have hobj : w1.subObjs[s2]? = w.subObjs[s2]? := by
      rw [hu.subObjs, List.getElem?_set_ne (Ne.symm hne)]
    have hkeep := hu.keeps_member hinv s2 hne
    refine ⟨w1, hrun, hobj, ?_, ?_, ?_, ?_, hkeep, ?_, ?_⟩
    · unfold channelOf
      rw [hobj]
    · unfold isOpen
      rw [hobj]
    · intro t tobj ht
      obtain ⟨tobj1, h1, _, hsub, _⟩ := hu.top t tobj ht
      refine ⟨tobj1, h1, ?_⟩
      rw [hsub, mem_deleteSub]
      exact ⟨fun h => h.1, fun h => ⟨h, hne⟩⟩
    · intro t tobj1 h1 hnn
      have hop1 : tobj1.isClosed = false := by
        cases hc : tobj1.isClosed with
        | false => rfl
        | true => exact absurd (hinv1.closed_empty t tobj1 h1 hc) hnn
      have hreg1 := (hinv1.open_reg t tobj1 h1 hop1).1
      exact ⟨hop1, typedsyncmap.Map.Load_of_some _ _ _ hreg1,
        typedsyncmap.Map.Load_of_some _ _ _ ((hu.reg _ t).mp hreg1).1⟩
    · intro e ks hroom
      exact Publish_completes w1 e ks hinv1 hroom
    · intro e ks w2 hpub htgt
      have htgt1 : isTarget w1 ks s2 = true := isTarget_mono s2 hkeep ks htgt
      obtain ⟨a, ha, _⟩ := hinv1.target_open ks s2 htgt1
      refine ⟨a.ch.buf, ?_, ?_⟩
      · unfold channelOf
        rw [← hobj, ha]
        rfl
      · unfold channelOf
        rw [(Publish_ok w1 e ks w2 hpub).2 s2, ha]
        simp [htgt1, pushEvent]

/-- Witness for C19: in `sampleThree` subscriptions 0 and 1 share "k1"; 0 unsubscribes. -/
theorem unsubscribe_leaves_others_witness :
    ∃ w1 : World Nat, Unsubscribe sampleThree 0 = .ok w1 () ∧
      w1.subObjs[1]? = sampleThree.subObjs[1]? ∧
      channelOf w1 1 = channelOf sampleThree 1 ∧ isOpen w1 1 = isOpen sampleThree 1 ∧
      (∀ (t : TopicRef) (tobj : topic), sampleThree.topicObjs[t]? = some tobj →
        ∃ tobj1 : topic, w1.topicObjs[t]? = some tobj1 ∧ (1 ∈ tobj1.subs ↔ 1 ∈ tobj.subs)) ∧
      (∀ (t : TopicRef) (tobj1 : topic), w1.topicObjs[t]? = some tobj1 → tobj1.subs ≠ [] →
        tobj1.isClosed = false ∧ w1.bus.topics.Load tobj1.key = some (t, true) ∧
        sampleThree.bus.topics.Load tobj1.key = some (t, true)) ∧
      (∀ k : String, 1 ∈ subscribers sampleThree k → 1 ∈ subscribers w1 k) ∧
      (∀ (e : Nat) (ks : List String),
        (∀ x, isTarget w1 ks x = true → hasRoom w1 x = true) →
        ∃ w2 : World Nat, Publish w1 e ks = .ok w2 ()) ∧
      ∀ (e : Nat) (ks : List String) (w2 : World Nat), Publish w1 e ks = .ok w2 () →
        isTarget sampleThree ks 1 = true →
        ∃ buf : List Nat, channelOf sampleThree 1 = some buf ∧
          channelOf w2 1 = some (buf ++ [e]) :=
  unsubscribe_leaves_others sampleThree 0 1 sampleThree_reachable (by decide) (by decide)

end eventbus

namespace eventbus

/-! ## What completed calls leave alone -/

/-- A completed call keeps the joined-topic list of every existing subscription and the key
of every existing topic object. -/
theorem step_keeps_shape {Event : Type} [ChanLimit Event] (fuel : Nat) (op : Op Event)
    (w w1 : World Event)
    (r : Ret Event) (hinv : Inv w) (h : step fuel w op = .ok w1 r) :
    (∀ (s : SubRef) (a : Subscription Event), w.subObjs[s]? = some a →
      ∃ b : Subscription Event, w1.subObjs[s]? = some b ∧ b.topics = a.topics) ∧
    (∀ (t : TopicRef) (tobj : topic), w.topicObjs[t]? = some tobj →
      ∃ tobj1 : topic, w1.topicObjs[t]? = some tobj1 ∧ tobj1.key = tobj.key) := by
  have hbuf : ∀ w2 : World Event, BufOnly w w2 →
      (∀ (s : SubRef) (a : Subscription Event), w.subObjs[s]? = some a →
        ∃ b : Subscription Event, w2.subObjs[s]? = some b ∧ b.topics = a.topics) ∧
      (∀ (t : TopicRef) (tobj : topic), w.topicObjs[t]? = some tobj →
        ∃ tobj1 : topic, w2.topicObjs[t]? = some tobj1 ∧ tobj1.key = tobj.key) := by
    intro w2 hb
    refine ⟨?_, ?_⟩
    · intro s a ha
      obtain ⟨b, hb2⟩ := lookup_some_of_len hb.len ha
      obtain ⟨⟨e1, _, _⟩, _⟩ := hb.shape s a b ha hb2
      exact ⟨b, hb2, e1⟩
    · intro t tobj ht
      exact ⟨tobj, by rw [hb.topicObjs]; exact ht, rfl⟩
  cases op with
  | subscribe ks =>
    simp only [step] at h
    cases hrun : Subscribe fuel w ks with
    | fail w2 f => simp [hrun] at h
    | ok w2 s1 =>
      simp only [hrun, Res.ok.injEq] at h
      rw [← h.1]
      obtain ⟨_, _, hj⟩ := Subscribe_ok_spec fuel w w2 ks s1 hinv hrun
      refine ⟨?_, ?_⟩
      · intro s a ha
        have hlt : s < w.subObjs.length := lt_of_lookup ha
        have hne : s ≠ w.subObjs.length := Nat.ne_of_lt hlt
        refine ⟨a, ?_, rfl⟩
        rw [hj.sub_other s hne]
        dsimp only
        rw [List.getElem?_append_left hlt]
        exact ha
      · intro t tobj ht
        obtain ⟨tobj1, h1, e1, _⟩ := hj.top_keep t tobj ht
        exact ⟨tobj1, h1, e1⟩
  | publish e ks =>
    simp only [step] at h
    have hb := Publish_bufOnly w e ks
    cases hrun : Publish w e ks with
    | fail w2 f => simp [hrun] at h
    | ok w2 u =>
      simp only [hrun, Res.ok.injEq] at h
      rw [hrun] at hb
      rw [← h.1]
      exact hbuf w2 hb
  | unsubscribe s1 =>
    simp only [step] at h
    cases hrun : Unsubscribe w s1 with
    | fail w2 f => simp [hrun] at h
    | ok w2 u =>
      simp only [hrun, Res.ok.injEq] at h
      rw [← h.1]
      obtain ⟨sobj, hs, hopen⟩ := Unsubscribe_ok_open w w2 s1 hrun
      obtain ⟨w3, hrun3, _, hu⟩ := Unsubscribe_spec w s1 sobj hinv hs hopen
      rw [hrun] at hrun3
      cases hrun3
      refine ⟨?_, ?_⟩
      · intro s a ha
        rw [hu.subObjs]
        by_cases hne : s1 = s
        · subst hne
          rw [hs] at ha
          cases ha
          exact ⟨_, List.getElem?_set_self (lt_of_lookup hs), rfl⟩
        · exact ⟨a, by rw [List.getElem?_set_ne hne]; exact ha, rfl⟩
      · intro t tobj ht
        obtain ⟨tobj1, h1, e1, _⟩ := hu.top t tobj ht
        exact ⟨tobj1, h1, e1⟩
  | receive s1 =>
    simp only [step] at h
    have hb := Receive_bufOnly w s1
    cases hrun : Receive w s1 with
    | fail w2 f => simp [hrun] at h
    | ok w2 v =>
      simp only [hrun, Res.ok.injEq] at h
      rw [hrun] at hb
      rw [← h.1]
      exact hbuf w2 hb

theorem run_keeps_shape {Event : Type} [ChanLimit Event] (fuel : Nat) :
    ∀ (ops : List (Op Event)) (w w1 : World Event) (rs : List (Ret Event)), Inv w →
      run fuel ops w = .ok w1 rs →
      (∀ (s : SubRef) (a : Subscription Event), w.subObjs[s]? = some a →
        ∃ b : Subscription Event, w1.subObjs[s]? = some b ∧ b.topics = a.topics) ∧
      (∀ (t : TopicRef) (tobj : topic), w.topicObjs[t]? = some tobj →
        ∃ tobj1 : topic, w1.topicObjs[t]? = some tobj1 ∧ tobj1.key = tobj.key)
  | [], w, w1, rs, _, h => by
    rw [run] at h
    cases h
    exact ⟨fun s a ha => ⟨a, ha, rfl⟩, fun t tobj ht => ⟨tobj, ht, rfl⟩⟩
  | op :: rest, w, w1, rs, hinv, h => by
    rw [run] at h
    cases hstep : step fuel w op with
    | fail w2 f => simp [hstep] at h
    | ok w2 r =>
      simp only [hstep] at h
      cases hrest : run fuel rest w2 with
      | fail w3 f => simp [hrest] at h
      | ok w3 rs3 =>
        simp only [hrest, Res.ok.injEq] at h
        obtain ⟨h1, _⟩ := h
        subst h1
        obtain ⟨hs2, ht2⟩ := step_keeps_shape fuel op w w2 r hinv hstep
        obtain ⟨hs3, ht3⟩ := run_keeps_shape fuel rest w2 w3 rs3
          (step_inv fuel op w w2 r hinv hstep) hrest
        refine ⟨?_, ?_⟩
        · intro s a ha
          obtain ⟨b, hb, e1⟩ := hs2 s a ha
          obtain ⟨c, hc, e2⟩ := hs3 s b hb
          exact ⟨c, hc, e2.trans e1⟩
        · intro t tobj ht
          obtain ⟨tobj1, h1, e1⟩ := ht2 t tobj ht
          obtain ⟨tobj2, h2, e2⟩ := ht3 t tobj1 h1
          exact ⟨tobj2, h2, e2.trans e1⟩

theorem Inv.no_topics_not_target {Event : Type} {w : World Event} (hinv : Inv w) (s : SubRef)
    (a : Subscription Event) (ha : w.subObjs[s]? = some a) (hnil : a.topics = [])
    (ks : List String) : isTarget w ks s = false := by
  cases ht : isTarget w ks s with
  | false => rfl
  | true =>
    exfalso
    unfold isTarget at ht
    rw [List.any_eq_true] at ht
    obtain ⟨k, _, hk⟩ := ht
    have hmem : s ∈ subscribers w k := by simpa using hk
    cases hload : sync.Map.Load w.bus.topics.m k with
    | none =>
      rw [subscribers_of_none w k hload] at hmem
      cases hmem
    | some t =>
      obtain ⟨tobj, ht1, _, _⟩ := hinv.reg_open k t hload
      rw [subscribers_of_some w k t tobj hload ht1] at hmem
      obtain ⟨b, hb, _, hbt⟩ := hinv.member_open t tobj s ht1 hmem
      rw [ha] at hb
      cases hb
      rw [hnil] at hbt
      cases hbt

/-- A completed call leaves a subscription that joined no topic and holds no event without
topics and without events. -/
theorem step_keeps_idle {Event : Type} [ChanLimit Event] (fuel : Nat) (op : Op Event)
    (w w1 : World Event)
    (r : Ret Event) (hinv : Inv w) (h : step fuel w op = .ok w1 r) (s : SubRef)
    (a : Subscription Event) (ha : w.subObjs[s]? = some a) (hnil : a.topics = [])
    (hbuf : a.ch.buf = []) :
    ∃ b : Subscription Event, w1.subObjs[s]? = some b ∧ b.topics = [] ∧ b.ch.buf = [] := by
  have hslt : s < w.subObjs.length := lt_of_lookup ha
  cases op with
  | subscribe ks =>
    simp only [step] at h
    cases hrun : Subscribe fuel w ks with
    | fail w2 f => simp [hrun] at h
    | ok w2 s1 =>
      simp only [hrun, Res.ok.injEq] at h
      rw [← h.1]
      obtain ⟨_, _, hj⟩ := Subscribe_ok_spec fuel w w2 ks s1 hinv hrun
      refine ⟨a, ?_, hnil, hbuf⟩
      rw [hj.sub_other s (Nat.ne_of_lt hslt)]
      dsimp only
      rw [List.getElem?_append_left hslt]
      exact ha
  | publish e ks =>
    simp only [step] at h
    have hf := Publish_frame w e ks s (hinv.no_topics_not_target s a ha hnil ks)
    cases hrun : Publish w e ks with
    | fail w2 f => simp [hrun] at h
    | ok w2 u =>
      simp only [hrun, Res.ok.injEq] at h
      rw [hrun] at hf
      rw [← h.1]
      exact ⟨a, hf.trans ha, hnil, hbuf⟩
  | unsubscribe s1 =>
    simp only [step] at h
    cases hrun : Unsubscribe w s1 with
    | fail w2 f => simp [hrun] at h
    | ok w2 u =>
      simp only [hrun, Res.ok.injEq] at h
      rw [← h.1]
      obtain ⟨sobj, hs, hopen⟩ := Unsubscribe_ok_open w w2 s1 hrun
      obtain ⟨w3, hrun3, _, hu⟩ := Unsubscribe_spec w s1 sobj hinv hs hopen
      rw [hrun] at hrun3
      cases hrun3
      rw [hu.subObjs]
      by_cases hne : s1 = s
      · subst hne
        rw [hs] at ha
        cases ha
        exact ⟨_, List.getElem?_set_self hslt, hnil, hbuf⟩
      · exact ⟨a, by rw [List.getElem?_set_ne hne]; exact ha, hnil, hbuf⟩
  | receive s1 =>
    simp only [step] at h
    by_cases hne : s1 = s
    · subst hne
      simp only [Receive, ha, Chan.recv, hbuf] at h
      by_cases hc : a.ch.closed = true
      · simp only [hc, if_true, Res.ok.injEq] at h
        rw [← h.1]
        exact ⟨a, ha, hnil, hbuf⟩
      · simp [hc] at h
    · unfold Receive at h
      cases hs1 : w.subObjs[s1]? with
      | none => simp [hs1] at h
      | some sobj1 =>
        simp only [hs1] at h
        cases hrecv : sobj1.ch.recv with
        | wouldBlock => simp [hrecv] at h
        | endOfStream =>
          simp only [hrecv, Res.ok.injEq] at h
          rw [← h.1]
          exact ⟨a, ha, hnil, hbuf⟩
        | value e c =>
          simp only [hrecv, Res.ok.injEq] at h
          rw [← h.1]
          exact ⟨a, by simp only [List.getElem?_set_ne hne]; exact ha, hnil, hbuf⟩

theorem run_keeps_idle {Event : Type} [ChanLimit Event] (fuel : Nat) :
    ∀ (ops : List (Op Event)) (w w1 : World Event) (rs : List (Ret Event)), Inv w →
      run fuel ops w = .ok w1 rs → ∀ (s : SubRef) (a : Subscription Event),
      w.subObjs[s]? = some a → a.topics = [] → a.ch.buf = [] →
      Inv w1 ∧ ∃ b : Subscription Event, w1.subObjs[s]? = some b ∧ b.topics = [] ∧ b.ch.buf = []
  | [], w, w1, rs, hinv, h, s, a, ha, hnil, hbuf => by
    rw [run] at h
    cases h
    exact ⟨hinv, a, ha, hnil, hbuf⟩
  | op :: rest, w, w1, rs, hinv, h, s, a, ha, hnil, hbuf => by
    rw [run] at h
    cases hstep : step fuel w op with
    | fail w2 f => simp [hstep] at h
    | ok w2 r =>
      simp only [hstep] at h
      cases hrest : run fuel rest w2 with
      | fail w3 f => simp [hrest] at h
      | ok w3 rs3 =>
        simp only [hrest, Res.ok.injEq] at h
        obtain ⟨h1, _⟩ := h
        subst h1
        obtain ⟨b, hb, e1, e2⟩ := step_keeps_idle fuel op w w2 r hinv hstep s a ha hnil hbuf
        exact run_keeps_idle fuel rest w2 w3 rs3 (step_inv fuel op w w2 r hinv hstep) hrest
          s b hb e1 e2

end eventbus

namespace eventbus

/-! ## Key lists: empty and with duplicates -/

/-- C11 as the code has it.  Subscribe with an empty key list is legal: in every reachable
memory whose buffer size is one `make` accepts, `Subscribe()` completes (with any recursion
budget) and returns a new open subscription with an empty channel and no joined topics,
leaving the registry, every topic and every other subscription as they were; after any
further completed calls the subscription still has no topics and an empty channel, every
`Publish`, with any event and any keys and whatever its outcome, leaves it exactly so, and
`Unsubscribe` on it, while it is open, completes and changes nothing but the closed flag of
its channel.  In a memory whose buffer size `make` does not accept, `Subscribe()` panics in
`make` and leaves the memory as it was. -/
theorem subscribe_no_keys {Event : Type} [ChanLimit Event] (w : World Event) (fuel : Nat)
    (hreach : Reachable w) :
    (canAllocate w = true →
    ∃ w1 : World Event, Subscribe fuel w [] = .ok w1 w.subObjs.length ∧ w1.bus = w.bus ∧
      w1.topicObjs = w.topicObjs ∧
      w1.subObjs = w.subObjs ++
        [{ ch := { buf := [], cap := (bufferSizeOrDefault w.bus).toNat, closed := false },
           topics := [] }] ∧
      ∀ (fuel1 : Nat) (ops : List (Op Event)) (w2 : World Event) (rs : List (Ret Event)),
        run fuel1 ops w1 = .ok w2 rs →
        ∃ b : Subscription Event, w2.subObjs[w.subObjs.length]? = some b ∧ b.topics = [] ∧
          b.ch.buf = [] ∧
          (∀ (e : Event) (ks : List String),
            (Publish w2 e ks).state.subObjs[w.subObjs.length]? = some b) ∧
          (b.ch.closed = false →
            Unsubscribe w2 w.subObjs.length =
              .ok { w2 with subObjs := (w2.subObjs.set w.subObjs.length
                      { b with ch := { b.ch with closed := true } }) } ())) ∧
    (canAllocate w = false → Subscribe fuel w [] = .fail w .panic) := by
  have hinv := hreach.inv
  refine ⟨fun hfit => ?_, fun hfit => Subscribe_too_large fuel w [] hfit⟩
  have hinv1 := hinv.alloc_sub
    ({ buf := [], cap := (bufferSizeOrDefault w.bus).toNat, closed := false } : Chan Event)
    (Nat.zero_le _)
  refine ⟨{ w with subObjs := w.subObjs ++
      [{ ch := { buf := [], cap := (bufferSizeOrDefault w.bus).toNat, closed := false },
         topics := [] }] }, ?_, rfl, rfl, rfl, ?_⟩
  · unfold Subscribe
    rw [makeChan_bufferSize w hfit]
    simp only [subscribeLoop]
  · intro fuel1 ops w2 rs hrun
    obtain ⟨hinv2, b, hb, e1, e2⟩ := run_keeps_idle fuel1 ops _ w2 rs hinv1 hrun
      w.subObjs.length _ (List.getElem?_concat_length _ _) rfl rfl
    refine ⟨b, hb, e1, e2, ?_, ?_⟩
    · intro e ks
      rw [Publish_frame w2 e ks _ (hinv2.no_topics_not_target _ b hb e1 ks)]
      exact hb
    · intro hopen
      unfold Unsubscribe
      simp only [hb, e1, unsubscribeLoop, Chan.close, hopen]
      rfl

/-- Witness for C11: `Subscribe()` on `sampleOne`, as in the test "default configuration". -/
theorem subscribe_no_keys_witness :
    ∃ w1 : World Nat, Subscribe 0 sampleOne [] = .ok w1 sampleOne.subObjs.length ∧
      w1.bus = sampleOne.bus ∧ w1.topicObjs = sampleOne.topicObjs ∧
      w1.subObjs = sampleOne.subObjs ++
        [{ ch := { buf := [], cap := (bufferSizeOrDefault sampleOne.bus).toNat, closed := false },
           topics := [] }] ∧
      ∀ (fuel1 : Nat) (ops : List (Op Nat)) (w2 : World Nat) (rs : List (Ret Nat)),
        run fuel1 ops w1 = .ok w2 rs →
        ∃ b : Subscription Nat, w2.subObjs[sampleOne.subObjs.length]? = some b ∧ b.topics = [] ∧
          b.ch.buf = [] ∧
          (∀ (e : Nat) (ks : List String),
            (Publish w2 e ks).state.subObjs[sampleOne.subObjs.length]? = some b) ∧
          (b.ch.closed = false →
            Unsubscribe w2 sampleOne.subObjs.length =
              .ok { w2 with subObjs := (w2.subObjs.set sampleOne.subObjs.length
                      { b with ch := { b.ch with closed := true } }) } ()) :=
  (subscribe_no_keys sampleOne 0 sampleOne_reachable).1 (by decide)

/-- C11 as claimed, "for every bus state `Subscribe()` returns an open subscription", fails on
a bus built with `BufferSize: 9223372036854775807`, the largest `int`, with `int` events on a
64-bit platform: that memory is reachable, and `Subscribe()` returns no subscription with any
budget, as it panics in `make`. -/
theorem subscribe_no_keys_fails_on_unallocatable_size :
    Reachable (NewWithConfig { BufferSize := 9223372036854775807 } : World Nat) ∧
      ∀ fuel : Nat,
        Subscribe fuel (NewWithConfig { BufferSize := 9223372036854775807 } : World Nat) [] =
            .fail (NewWithConfig { BufferSize := 9223372036854775807 }) .panic ∧
          ¬ ∃ (w1 : World Nat) (s : SubRef),
            Subscribe fuel (NewWithConfig { BufferSize := 9223372036854775807 }) [] =
              .ok w1 s := by
  refine ⟨Reachable.init _, fun fuel => ?_⟩
  have h := Subscribe_too_large fuel
    (NewWithConfig { BufferSize := 9223372036854775807 } : World Nat) [] (by decide)
  refine ⟨h, ?_⟩
  rintro ⟨w1, s, hs⟩
  rw [h] at hs
  cases hs

end eventbus

namespace eventbus

theorem filterMap_self {α : Type} (g : α → Option α) :
    ∀ l : List α, (∀ x, x ∈ l → g x = some x) → l.filterMap g = l
  | [], _ => rfl
  | x :: rest, h => by
    rw [List.filterMap_cons, h x (List.mem_cons_self _ _)]
    simp only
    rw [filterMap_self g rest (fun y hy => h y (List.mem_cons_of_mem _ hy))]

theorem JoinAll.subscribedKeys_eq {Event : Type} {ks : List String} {s : SubRef}
    {sobj : Subscription Event} {w w1 : World Event} (hj : JoinAll ks s sobj w w1)
    (hnil : sobj.topics = []) : subscribedKeys w1 s = ks := by
  unfold subscribedKeys
  rw [hj.sub_s]
  simp only [hnil, List.nil_append, List.filterMap_map]
  apply filterMap_self
  intro k hk
  obtain ⟨t, tobj, h1, h2, h3, _⟩ := hj.reg_in k hk
  simp only [Function.comp, typedsyncmap.Map.Load_of_some _ _ _ h1, Option.getD_some, h2,
    Option.map_some', h3]

theorem subscribedKeys_persist {Event : Type} [ChanLimit Event] (fuel : Nat) (ops : List (Op Event))
    (w w1 : World Event) (rs : List (Ret Event)) (hinv : Inv w)
    (hrun : run fuel ops w = .ok w1 rs) (s : SubRef) (a : Subscription Event)
    (ha : w.subObjs[s]? = some a) : subscribedKeys w1 s = subscribedKeys w s := by
  obtain ⟨hsub, htop⟩ := run_keeps_shape fuel ops w w1 rs hinv hrun
  obtain ⟨b, hb, hbt⟩ := hsub s a ha
  unfold subscribedKeys
  rw [ha, hb]
  simp only [hbt]
  apply List.filterMap_congr
  intro t ht
  obtain ⟨tobj, h1, _⟩ := hinv.joined s a t ha ht
  obtain ⟨tobj1, h2, hk⟩ := htop t tobj h1
  rw [h1, h2]
  simp [hk]

/-- C12. Duplicate keys at join time are harmless: in every reachable memory whose buffer size
is one `make` accepts, so that `Subscribe` can create a subscription, and for every key
list `ks` (with or without repeated keys), `Subscribe(ks...)` completes and the new
subscription is subscribed to the keys of `ks`; after any further completed calls that leave
it open, every `Publish` that completes appends its event to the subscription's channel
exactly once when its key list contains a key of `ks` with the duplicates removed, and not at
all otherwise, so the delivery is that of the key list without duplicates; such a `Publish`
does complete when no target channel is full; and a single `Unsubscribe` completes, leaves
the subscription in no topic's subscription set, and every topic it left empty is closed and
has no registry entry. -/
theorem duplicate_keys_harmless {Event : Type} [ChanLimit Event] (w : World Event)
    (ks : List String) (fuel : Nat) (hreach : Reachable w) (hfit : canAllocate w = true) :
    ∃ w1 : World Event, Subscribe (fuel + 1) w ks = .ok w1 w.subObjs.length ∧
      subscribedKeys w1 w.subObjs.length = ks ∧
      ∀ (fuel1 : Nat) (ops : List (Op Event)) (w2 : World Event) (rs : List (Ret Event)),
        run fuel1 ops w1 = .ok w2 rs → isOpen w2 w.subObjs.length = true →
        (∀ (e : Event) (ks2 : List String) (w3 : World Event), Publish w2 e ks2 = .ok w3 () →
          ∃ buf : List Event, channelOf w2 w.subObjs.length = some buf ∧
            channelOf w3 w.subObjs.length =
              some (buf ++ if ks2.any (fun k => decide (k ∈ ks.dedup)) = true then [e] else [])) ∧
        (∀ (e : Event) (ks2 : List String),
          (∀ x, isTarget w2 ks2 x = true → hasRoom w2 x = true) →
          ∃ w3 : World Event, Publish w2 e ks2 = .ok w3 ()) ∧
        ∃ w3 : World Event, Unsubscribe w2 w.subObjs.length = .ok w3 () ∧
          (∀ (t : TopicRef) (tobj : topic), w3.topicObjs[t]? = some tobj →
            w.subObjs.length ∉ tobj.subs) ∧
          ∀ (t : TopicRef) (tobj : topic), w3.topicObjs[t]? = some tobj → tobj.subs = [] →
            tobj.isClosed = true ∧ ∀ k : String, w3.bus.topics.Load k ≠ some (t, true) := by
  have hinv := hreach.inv
  obtain ⟨w1, hsub, hinv1, hj⟩ := Subscribe_spec fuel w ks hinv hfit
  have hkeys1 : subscribedKeys w1 w.subObjs.length = ks := hj.subscribedKeys_eq rfl
  refine ⟨w1, hsub, hkeys1, ?_⟩
  intro fuel1 ops w2 rs hrun hopen
  obtain ⟨hinv2, _, _⟩ := run_keeps fuel1 ops w1 w2 rs hinv1 hrun
  have hkeys2 : subscribedKeys w2 w.subObjs.length = ks := by
    rw [subscribedKeys_persist fuel1 ops w1 w2 rs hinv1 hrun _ _ hj.sub_s]
    exact hkeys1
  unfold isOpen at hopen
  cases hs : w2.subObjs[w.subObjs.length]? with
  | none => simp [hs] at hopen
  | some sobj =>
    rw [hs] at hopen
    have hop : sobj.ch.closed = false := by simpa using hopen
    refine ⟨?_, fun e ks2 hroom => Publish_completes w2 e ks2 hinv2 hroom, ?_⟩
    · intro e ks2 w3 hpub
      refine ⟨sobj.ch.buf, ?_, ?_⟩
      · unfold channelOf
        rw [hs]
        rfl
      · have htgt : isTarget w2 ks2 w.subObjs.length =
            ks2.any (fun k => decide (k ∈ ks.dedup)) := by
          rw [hinv2.isTarget_eq _ sobj hs hop ks2, hkeys2]
          congr 1
          funext k
          rw [decide_eq_decide]
          exact List.mem_dedup.symm
        unfold channelOf
        rw [(Publish_ok w2 e ks2 w3 hpub).2 _, hs, htgt]
        simp only [Option.map_some']
        by_cases hany : ks2.any (fun k => decide (k ∈ ks.dedup)) = true
        · rw [if_pos hany, if_pos hany]
          rfl
        · rw [if_neg hany, if_neg hany, List.append_nil]
    · obtain ⟨w3, hrun3, hinv3, hu⟩ := Unsubscribe_spec w2 _ sobj hinv2 hs hop
      refine ⟨w3, hrun3, ?_, ?_⟩
      · intro t tobj ht hmem
        obtain ⟨a, ha, hao, _⟩ := hinv3.member_open t tobj _ ht hmem
        rw [hu.subObjs, List.getElem?_set_self (lt_of_lookup hs)] at ha
        cases ha
        cases hao
      · intro t tobj ht hempty
        obtain ⟨_, _, _, _, e3⟩ := hu.top_of_new t tobj ht
        have hcl := e3.mpr hempty
        refine ⟨hcl, ?_⟩
        intro k hk
        obtain ⟨tobj1, h1, _, hop1⟩ :=
          hinv3.reg_open k t ((typedsyncmap.Map.Load_eq_true_iff _ _ _).mp hk)
        rw [ht] at h1
        cases h1
        rw [hcl] at hop1
        cases hop1

/-- Witness for C12: `Subscribe("k", "k", "j", "k")` on the memory `sampleOne`. -/
theorem duplicate_keys_harmless_witness :
    ∃ w1 : World Nat,
      Subscribe (0 + 1) sampleOne ["k", "k", "j", "k"] = .ok w1 sampleOne.subObjs.length ∧
      subscribedKeys w1 sampleOne.subObjs.length = ["k", "k", "j", "k"] ∧
      ∀ (fuel1 : Nat) (ops : List (Op Nat)) (w2 : World Nat) (rs : List (Ret Nat)),
        run fuel1 ops w1 = .ok w2 rs → isOpen w2 sampleOne.subObjs.length = true →
        (∀ (e : Nat) (ks2 : List String) (w3 : World Nat), Publish w2 e ks2 = .ok w3 () →
          ∃ buf : List Nat, channelOf w2 sampleOne.subObjs.length = some buf ∧
            channelOf w3 sampleOne.subObjs.length =
              some (buf ++
                if ks2.any (fun k => decide (k ∈ ["k", "k", "j", "k"].dedup)) = true then [e]
                else [])) ∧
        (∀ (e : Nat) (ks2 : List String),
          (∀ x, isTarget w2 ks2 x = true → hasRoom w2 x = true) →
          ∃ w3 : World Nat, Publish w2 e ks2 = .ok w3 ()) ∧
        ∃ w3 : World Nat, Unsubscribe w2 sampleOne.subObjs.length = .ok w3 () ∧
          (∀ (t : TopicRef) (tobj : topic), w3.topicObjs[t]? = some tobj →
            sampleOne.subObjs.length ∉ tobj.subs) ∧
          ∀ (t : TopicRef) (tobj : topic), w3.topicObjs[t]? = some tobj → tobj.subs = [] →
            tobj.isClosed = true ∧ ∀ k : String, w3.bus.topics.Load k ≠ some (t, true) :=
  duplicate_keys_harmless sampleOne ["k", "k", "j", "k"] 0 sampleOne_reachable (by decide)

end eventbus

namespace typedsyncmap

/-! ## Insert-if-absent and deletion on the typed map -/

theorem Map.Load_of_present {K V : Type} [DecidableEq K] [Inhabited V] [Boxed V] (m : Map K V)
    (key : K) (w : V) (h : sync.Map.Load m.m key = some w) (hw : Boxed.isNilInterface w = false) :
    m.Load key = some (w, true) := by
  unfold Map.Load
  rw [h]
  simp only [assertValue_of_not_nil w hw]

theorem Map.Load_of_nil {K V : Type} [DecidableEq K] [Inhabited V] [Boxed V] (m : Map K V)
    (key : K) (w : V) (h : sync.Map.Load m.m key = some w) (hw : Boxed.isNilInterface w = true) :
    m.Load key = none := by
  unfold Map.Load
  rw [h]
  simp only [assertValue_of_nil w hw]

theorem Map.LoadOrStore_of_some {K V : Type} [DecidableEq K] [Boxed V] (m : Map K V) (key : K)
    (value w : V) (h : sync.Map.Load m.m key = some w) (hw : Boxed.isNilInterface w = false) :
    m.LoadOrStore key value = (m, some (w, true)) := by
  unfold Map.LoadOrStore sync.Map.LoadOrStore
  rw [h]
  simp only [assertValue_of_not_nil w hw]

theorem Map.LoadOrStore_of_nil {K V : Type} [DecidableEq K] [Boxed V] (m : Map K V) (key : K)
    (value w : V) (h : sync.Map.Load m.m key = some w) (hw : Boxed.isNilInterface w = true) :
    m.LoadOrStore key value = (m, none) := by
  unfold Map.LoadOrStore sync.Map.LoadOrStore
  rw [h]
  simp only [assertValue_of_nil w hw]

theorem Map.LoadOrStore_of_none {K V : Type} [DecidableEq K] [Boxed V] (m : Map K V) (key : K)
    (value : V) (h : sync.Map.Load m.m key = none) :
    m.LoadOrStore key value = (m.Store key value, some (value, false)) := by
  unfold Map.LoadOrStore sync.Map.LoadOrStore
  rw [h]
  rfl

theorem Map.LoadAndDelete_fst {K V : Type} [DecidableEq K] [Inhabited V] [Boxed V] (m : Map K V)
    (key : K) : (m.LoadAndDelete key).1 = m.Delete key := by
  unfold Map.LoadAndDelete sync.Map.LoadAndDelete Map.Delete
  cases sync.Map.Load m.m key with
  | none => rfl
  | some w =>
    dsimp only
    cases assertValue w <;> rfl

theorem Map.LoadAndDelete_snd {K V : Type} [DecidableEq K] [Inhabited V] [Boxed V] (m : Map K V)
    (key : K) : (m.LoadAndDelete key).2 = m.Load key := by
  unfold Map.LoadAndDelete sync.Map.LoadAndDelete Map.Load
  cases sync.Map.Load m.m key with
  | none => rfl
  | some w =>
    dsimp only
    cases assertValue w <;> rfl

theorem Map.Load_Delete_same {K V : Type} [DecidableEq K] [Inhabited V] [Boxed V] (m : Map K V)
    (key : K) : (m.Delete key).Load key = some (default, false) :=
  Map.Load_of_none _ _ (sync.Map.Load_Delete_self m.m key)

theorem Map.Load_Delete_other {K V : Type} [DecidableEq K] [Inhabited V] [Boxed V] (m : Map K V)
    (key other : K) (hne : other ≠ key) : (m.Delete key).Load other = m.Load other := by
  unfold Map.Load Map.Delete
  rw [sync.Map.Load_Delete_ne m.m key other hne]

theorem Map.Load_Store_other {K V : Type} [DecidableEq K] [Inhabited V] [Boxed V] (m : Map K V)
    (key other : K) (value : V) (hne : other ≠ key) :
    (m.Store key value).Load other = m.Load other := by
  unfold Map.Load Map.Store
  rw [sync.Map.Load_Store_ne m.m key other value hne]

/-- What `LoadOrStore` does, for every map `m`, key `k` and value `v`.  When `k` is present
with a value `w` that is not a nil interface it returns `(w, true)` and leaves the map
unchanged; when `k` is absent it stores `v` and returns `(v, false)`, and a following
`Load(k)` returns `(v, true)` when `v` is not a nil interface; `Load` of every other key is
as before.  On a nil interface the assertion panics: `LoadOrStore` when `k` is present with
it, the following `Load(k)` when it was the value stored. -/
theorem LoadOrStore_insert_if_absent {K V : Type} [DecidableEq K] [Inhabited V] [Boxed V]
    (m : Map K V) (k : K) (v : V) :
    (∀ w : V, sync.Map.Load m.m k = some w → Boxed.isNilInterface w = false →
      m.Load k = some (w, true) ∧ m.LoadOrStore k v = (m, some (w, true))) ∧
    (∀ w : V, sync.Map.Load m.m k = some w → Boxed.isNilInterface w = true →
      m.Load k = none ∧ m.LoadOrStore k v = (m, none)) ∧
    (sync.Map.Load m.m k = none →
      m.Load k = some (default, false) ∧
      m.LoadOrStore k v = (m.Store k v, some (v, false)) ∧
      sync.Map.Load (m.LoadOrStore k v).1.m k = some v ∧
      (Boxed.isNilInterface v = false → (m.LoadOrStore k v).1.Load k = some (v, true)) ∧
      (Boxed.isNilInterface v = true → (m.LoadOrStore k v).1.Load k = none)) ∧
    ∀ k1 : K, k1 ≠ k →
      (m.LoadOrStore k v).1.Load k1 = m.Load k1 ∧
        sync.Map.Load (m.LoadOrStore k v).1.m k1 = sync.Map.Load m.m k1 := by
  refine ⟨?_, ?_, ?_, ?_⟩
  · intro w hw hn
    exact ⟨Map.Load_of_present m k w hw hn, Map.LoadOrStore_of_some m k v w hw hn⟩
  · intro w hw hn
    exact ⟨Map.Load_of_nil m k w hw hn, Map.LoadOrStore_of_nil m k v w hw hn⟩
  · intro hnone
    rw [Map.LoadOrStore_of_none m k v hnone]
    have hst : sync.Map.Load (m.Store k v).m k = some v := sync.Map.Load_Store_self m.m k v
    exact ⟨Map.Load_of_none m k hnone, rfl, hst,
      fun hn => Map.Load_of_present _ k v hst hn, fun hn => Map.Load_of_nil _ k v hst hn⟩
  · intro k1 hne
    have hsame : (m.LoadOrStore k v).1 = m ∨ (m.LoadOrStore k v).1 = m.Store k v := by
      cases h : sync.Map.Load m.m k with
      | none =>
        rw [Map.LoadOrStore_of_none m k v h]
        exact Or.inr rfl
      | some w =>
        cases hn : Boxed.isNilInterface w with
        | false =>
          rw [Map.LoadOrStore_of_some m k v w h hn]
          exact Or.inl rfl
        | true =>
          rw [Map.LoadOrStore_of_nil m k v w h hn]
          exact Or.inl rfl
    rcases hsame with h | h
    · rw [h]
      exact ⟨rfl, rfl⟩
    · rw [h]
      exact ⟨Map.Load_Store_other m k k1 v hne, sync.Map.Load_Store_ne m.m k k1 v hne⟩

/-- The test `TestLoadOrStore`: on the map `{"hello": 123, "world": 456}` of `int` values,
`LoadOrStore("hello", 789)` finds 123 and `LoadOrStore("another", 789)` stores 789. -/
theorem LoadOrStore_insert_if_absent_witness :
    ((⟨[("hello", 123), ("world", 456)]⟩ : Map String Nat).LoadOrStore "hello" 789 =
        (⟨[("hello", 123), ("world", 456)]⟩, some (123, true))) ∧
    ((⟨[("hello", 123), ("world", 456)]⟩ : Map String Nat).LoadOrStore "another" 789 =
        (⟨[("hello", 123), ("world", 456), ("another", 789)]⟩, some (789, false))) ∧
    (((⟨[("hello", 123), ("world", 456)]⟩ : Map String Nat).LoadOrStore "another" 789).1.Load
        "another" = some (789, true)) ∧
    (((⟨[("hello", 123), ("world", 456)]⟩ : Map String Nat).LoadOrStore "another" 789).1.Load
        "world" = some (456, true)) :=
  ⟨((LoadOrStore_insert_if_absent ⟨[("hello", 123), ("world", 456)]⟩ "hello" 789).1 123
      (by decide) (by decide)).2,
    ((LoadOrStore_insert_if_absent ⟨[("hello", 123), ("world", 456)]⟩ "another" 789).2.2.1
      (by decide)).2.1,
    ((LoadOrStore_insert_if_absent ⟨[("hello", 123), ("world", 456)]⟩ "another" 789).2.2.1
      (by decide)).2.2.2.1 (by decide),
    by decide⟩

/-- C23. `LoadOrStore` on a map whose value type is an interface type, at the nil value:
`LoadOrStore("k", nil)` on the empty map stores the nil value and returns it with `false`, the
raw map then holds an entry for "k", and the following `Load("k")` panics in the assertion
`rawValue.(V)` where insert-if-absent promises `(nil, true)`; `LoadOrStore("k", 1)` on the map
that holds nil under "k" panics as well, where it promises `(nil, true)`. -/
theorem LoadOrStore_nil_interface_panics :
    (⟨[]⟩ : Map String (Option Nat)).LoadOrStore "k" none =
      (⟨[("k", none)]⟩, some (none, false)) ∧
    sync.Map.Load ((⟨[]⟩ : Map String (Option Nat)).LoadOrStore "k" none).1.m "k" = some none ∧
    ((⟨[]⟩ : Map String (Option Nat)).LoadOrStore "k" none).1.Load "k" = none ∧
    (⟨[("k", none)]⟩ : Map String (Option Nat)).LoadOrStore "k" (some 1) =
      (⟨[("k", none)]⟩, none) := by
  decide

/-- What deletion does, for every map `m` and key `k`.  After `Delete(k)` or
`LoadAndDelete(k)` a `Load(k)` returns the zero value and `false`, and `Load` of every other
key returns what it returned before; `LoadAndDelete(k)` returns what `Load(k)` returned before
it: the stored value and `true` when `k` was present with a value that is not a nil
interface, the zero value and `false` when `k` was absent, and a panic of the assertion when
`k` was present with a nil interface; deleting an absent key leaves the map as it was. -/
theorem delete_removes_exactly_key {K V : Type} [DecidableEq K] [Inhabited V] [Boxed V]
    (m : Map K V) (k : K) :
    (m.Delete k).Load k = some (default, false) ∧
    (m.LoadAndDelete k).1.Load k = some (default, false) ∧
    (∀ k1 : K, k1 ≠ k →
      (m.Delete k).Load k1 = m.Load k1 ∧ (m.LoadAndDelete k).1.Load k1 = m.Load k1) ∧
    (∀ v : V, sync.Map.Load m.m k = some v → Boxed.isNilInterface v = false →
      m.LoadAndDelete k = (m.Delete k, some (v, true))) ∧
    (∀ v : V, sync.Map.Load m.m k = some v → Boxed.isNilInterface v = true →
      m.LoadAndDelete k = (m.Delete k, none)) ∧
    (sync.Map.Load m.m k = none →
      m.LoadAndDelete k = (m, some (default, false)) ∧ m.Delete k = m) := by
  have hpair : m.LoadAndDelete k = (m.Delete k, m.Load k) :=
    Prod.ext (Map.LoadAndDelete_fst m k) (Map.LoadAndDelete_snd m k)
  refine ⟨Map.Load_Delete_same m k, ?_, ?_, ?_, ?_, ?_⟩
  · rw [Map.LoadAndDelete_fst]
    exact Map.Load_Delete_same m k
  · intro k1 hne
    rw [Map.LoadAndDelete_fst]
    exact ⟨Map.Load_Delete_other m k k1 hne, Map.Load_Delete_other m k k1 hne⟩
  · intro v hv hn
    rw [hpair, Map.Load_of_present m k v hv hn]
  · intro v hv hn
    rw [hpair, Map.Load_of_nil m k v hv hn]
  · intro hnone
    have hdel : m.Delete k = m := by
      unfold Map.Delete
      rw [sync.Map.Delete_of_Load_none m.m k hnone]
    rw [hpair, Map.Load_of_none m k hnone, hdel]
    exact ⟨rfl, rfl⟩

/-- The tests `TestDelete` and `TestLoadAndDelete`: on the map `{"hello": 123, "world": 456}`
of `int` values, `LoadAndDelete("hello")` returns 123 and removes the entry,
`LoadAndDelete("another")` returns 0 and changes nothing. -/
theorem delete_removes_exactly_key_witness :
    ((⟨[("hello", 123), ("world", 456)]⟩ : Map String Nat).LoadAndDelete "hello" =
        (⟨[("world", 456)]⟩, some (123, true))) ∧
    (((⟨[("hello", 123), ("world", 456)]⟩ : Map String Nat).Delete "hello").Load "hello" =
        some (0, false)) ∧
    (((⟨[("hello", 123), ("world", 456)]⟩ : Map String Nat).Delete "hello").Load "world" =
        some (456, true)) ∧
    ((⟨[("hello", 123), ("world", 456)]⟩ : Map String Nat).LoadAndDelete "another" =
        (⟨[("hello", 123), ("world", 456)]⟩, some (0, false))) :=
  ⟨(delete_removes_exactly_key (⟨[("hello", 123), ("world", 456)]⟩ : Map String Nat)
      "hello").2.2.2.1 123 (by decide) (by decide),
    (delete_removes_exactly_key (⟨[("hello", 123), ("world", 456)]⟩ : Map String Nat) "hello").1,
    by decide,
    ((delete_removes_exactly_key (⟨[("hello", 123), ("world", 456)]⟩ : Map String Nat)
      "another").2.2.2.2.2 (by decide)).1⟩

/-- C24. `LoadAndDelete` on a map whose value type is an interface type, at the nil value:
on the map that holds nil under "k" (put there by `Store("k", nil)`), where the raw map's
`LoadAndDelete` returns the stored nil and `true`, `LoadAndDelete("k")` removes the entry and
then panics in the assertion `rawValue.(V)` where the claim promises the stored value and
`true`; `Load("k")` panics in the same way. -/
theorem LoadAndDelete_nil_interface_panics :
    (⟨[]⟩ : Map String (Option Nat)).Store "k" none = ⟨[("k", none)]⟩ ∧
    sync.Map.LoadAndDelete (⟨[("k", none)]⟩ : Map String (Option Nat)).m "k" = ([], some none) ∧
    (⟨[("k", none)]⟩ : Map String (Option Nat)).LoadAndDelete "k" = (⟨[]⟩, none) ∧
    (⟨[("k", none)]⟩ : Map String (Option Nat)).Load "k" = none := by
  decide

end typedsyncmap

namespace eventbus

/-! ## Independence of the iteration order -/

theorem World.eq_of_lookup {Event : Type} {w1 w2 : World Event} (hbus : w1.bus = w2.bus)
    (htop : w1.topicObjs = w2.topicObjs) (hsub : ∀ s : Nat, w1.subObjs[s]? = w2.subObjs[s]?) :
    w1 = w2 := by
  cases w1
  cases w2
  simp only at hbus htop hsub
  subst hbus
  subst htop
  rw [List.ext_getElem? hsub]

theorem publishToTopicIn_same {Event : Type} (w : World Event) (k : String) (e : Event)
    (pub : List SubRef) : publishToTopicIn (fun l => l) w k e pub = publishToTopic w k e pub := rfl

theorem publishKeysIn_same {Event : Type} (e : Event) :
    ∀ (ks : List String) (w : World Event) (pub : List SubRef),
      publishKeysIn e (fun _ l => l) ks w pub = publishKeys e ks w pub
  | [], _, _ => rfl
  | k :: rest, w, pub => by
    rw [publishKeysIn, publishKeys, publishToTopicIn_same]
    cases publishToTopic w k e pub with
    | fail w1 f => rfl
    | ok w1 pub1 => exact publishKeysIn_same e rest w1 pub1

theorem PublishIn_same {Event : Type} (w : World Event) (e : Event) (ks : List String) :
    PublishIn (fun _ l => l) w e ks = Publish w e ks := by
  unfold PublishIn Publish
  rw [publishKeysIn_same]

theorem publishToTopicIn_spec {Event : Type} (order : List SubRef → List SubRef)
    (hperm : ∀ l : List SubRef, (order l).Perm l) (w : World Event) (k : String) (e : Event)
    (pub : List SubRef)
    (hvalid : ∀ t, sync.Map.Load w.bus.topics.m k = some t → ∃ tobj : topic, w.topicObjs[t]? = some tobj)
    (hroom : ∀ s, s ∈ subscribers w k → s ∉ pub → ∃ sobj : Subscription Event,
        w.subObjs[s]? = some sobj ∧ sobj.ch.closed = false ∧ sobj.ch.buf.length < sobj.ch.cap) :
    ∃ (w1 : World Event) (pub1 : List SubRef), publishToTopicIn order w k e pub = .ok w1 pub1 ∧
      BufOnly w w1 ∧
      (∀ x, x ∈ pub1 ↔ x ∈ pub ∨ x ∈ subscribers w k) ∧
      ∀ s, w1.subObjs[s]? =
        (w.subObjs[s]?).map
          (fun sobj => if s ∈ subscribers w k ∧ s ∉ pub then pushEvent e sobj else sobj) := by
  cases hload : sync.Map.Load w.bus.topics.m k with
  | none =>
    rw [subscribers_of_none w k hload] at hroom ⊢
    unfold publishToTopicIn
    rw [typedsyncmap.Map.Load_of_none _ _ hload]
    refine ⟨w, pub, rfl, BufOnly.same w, by simp, ?_⟩
    intro s
    cases w.subObjs[s]? <;> simp
  | some t =>
    obtain ⟨tobj, ht⟩ := hvalid t hload
    rw [subscribers_of_some w k t tobj hload ht] at hroom ⊢
    unfold publishToTopicIn
    rw [typedsyncmap.Map.Load_of_some _ _ _ hload]
    simp only [ht]
    have hmem : ∀ x, x ∈ order tobj.subs ↔ x ∈ tobj.subs := fun x => (hperm tobj.subs).mem_iff
    obtain ⟨w1, pub1, hrun, hpub, hch⟩ := publishLoop_spec e (order tobj.subs) w pub
      (fun s hs hn => hroom s ((hmem s).mp hs) hn)
    have hb := publishLoop_bufOnly e (order tobj.subs) w pub
    rw [hrun] at hb
    refine ⟨w1, pub1, hrun, hb, ?_, ?_⟩
    · intro x
      rw [hpub x, hmem x]
    · intro s
      rw [hch s]
      simp only [hmem s]

theorem publishKeysIn_spec {Event : Type} (e : Event) (order : Nat → List SubRef → List SubRef)
    (hperm : validOrder order) :
    ∀ (ks : List String) (w : World Event) (pub : List SubRef),
      (∀ k t, k ∈ ks → sync.Map.Load w.bus.topics.m k = some t →
        ∃ tobj : topic, w.topicObjs[t]? = some tobj) →
      (∀ s, isTarget w ks s = true → s ∉ pub → ∃ sobj : Subscription Event,
        w.subObjs[s]? = some sobj ∧ sobj.ch.closed = false ∧ sobj.ch.buf.length < sobj.ch.cap) →
      ∃ (w1 : World Event) (pub1 : List SubRef), publishKeysIn e order ks w pub = .ok w1 pub1 ∧
        BufOnly w w1 ∧
        (∀ x, x ∈ pub1 ↔ x ∈ pub ∨ isTarget w ks x = true) ∧
        ∀ s, w1.subObjs[s]? =
          (w.subObjs[s]?).map
            (fun sobj => if isTarget w ks s = true ∧ s ∉ pub then pushEvent e sobj else sobj)
  | [], w, pub, _, _ => by
    refine ⟨w, pub, rfl, BufOnly.same w, by simp [isTarget_nil], ?_⟩
    intro s
    cases w.subObjs[s]? <;> simp [isTarget_nil]
  | k :: rest, w, pub, hvalid, hroom => by
    obtain ⟨w1, pub1, hrun1, hb, hpub1, hch1⟩ := publishToTopicIn_spec (order rest.length)
      (hperm rest.length) w k e pub
      (fun t ht => hvalid k t (List.mem_cons_self _ _) ht)
      (fun s hs hn => hroom s ((isTarget_cons w k rest s).mpr (Or.inl hs)) hn)
    have htgt : ∀ s, isTarget w1 rest s = isTarget w rest s :=
      fun s => isTarget_congr hb.bus hb.topicObjs rest s
    obtain ⟨w2, pub2, hrun2, hb2, hpub2, hch2⟩ := publishKeysIn_spec e order hperm rest w1 pub1
      (by
        intro k2 t hk ht
        rw [hb.bus] at ht
        rw [hb.topicObjs]
        exact hvalid k2 t (List.mem_cons_of_mem _ hk) ht)
      (by
        intro s hs hn
        rw [htgt s] at hs
        have hn1 : s ∉ pub ∧ s ∉ subscribers w k := by
          constructor
          · exact fun h => hn ((hpub1 s).mpr (Or.inl h))
          · exact fun h => hn ((hpub1 s).mpr (Or.inr h))
        rw [hch1 s]
        obtain ⟨sobj, h1, h2, h3⟩ := hroom s ((isTarget_cons w k rest s).mpr (Or.inr hs)) hn1.1
        refine ⟨sobj, ?_, h2, h3⟩
        simp [h1, hn1.2])
    refine ⟨w2, pub2, ?_, BufOnly.chain hb hb2, ?_, ?_⟩
    · rw [publishKeysIn, hrun1]
      exact hrun2
    · intro x
      rw [hpub2 x, hpub1 x, htgt x, isTarget_cons]
      tauto
    · intro s
      rw [hch2 s, hch1 s, htgt s]
      cases hs : w.subObjs[s]? with
      | none => rfl
      | some sobj =>
        simp only [Option.map_some', Option.some.injEq]
        by_cases hp : s ∈ pub
        · have hp1 : s ∈ pub1 := (hpub1 s).mpr (Or.inl hp)
          simp [hp, hp1]
        · by_cases hk : s ∈ subscribers w k
          · have hp1 : s ∈ pub1 := (hpub1 s).mpr (Or.inr hk)
            have ht : isTarget w (k :: rest) s = true := (isTarget_cons w k rest s).mpr (Or.inl hk)
            simp [hp, hp1, hk, ht]
          · have hp1 : s ∉ pub1 := fun h => ((hpub1 s).mp h).elim hp hk
            by_cases hr : isTarget w rest s = true
            · have ht : isTarget w (k :: rest) s = true := (isTarget_cons w k rest s).mpr (Or.inr hr)
              simp [hp, hp1, hk, ht, hr]
            · have ht : ¬ isTarget w (k :: rest) s = true :=
                fun h => ((isTarget_cons w k rest s).mp h).elim hk hr
              simp [hp, hp1, hk, ht, hr]

/-- What `Publish` does under any valid iteration orders when every target is open and has
room: it completes, and the memory afterwards is the one described target by target. -/
theorem PublishIn_spec {Event : Type} (order : Nat → List SubRef → List SubRef)
    (hperm : validOrder order) (w : World Event) (e : Event) (ks : List String) (hinv : Inv w)
    (hroom : ∀ s, isTarget w ks s = true → hasRoom w s = true) :
    ∃ w1 : World Event, PublishIn order w e ks = .ok w1 () ∧ BufOnly w w1 ∧
      ∀ s, w1.subObjs[s]? =
        (w.subObjs[s]?).map (fun sobj => if isTarget w ks s = true then pushEvent e sobj else sobj) := by
  obtain ⟨w1, pub1, hrun, hb, _, hch⟩ := publishKeysIn_spec e order hperm ks w []
    (by
      intro k t _ hload
      obtain ⟨tobj, ht, _⟩ := hinv.reg_open k t hload
      exact ⟨tobj, ht⟩)
    (by
      intro s hs _
      obtain ⟨sobj, hsobj, hopen⟩ := hinv.target_open ks s hs
      have hr := hroom s hs
      unfold hasRoom at hr
      rw [hsobj] at hr
      exact ⟨sobj, hsobj, hopen, by simpa using hr⟩)
  refine ⟨w1, ?_, hb, ?_⟩
  · unfold PublishIn
    rw [hrun]
  · intro s
    rw [hch s]
    simp

end eventbus

namespace eventbus

theorem validOrder_same : validOrder (fun _ l => l) := fun _ l => List.Perm.refl l

theorem validOrder_backwards : validOrder backwards := fun _ l => List.reverse_perm l

theorem sampleTwo_room (s : SubRef) (h : isTarget sampleTwo ["k1"] s = true) :
    hasRoom sampleTwo s = true := by
  have hsubs : subscribers sampleTwo "k1" = [0, 1] := by decide
  have hs : s ∈ subscribers sampleTwo "k1" := by
    rcases (isTarget_cons sampleTwo "k1" [] s).mp h with h1 | h1
    · exact h1
    · rw [isTarget_nil] at h1
      cases h1
  rw [hsubs] at hs
  have h01 : s = 0 ∨ s = 1 := by simpa using hs
  rcases h01 with rfl | rfl <;> decide

/-- C21. `Publish` does not depend on the iteration order of a topic's subscription set: in
every reachable memory, for every event `e` and key list `ks` such that no target channel is
full, `Publish` run under any two choices of iteration orders (one order for each visit of a
topic, each ranging over the whole set) completes in the same memory, which is also the one
`Publish` of the model reaches; in it the channel of every target holds its former events
followed by `e` and every other channel is as before. -/
theorem publish_order_independent {Event : Type} [ChanLimit Event] (w : World Event) (e : Event)
    (ks : List String)
    (order1 order2 : Nat → List SubRef → List SubRef) (hreach : Reachable w)
    (hroom : ∀ s, isTarget w ks s = true → hasRoom w s = true)
    (h1 : validOrder order1) (h2 : validOrder order2) :
    ∃ w1 : World Event, PublishIn order1 w e ks = .ok w1 () ∧ PublishIn order2 w e ks = .ok w1 () ∧
      Publish w e ks = .ok w1 () ∧
      ∀ s, channelOf w1 s =
        (channelOf w s).map (fun buf => if isTarget w ks s = true then buf ++ [e] else buf) := by
  have hinv := hreach.inv
  obtain ⟨w1, hrun1, hb1, hch1⟩ := PublishIn_spec order1 h1 w e ks hinv hroom
  obtain ⟨w2, hrun2, hb2, hch2⟩ := PublishIn_spec order2 h2 w e ks hinv hroom
  obtain ⟨w3, hrun3, hb3, hch3⟩ := PublishIn_spec (fun _ l => l) validOrder_same w e ks hinv hroom
  have h21 : w2 = w1 := World.eq_of_lookup (hb2.bus.trans hb1.bus.symm)
    (hb2.topicObjs.trans hb1.topicObjs.symm) (fun s => (hch2 s).trans (hch1 s).symm)
  have h31 : w3 = w1 := World.eq_of_lookup (hb3.bus.trans hb1.bus.symm)
    (hb3.topicObjs.trans hb1.topicObjs.symm) (fun s => (hch3 s).trans (hch1 s).symm)
  refine ⟨w1, hrun1, ?_, ?_, ?_⟩
  · rw [hrun2, h21]
  · rw [← PublishIn_same, hrun3, h31]
  · intro s
    unfold channelOf
    rw [hch1 s]
    cases w.subObjs[s]? with
    | none => rfl
    | some sobj =>
      simp only [Option.map_some', Option.some.injEq]
      split <;> rfl

/-- Witness for C21: `Publish(7, "k1")` on `sampleTwo`, where topic "k1" has the two
subscriptions 0 and 1, taken first to last and last to first. -/
theorem publish_order_independent_witness :
    ∃ w1 : World Nat, PublishIn (fun _ l => l) sampleTwo 7 ["k1"] = .ok w1 () ∧
      PublishIn backwards sampleTwo 7 ["k1"] = .ok w1 () ∧
      Publish sampleTwo 7 ["k1"] = .ok w1 () ∧
      ∀ s, channelOf w1 s =
        (channelOf sampleTwo s).map
          (fun buf => if isTarget sampleTwo ["k1"] s = true then buf ++ [7] else buf) :=
  publish_order_independent sampleTwo 7 ["k1"] (fun _ l => l) backwards sampleTwo_reachable
    sampleTwo_room validOrder_same validOrder_backwards

/-- With a full target the iteration order does show: on `sampleFull`, where topic "k" has
subscription 0 with room and subscription 1 full, `Publish(9, "k")` blocks at subscription 1
after delivering to subscription 0 when the set is taken first to last, and before it when
the set is taken last to first. -/
theorem publish_order_shows_when_full :
    PublishIn (fun _ l => l) sampleFull 9 ["k"] ≠ PublishIn backwards sampleFull 9 ["k"] ∧
    channelOf (PublishIn (fun _ l => l) sampleFull 9 ["k"]).state 0 = some [9] ∧
    channelOf (PublishIn backwards sampleFull 9 ["k"]).state 0 = some [] := by decide

/-! ## Two calls interleaved -/

/-- C22, at a schedule of two calls that switches goroutines only where the topic lock is
free: on a bus where subscription 0 is the only subscriber of "k", a `Subscribe("k")` whose
`findOrCreateTopic` returned before `Unsubscribe` of subscription 0 ran, and whose
`addSubscription` ran after it, completes, but its topic has been closed and evicted
meanwhile: the registry has no entry for "k", the new subscription is open and a member of
the closed topic only, and `Publish(7, "k")` delivers nothing, where the claim has the
subscription registered in a topic reachable from the registry.  The same two calls run one
after the other, in either order, leave the new subscription in the registered topic. -/
theorem subscribe_across_eviction_is_orphaned :
    subscribeAroundUnsubscribe 1 sampleSingle "k" 0 = .ok sampleOrphan 1 ∧
    sampleOrphan.bus.topics.Load "k" = some (default, false) ∧
    isOpen sampleOrphan 1 = true ∧
    sampleOrphan.topicObjs = [{ key := "k", subs := [1], isClosed := true }] ∧
    isTarget sampleOrphan ["k"] 1 = false ∧
    Publish sampleOrphan 7 ["k"] = .ok sampleOrphan () ∧
    channelOf sampleOrphan 1 = some [] ∧
    isTarget (run 1 [.subscribe ["k"], .unsubscribe 0] sampleSingle).state ["k"] 1 = true ∧
    isTarget (run 1 [.unsubscribe 0, .subscribe ["k"]] sampleSingle).state ["k"] 1 = true := by
  decide

end eventbus

namespace eventbus

/-! ## The topic lookup among other goroutines -/

end eventbus

namespace eventbus

end eventbus

namespace eventbus

/-- The retry at work on `sampleSingle`.  With the removal of subscription 0 from topic 0
between the `Load` and the look at `isClosed`, one attempt is not enough and the second
returns the new topic 1, not the closed topic 0.  Each further retry takes a further eviction
by the others: when they also join and leave topic 1 during the second attempt, that attempt
retries as well and the third returns topic 2. -/
theorem findOrCreateTopicAmid_retries_per_eviction :
    findOrCreateTopicAmid [([], [.remove 0 0])] sampleSingle "k" =
      .fail (interfere [.remove 0 0] sampleSingle) .diverged ∧
    findOrCreateTopicAmid [([], [.remove 0 0]), ([], [])] sampleSingle "k" =
      .ok (findOrCreateTopicAmid [([], [.remove 0 0]), ([], [])] sampleSingle "k").state 1 ∧
    (findOrCreateTopicAmid [([], [.remove 0 0]), ([], [])] sampleSingle "k").state.topicObjs =
      [{ key := "k", subs := [], isClosed := true },
       { key := "k", subs := [], isClosed := false }] ∧
    (findOrCreateTopicAmid [([], [.remove 0 0]), ([], [])] sampleSingle "k").state.bus.topics.Load
      "k" = some (1, true) ∧
    (findOrCreateTopicAmid [([], [.remove 0 0]), ([], [.add 1 7, .remove 1 7])] sampleSingle
      "k").isOk = false ∧
    findOrCreateTopicAmid [([], [.remove 0 0]), ([], [.add 1 7, .remove 1 7]), ([], [])]
        sampleSingle "k" =
      .ok (findOrCreateTopicAmid [([], [.remove 0 0]), ([], [.add 1 7, .remove 1 7]), ([], [])]
        sampleSingle "k").state 2 := by
  decide

end eventbus
